import Mathlib

/-!
# Ledger store and charts of the finance mini-app (`js/app.js`, `js/charts.js`, `app.js`)

A shallow embedding of the client-side data layer (object `API`): the transaction list,
the category list, the cached balance, the read queries and the statistics over them;
of the donut and bar layouts of the object `Charts`, whose canvas calls are represented
by the values they are given (one record per iteration of the drawing loop); and of the
form handler and the period dates of the object `App`.

Modelling conventions
* amounts and angles (JS numbers) are rationals `ℚ`, and every arithmetic function comes in
  two forms: the exact one (`getExpense`, `statsStep`, `Charts.donutLoop`, ...), which
  computes without rounding, and the rounded one (suffix `R`: `getExpenseR`, `statsStepR`,
  `Charts.donutLoopR`, ...), where the result of every operation goes through a rounding
  function `rnd`; with `rnd = Float64.nearest` the rounded form is IEEE double arithmetic
  (round to nearest, ties to even; the exponent range is not represented), and with
  `rnd = id` it is the exact form; NaN is not represented;
* a date (an ISO string in the source) is represented by the reading
  `new Date(d).getTime()` that the code takes of it: `some ms`, or `none` when the
  reading is NaN (an unparsable date);
* a nullable argument (`null`, `undefined`, or a falsy empty string) is `none`;
* the clock (`Date.now()`, `new Date()`) is an explicit input of the operations;
* `String.prototype.toLowerCase` is an explicit parameter `toLowerCase`;
* the persistence and bot-notification calls (`TG.cloudSet`, `TG.sendData`) do not
  touch `_data` and are left out of the state;
* `Math.PI` is the exact value of the double; a
  division by a zero total (NaN or infinite in the source) is kept apart as
  `DonutCanvas.nonFinite` and as a legend percentage `none`;
* a `Date` object is its local-time fields; its time value is computed in the proleptic
  Gregorian calendar for a time zone at a fixed offset from UTC.
-/

namespace SmartFinance

/-- The reading `new Date(d).getTime()` of a date: milliseconds since the epoch,
`none` standing for NaN. -/
abbrev Time := Option Int

/-- A category record of `_data.categories`. -/
structure Category where
  id : Int
  name : String
  icon : String
  type : String
  color : String
deriving DecidableEq

/-- A transaction record of `_data.transactions`. The fields `categoryName` and
`description` may be missing on a record (the source guards them with `|| ''`). -/
structure Transaction where
  id : Int
  amount : ℚ
  category_id : Option Int
  categoryName : Option String
  categoryIcon : String
  description : Option String
  source : String
  date : Time
deriving DecidableEq

/-- The local cache `API._data`. -/
structure Data where
  transactions : List Transaction
  categories : List Category
  balance : ℚ
  currency : String
  weeklyDigest : Bool
deriving DecidableEq

/-- The persisted settings object; either field may be absent. -/
structure Settings where
  currency : Option String
  weeklyDigest : Option Bool
deriving DecidableEq

namespace API

/-- The literal initial value of `API._data`. -/
def _data : Data :=
  { transactions := [], categories := [], balance := 0, currency := "UZS", weeklyDigest := true }

/-- The default categories, `API.DEFAULT_CATEGORIES`. -/
def DEFAULT_CATEGORIES : List Category :=
  [ { id := 1, name := "Еда", icon := "🍔", type := "expense", color := "#FF9500" },
    { id := 2, name := "Транспорт", icon := "🚕", type := "expense", color := "#FF3B30" },
    { id := 3, name := "Жилье", icon := "🏠", type := "expense", color := "#AF52DE" },
    { id := 4, name := "Покупки", icon := "🛒", type := "expense", color := "#FF2D55" },
    { id := 5, name := "Развлечения", icon := "🎭", type := "expense", color := "#5856D6" },
    { id := 6, name := "Здоровье", icon := "❤️", type := "expense", color := "#FF2D55" },
    { id := 7, name := "Образование", icon := "📚", type := "expense", color := "#007AFF" },
    { id := 8, name := "Зарплата", icon := "💰", type := "income", color := "#34C759" },
    { id := 9, name := "Фриланс", icon := "💸", type := "income", color := "#30D158" },
    { id := 10, name := "Другое", icon := "📦", type := "both", color := "#8E8E93" } ]

/-- Method `_recalcBalance`: the balance is recomputed as the left fold
`transactions.reduce((sum, t) => sum + t.amount, 0)`. -/
def _recalcBalance (s : Data) : Data :=
  { s with balance := s.transactions.foldl (fun sum t => sum + t.amount) 0 }

/-- Method `init`: the three cache reads are inputs (`none` when `TG.cloudGet` resolves to
`null`). Categories fall back to the defaults, transactions to the empty list; the
settings are applied only when present; then the balance is recomputed. -/
def init (s : Data) (cachedCats : Option (List Category))
    (cachedTx : Option (List Transaction)) (settings : Option Settings) : Data :=
  let s1 := { s with categories := cachedCats.getD DEFAULT_CATEGORIES }
  let s2 := { s1 with transactions := cachedTx.getD [] }
  let s3 :=
    match settings with
    | none => s2
    | some st =>
      { s2 with
        currency := (match st.currency with
          | some c => if c = "" then "UZS" else c
          | none => "UZS"),
        weeklyDigest := (match st.weeklyDigest with
          | some b => b
          | none => true) }
  _recalcBalance s3

/-- The comparator of `getTransactions`, `new Date(b.date) - new Date(a.date)`;
`none` is the NaN obtained when either date is invalid. -/
def dateCompare (a b : Transaction) : Option Int :=
  match b.date, a.date with
  | some tb, some ta => some (tb - ta)
  | _, _ => none

/-- One insertion step of the stable sort: `a`, which precedes every element of the
list in the original order, keeps its place in front of `b` unless the comparator
is positive (a NaN comparator result counts as `+0`). -/
def sortInsert {α β : Type} [Zero β] [LE β] [DecidableRel (fun (x y : β) => x ≤ y)]
    (cmp : α → α → Option β) (a : α) : List α → List α
  | [] => [a]
  | b :: l =>
    if (match cmp a b with
        | some v => decide (v ≤ 0)
        | none => true) = true
    then a :: b :: l
    else b :: sortInsert cmp a l

/-- Method `Array.prototype.sort(cmp)` as a stable sort (ECMAScript requires stability):
for a comparator that is a consistent ordering the result of a stable sort is
unique, and this insertion sort computes it. The comparator returns a number of
type `β` (a difference of dates or of totals). -/
def sort {α β : Type} [Zero β] [LE β] [DecidableRel (fun (x y : β) => x ≤ y)]
    (cmp : α → α → Option β) : List α → List α
  | [] => []
  | a :: l => sortInsert cmp a (sort cmp l)

/-- Method `getTransactions`: a sorted copy of the list, most recent first. -/
def getTransactions (s : Data) : List Transaction :=
  sort dateCompare s.transactions

/-- Method `getRecent(limit)`. -/
def getRecent (s : Data) (limit : Nat) : List Transaction :=
  (getTransactions s).take limit

/-- Method `String.prototype.includes`: `q` occurs in `str` as a contiguous substring. -/
def includes (str q : String) : Bool :=
  decide (q.data <:+: str.data)

/-- Method `getFiltered(filter, search)`. -/
def getFiltered (toLowerCase : String → String) (s : Data) (filter search : String) :
    List Transaction :=
  let list := getTransactions s
  let list :=
    if filter = "income" then list.filter (fun t => decide (t.amount > 0))
    else if filter = "expense" then list.filter (fun t => decide (t.amount < 0))
    else list
  if search ≠ "" then
    let q := toLowerCase search
    list.filter (fun t =>
      includes (toLowerCase (t.description.getD "")) q ||
      includes (toLowerCase (t.categoryName.getD "")) q)
  else list

/-- Method `addTransaction(amount, categoryId, description, date)`. `idClock` is the reading
of `Date.now()` and `dateClock` the reading of `new Date()` used when no date is
given. Returns the new state and the created transaction. -/
def addTransaction (s : Data) (idClock dateClock : Int) (amount : ℚ)
    (categoryId : Option Int) (description : String) (date : Option Time) :
    Data × Transaction :=
  let category := s.categories.find? (fun c => decide (some c.id = categoryId))
  let tx : Transaction :=
    { id := idClock,
      amount := amount,
      category_id := categoryId,
      categoryName := some (match category with
        | some c => c.name
        | none => ""),
      categoryIcon := (match category with
        | some c => c.icon
        | none => "📦"),
      description := some description,
      source := "webapp",
      date := (match date with
        | some d => d
        | none => some dateClock) }
  (_recalcBalance { s with transactions := s.transactions ++ [tx] }, tx)

/-- Method `deleteTransaction(txId)`. -/
def deleteTransaction (s : Data) (txId : Int) : Data :=
  _recalcBalance { s with transactions := s.transactions.filter (fun t => decide (t.id ≠ txId)) }

/-- Method `getBalance`. -/
def getBalance (s : Data) : ℚ := s.balance

/-- The test `new Date(t.date).getTime() >= from` on two readings; any comparison
with NaN is false. -/
def timeGE (a b : Time) : Bool :=
  match a, b with
  | some x, some y => decide (x ≥ y)
  | _, _ => false

/-- Method `_filterByDate(dateFrom, dateTo)`: a bound is applied only when it is truthy. -/
def _filterByDate (s : Data) (dateFrom dateTo : Option Time) : List Transaction :=
  let list := s.transactions
  let list :=
    match dateFrom with
    | some from_ => list.filter (fun t => timeGE t.date from_)
    | none => list
  match dateTo with
  | some to_ => list.filter (fun t => timeGE to_ t.date)
  | none => list

/-- Method `_periodSum(filter, dateFrom, dateTo)`, the additions exact (`_periodSumR` rounds
them). -/
def _periodSum (s : Data) (filter : Transaction → Bool) (dateFrom dateTo : Option Time) : ℚ :=
  ((_filterByDate s dateFrom dateTo).filter filter).foldl (fun sum t => sum + t.amount) 0

/-- Method `getIncome(dateFrom, dateTo)`. -/
def getIncome (s : Data) (dateFrom dateTo : Option Time) : ℚ :=
  _periodSum s (fun t => decide (t.amount > 0)) dateFrom dateTo

/-- Method `getExpense(dateFrom, dateTo)`: `Math.abs` of the period sum of the negative amounts. -/
def getExpense (s : Data) (dateFrom dateTo : Option Time) : ℚ :=
  |_periodSum s (fun t => decide (t.amount < 0)) dateFrom dateTo|

end API

/-! ## The form handler of the UI layer (`app.js`, object `App`) -/

namespace App

/-- Method `App._saveTransaction`, as far as the ledger is concerned. `parsed` is the result of
`parseFloat` on the amount field (`none` for NaN), `txType` and `selectedCategoryId`
are the fields of `App`, `comment` and `date` the values of the form (`date` is the
reading of a well-formed date field, `none` when the field is empty). The guard
`!amount || amount <= 0` returns before anything is recorded. -/
def _saveTransaction (s : Data) (idClock dateClock : Int) (txType : String)
    (selectedCategoryId : Option Int) (parsed : Option ℚ) (comment : String)
    (date : Option Int) : Data :=
  match parsed with
  | none => s
  | some amount =>
    if amount = 0 ∨ amount ≤ 0 then s
    else
      let finalAmount := if txType = "income" then amount else -amount
      let categoryId : Int :=
        match selectedCategoryId with
        | some c => if c = 0 then 10 else c
        | none => 10
      (API.addTransaction s idClock dateClock finalAmount (some categoryId) comment
        (date.map some)).1

end App

/-! ## Category statistics and daily projections (`js/app.js`, `js/utils.js`) -/

/-- An entry of the result of `getCategoryStats`. -/
structure CategoryStat where
  id : Int
  name : String
  icon : String
  color : String
  total : ℚ
deriving DecidableEq

/-- The local-time reading of `new Date()`: `getFullYear()`, `getMonth()` (0 to 11),
`getDate()` (day of the month), and `monthStart`, the reading
`new Date(now.getFullYear(), now.getMonth(), 1).getTime()` of the first instant of the
current month. -/
structure Now where
  fullYear : Int
  month : Nat
  date : Nat
  monthStart : Int
deriving DecidableEq

namespace Utils

/-- The year a `Date` constructor call `new Date(y, m, d)` denotes: a year argument from
0 to 99 stands for `1900 + y`. -/
def constructorYear (y : Int) : Int :=
  if 0 ≤ y ∧ y ≤ 99 then 1900 + y else y

/-- The value of `new Date(y, m + 1, 0).getDate()`: the last day of month `m` (0 to 11)
of year `y` in the Gregorian calendar. -/
def lastDayOfMonth (y : Int) (m : Nat) : Int :=
  match m with
  | 1 =>
    if (constructorYear y % 4 = 0 ∧ constructorYear y % 100 ≠ 0) ∨ constructorYear y % 400 = 0
    then 29 else 28
  | 3 => 30
  | 5 => 30
  | 8 => 30
  | 10 => 30
  | _ => 31

/-- Method `daysUntilMonthEnd()`: `Math.max(lastDay - now.getDate(), 1)`. -/
def daysUntilMonthEnd (now : Now) : Int :=
  max (lastDayOfMonth now.fullYear now.month - (now.date : Int)) 1

end Utils

namespace API

/-- The expression `tx.category_id || 10`: a missing or zero category id counts as 10. -/
def categoryIdOr10 (tx : Transaction) : Int :=
  match tx.category_id with
  | some c => if c = 0 then 10 else c
  | none => 10

/-- The object literal stored in `map[catId]` when the key is new; `cat` is
`categories.find(c => c.id === catId) || {}`, and a missing or empty field of `cat`
falls back to the name 'Другое', the box icon and the gray colour. -/
def newStat (categories : List Category) (catId : Int) : CategoryStat :=
  let cat := categories.find? (fun c => decide (c.id = catId))
  { id := catId,
    name := (match cat with
      | some c => if c.name = "" then "Другое" else c.name
      | none => "Другое"),
    icon := (match cat with
      | some c => if c.icon = "" then "📦" else c.icon
      | none => "📦"),
    color := (match cat with
      | some c => if c.color = "" then "#8E8E93" else c.color
      | none => "#8E8E93"),
    total := 0 }

/-- One iteration of the loop of `getCategoryStats`. The object `map` is the list of
its values in insertion order, each value stored under the key equal to its `id`. The
addition is exact (`statsStepR` rounds it). -/
def statsStep (categories : List Category) (map : List CategoryStat) (tx : Transaction) :
    List CategoryStat :=
  let catId := categoryIdOr10 tx
  let map :=
    if map.any (fun e => decide (e.id = catId)) then map
    else map ++ [newStat categories catId]
  map.map (fun e => if e.id = catId then { e with total := e.total + |tx.amount| } else e)

/-- Method `Object.values(map)` on an object whose keys are the ids: the keys that are array
indices (integers from 0 to 2^32 - 2) come first in ascending numeric order, the other
keys follow in insertion order. -/
def objectValues (map : List CategoryStat) : List CategoryStat :=
  sort (fun a b => some (a.id - b.id))
      (map.filter (fun e => decide (0 ≤ e.id ∧ e.id < 4294967295))) ++
    map.filter (fun e => !decide (0 ≤ e.id ∧ e.id < 4294967295))

/-- Method `getCategoryStats(dateFrom, dateTo)`. -/
def getCategoryStats (s : Data) (dateFrom dateTo : Option Time) : List CategoryStat :=
  let txs := (_filterByDate s dateFrom dateTo).filter (fun t => decide (t.amount < 0))
  let map := txs.foldl (statsStep s.categories) []
  sort (fun a b => some (b.total - a.total)) (objectValues map)

/-- Method `getAvgDaily()`: `getExpense(start.toISOString()) / Math.max(now.getDate(), 1)`,
with `start` the first instant of the current month and no upper bound. -/
def getAvgDaily (s : Data) (now : Now) : ℚ :=
  getExpense s (some (some now.monthStart)) none / ((max now.date 1 : Nat) : ℚ)

/-- Method `getInPocket()`. -/
def getInPocket (s : Data) (now : Now) : ℚ :=
  if getBalance s ≤ 0 then 0
  else getBalance s / ((Utils.daysUntilMonthEnd now : Int) : ℚ)

/-- Method `getCount(dateFrom, dateTo)`. -/
def getCount (s : Data) (dateFrom dateTo : Option Time) : Nat :=
  (_filterByDate s dateFrom dateTo).length

end API

/-! ## Donut chart (`js/charts.js` and `charts.js`, object `Charts`) -/

namespace Math

/-- The constant `Math.PI`: the double nearest to π, an exact rational. -/
def PI : ℚ := 884279719003555 / 281474976710656

end Math

/-- One legend line: `pct` is `((item.total / total) * 100).toFixed(0)`, `none` when the
quotient is not a finite number (division by a zero total). -/
structure LegendItem where
  color : String
  icon : String
  name : String
  pct : Option Int
deriving DecidableEq

/-- One iteration of the segment loop of the gapped donut: the running `startAngle` at
its start, the constants `sliceAngle`, `adjustedStart` and `adjustedEnd`, whether the
arc is filled (`sliceAngle > gap`), and the colour of the item. -/
structure Slice where
  startAngle : ℚ
  sliceAngle : ℚ
  adjustedStart : ℚ
  adjustedEnd : ℚ
  drawn : Bool
  color : String
deriving DecidableEq

/-- What `drawDonut` puts on the canvas: the placeholder of `_drawEmpty`; or the chart,
given by the iterations of the segment loop, the final value of `startAngle` and the
total shown in the centre; or `nonFinite`, the chart branch taken with a zero total,
where every quotient `item.total / total` is NaN or infinite and no finite geometry
exists (the placeholder is not drawn). -/
inductive DonutCanvas where
  | placeholder (text : String)
  | chart (slices : List Slice) (endAngle : ℚ) (centerTotal : ℚ)
  | nonFinite
deriving DecidableEq

/-- The effect of `drawDonut`: the canvas, and the legend (`none` when there is no legend
element, `some []` when it is cleared). -/
structure Donut where
  canvas : DonutCanvas
  legend : Option (List LegendItem)
deriving DecidableEq

namespace Charts

/-- Method `Number.prototype.toFixed(0)` as an integer: the nearest integer, a tie going
to the larger magnitude. -/
def toFixed0 (x : ℚ) : Int :=
  if x < 0 then -⌊-x + 1 / 2⌋ else ⌊x + 1 / 2⌋

/-- The constant `gap` of `drawDonut`, 0.02 radians. -/
def gap : ℚ := 2 / 100

/-- The segment loop of `drawDonut` (`js/charts.js`), from the running angle `startAngle`,
in exact arithmetic (`donutLoopR` rounds every operation). -/
def donutLoop (total : ℚ) : ℚ → List CategoryStat → List Slice × ℚ
  | startAngle, [] => ([], startAngle)
  | startAngle, item :: rest =>
    let sliceAngle := item.total / total * Math.PI * 2
    let adjustedStart := startAngle + gap / 2
    let adjustedEnd := startAngle + sliceAngle - gap / 2
    let r := donutLoop total (startAngle + sliceAngle) rest
    ({ startAngle := startAngle, sliceAngle := sliceAngle, adjustedStart := adjustedStart,
       adjustedEnd := adjustedEnd, drawn := decide (sliceAngle > gap),
       color := item.color } :: r.1, r.2)

/-- The legend of `drawDonut`, the share computed in exact arithmetic (`legendR` rounds the
quotient and the product). -/
def legend (total : ℚ) (data : List CategoryStat) : List LegendItem :=
  data.map (fun item =>
    { color := item.color, icon := item.icon, name := item.name,
      pct := if total = 0 then none else some (toFixed0 (item.total / total * 100)) })

/-- Method `drawDonut(canvas, data, legendEl)` of `js/charts.js`; `legendEl` tells whether a
legend element is passed. -/
def drawDonut (data : List CategoryStat) (legendEl : Bool) : Donut :=
  if data.length = 0 then
    { canvas := DonutCanvas.placeholder "Нет данных",
      legend := if legendEl then some [] else none }
  else
    let total := data.foldl (fun s d => s + d.total) 0
    let startAngle := -Math.PI / 2
    let canvas :=
      if total = 0 then DonutCanvas.nonFinite
      else
        let r := donutLoop total startAngle data
        DonutCanvas.chart r.1 r.2 total
    { canvas := canvas,
      legend := if legendEl then some (legend total data) else none }

end Charts

namespace ChartsRoot

/-- The segment loop of `drawDonut` in `charts.js` (no gap): every item is drawn from
`startAngle` to `endAngle = startAngle + sliceAngle`, and the next one starts at
`endAngle`. The record holds `adjustedStart = startAngle` and `adjustedEnd = endAngle`.
The arithmetic is exact (`donutLoopR` rounds every operation). -/
def donutLoop (total : ℚ) : ℚ → List CategoryStat → List Slice × ℚ
  | startAngle, [] => ([], startAngle)
  | startAngle, item :: rest =>
    let sliceAngle := item.total / total * Math.PI * 2
    let endAngle := startAngle + sliceAngle
    let r := donutLoop total endAngle rest
    ({ startAngle := startAngle, sliceAngle := sliceAngle, adjustedStart := startAngle,
       adjustedEnd := endAngle, drawn := true, color := item.color } :: r.1, r.2)

/-- Method `drawDonut(canvas, data, legendEl)` of `charts.js`. -/
def drawDonut (data : List CategoryStat) (legendEl : Bool) : Donut :=
  if data.length = 0 then
    { canvas := DonutCanvas.placeholder "Нет данных",
      legend := if legendEl then some [] else none }
  else
    let total := data.foldl (fun s d => s + d.total) 0
    let startAngle := -Math.PI / 2
    let canvas :=
      if total = 0 then DonutCanvas.nonFinite
      else
        let r := donutLoop total startAngle data
        DonutCanvas.chart r.1 r.2 total
    { canvas := canvas,
      legend := if legendEl then some (Charts.legend total data) else none }

end ChartsRoot

/-! ## Bar chart (`js/charts.js`, `Charts.drawBar`) -/

/-- One entry of the bar data: a month label with its income and expense sums. -/
structure MonthlyBar where
  label : String
  income : ℚ
  expense : ℚ
deriving DecidableEq

/-- The path filled by `_drawRoundedBar`: position, width, height and corner radius. -/
structure RoundedBar where
  x : ℚ
  y : ℚ
  w : ℚ
  h : ℚ
  r : ℚ
deriving DecidableEq

/-- One iteration of the bar loop of `drawBar`: the constants `x`, `incomeH`, `incomeY`,
`expenseH`, `expenseY`, the two bars handed to `_drawRoundedBar` (`none` when it returns
without drawing) and the month label with its position. -/
structure BarGroup where
  x : ℚ
  incomeH : ℚ
  incomeY : ℚ
  incomeBar : Option RoundedBar
  expenseH : ℚ
  expenseY : ℚ
  expenseBar : Option RoundedBar
  label : String
  labelX : ℚ
deriving DecidableEq

/-- What `drawBar` puts on the canvas: the placeholder of `_drawEmpty`, or the chart with
its width `w`, the constants `chartH`, `maxVal`, `barWidth` and the bar groups. -/
inductive BarCanvas where
  | placeholder (text : String)
  | chart (w chartH maxVal barWidth : ℚ) (groups : List BarGroup)
deriving DecidableEq

namespace Charts

/-- Method `_drawRoundedBar(ctx, x, y, w, h, r, color)`: nothing is drawn when `h <= 0`;
otherwise the radius is `Math.min(r, h / 2, w / 2)`. -/
def _drawRoundedBar (x y w h r : ℚ) : Option RoundedBar :=
  if h ≤ 0 then none
  else some { x := x, y := y, w := w, h := h, r := min (min r (h / 2)) (w / 2) }

/-- The value `Math.max(...data.map(d => Math.max(d.income, d.expense)), 1)`. -/
def barMaxVal (data : List MonthlyBar) : ℚ :=
  (data.map (fun d => max d.income d.expense)).foldr max 1

/-- The bar loop of `drawBar`, from index `i`; `top` and `left` are the paddings. -/
def barLoop (left top chartH maxVal barGroupWidth barWidth : ℚ) :
    Nat → List MonthlyBar → List BarGroup
  | _, [] => []
  | i, d :: rest =>
    let x := left + (i : ℚ) * barGroupWidth + (barGroupWidth - barWidth * 2 - 6) / 2
    let incomeH := max (d.income / maxVal * chartH) 0
    let incomeY := top + chartH - incomeH
    let expenseH := max (d.expense / maxVal * chartH) 0
    let expenseY := top + chartH - expenseH
    { x := x, incomeH := incomeH, incomeY := incomeY,
      incomeBar := _drawRoundedBar x incomeY barWidth incomeH 6,
      expenseH := expenseH, expenseY := expenseY,
      expenseBar := _drawRoundedBar (x + barWidth + 6) expenseY barWidth expenseH 6,
      label := d.label,
      labelX := left + (i : ℚ) * barGroupWidth + barGroupWidth / 2 } ::
      barLoop left top chartH maxVal barGroupWidth barWidth (i + 1) rest

/-- Method `drawBar(canvas, data)` of `js/charts.js`; `innerWidth` is `window.innerWidth`. -/
def drawBar (innerWidth : ℚ) (data : List MonthlyBar) : BarCanvas :=
  if data.length = 0 then BarCanvas.placeholder "Нет данных"
  else
    let w := min 600 (innerWidth - 64)
    let h : ℚ := 260
    let top : ℚ := 28
    let right : ℚ := 16
    let bottom : ℚ := 40
    let left : ℚ := 16
    let chartW := w - left - right
    let chartH := h - top - bottom
    let maxVal := barMaxVal data
    let barGroupWidth := chartW / (data.length : ℚ)
    let barWidth := min (barGroupWidth * (28 / 100)) 28
    BarCanvas.chart w chartH maxVal barWidth
      (barLoop left top chartH maxVal barGroupWidth barWidth 0 data)

end Charts

/-! ## Dates of the analytics screen (`app.js`, `renderAnalytics`, `_getMonthlyBarData`) -/

/-- The local-time fields of a `Date` object: `getFullYear()`, `getMonth()` (0 to 11),
`getDate()`, `getHours()`, `getMinutes()`, `getSeconds()`, `getMilliseconds()`. -/
structure DateFields where
  fullYear : Int
  month : Int
  date : Int
  hours : Int
  minutes : Int
  seconds : Int
  milliseconds : Int
deriving DecidableEq

namespace JSDate

/-- The number of days from 1 January 1970 to day `d` of month `m` (1 to 12) of year `y` in
the proleptic Gregorian calendar. -/
def daysFromCivil (y m d : Int) : Int :=
  let yy := if m ≤ 2 then y - 1 else y
  let era := yy / 400
  let yoe := yy - era * 400
  let mp := if m > 2 then m - 3 else m + 9
  let doy := (153 * mp + 2) / 5 + d - 1
  let doe := yoe * 365 + yoe / 4 - yoe / 100 + doy
  era * 146097 + doe - 719468

/-- The abstract operation `MakeDay(year, month, date)`: the month is 0-based and may lie
outside 0 to 11 (the year is adjusted), the day may lie outside the month. -/
def makeDay (year month date : Int) : Int :=
  daysFromCivil (year + month / 12) (month % 12 + 1) 1 + date - 1

/-- The time value (ms since the epoch) of local-time fields, in a time zone at the
fixed offset `tz` ms east of UTC (daylight-saving changes are not represented). -/
def makeTime (tz year month date hours minutes seconds ms : Int) : Int :=
  makeDay year month date * 86400000 + hours * 3600000 + minutes * 60000 + seconds * 1000 +
    ms - tz

/-- The time value of `new Date(year, month, date, hours, minutes, seconds)`; a year
argument from 0 to 99 stands for `1900 + year`. -/
def construct (tz year month date hours minutes seconds : Int) : Int :=
  makeTime tz (Utils.constructorYear year) month date hours minutes seconds 0

/-- The value of `getFullYear()` on `new Date(year, month, 1)`. -/
def constructedYear (year month : Int) : Int :=
  Utils.constructorYear year + month / 12

/-- The value of `getMonth()` on `new Date(year, month, 1)`. -/
def constructedMonth (month : Int) : Int :=
  month % 12

/-- Method `getTime()` of the date with the given local fields. -/
def getTime (tz : Int) (f : DateFields) : Int :=
  makeTime tz f.fullYear f.month f.date f.hours f.minutes f.seconds f.milliseconds

/-- Method `getDay()`: the day of the week, 0 for Sunday to 6 for Saturday (1 January 1970
was a Thursday). -/
def getDay (f : DateFields) : Int :=
  (makeDay f.fullYear f.month f.date + 4) % 7

end JSDate

namespace App

/-- The array `monthNames` of `_getMonthlyBarData`. -/
def monthNames : List String :=
  ["Янв", "Фев", "Мар", "Апр", "Май", "Июн", "Июл", "Авг", "Сен", "Окт", "Ноя", "Дек"]

/-- One iteration of the loop of `_getMonthlyBarData`, for the offset `i`. -/
def monthlyBar (s : Data) (tz : Int) (now : DateFields) (i : Int) : MonthlyBar :=
  let d := JSDate.construct tz now.fullYear (now.month - i) 1 0 0 0
  let dYear := JSDate.constructedYear now.fullYear (now.month - i)
  let dMonth := JSDate.constructedMonth (now.month - i)
  let end_ := JSDate.construct tz dYear (dMonth + 1) 0 23 59 59
  { label := monthNames.getD dMonth.toNat "",
    income := API.getIncome s (some (some d)) (some (some end_)),
    expense := API.getExpense s (some (some d)) (some (some end_)) }

/-- Method `_getMonthlyBarData()`: the loop `for (let i = 5; i >= 0; i--)`. -/
def _getMonthlyBarData (s : Data) (tz : Int) (now : DateFields) : List MonthlyBar :=
  [5, 4, 3, 2, 1, 0].map (monthlyBar s tz now)

/-- The time value of `dateFrom` in `renderAnalytics`, by `analyticsPeriod`: for 'week',
`setDate(now.getDate() - now.getDay() + 1)` then `setHours(0, 0, 0, 0)` on a copy of
`now`; for 'quarter', `new Date(year, month - 2, 1)`; otherwise `new Date(year, month, 1)`. -/
def analyticsDateFrom (analyticsPeriod : String) (tz : Int) (now : DateFields) : Int :=
  if analyticsPeriod = "week" then
    JSDate.makeTime tz now.fullYear now.month (now.date - JSDate.getDay now + 1) 0 0 0 0
  else if analyticsPeriod = "quarter" then
    JSDate.construct tz now.fullYear (now.month - 2) 1 0 0 0
  else
    JSDate.construct tz now.fullYear now.month 1 0 0 0

end App

/-! ## Sequences of mutations, and the properties the specification names -/

/-- The arguments of one `addTransaction` call, the two clock readings included. -/
structure AddCall where
  idClock : Int
  dateClock : Int
  amount : ℚ
  categoryId : Option Int
  description : String
  date : Option Time
deriving DecidableEq

/-- A mutation of the ledger. -/
inductive Op where
  | add (c : AddCall)
  | delete (txId : Int)
deriving DecidableEq

/-- The state after one mutation. -/
def step (s : Data) : Op → Data
  | Op.add c =>
    (API.addTransaction s c.idClock c.dateClock c.amount c.categoryId c.description c.date).1
  | Op.delete txId => API.deleteTransaction s txId

/-- The state after a sequence of mutations, applied left to right. -/
def run (s : Data) (ops : List Op) : Data :=
  ops.foldl step s

/-- The sum of the amount fields of a list of transactions. -/
def sumAmounts (l : List Transaction) : ℚ :=
  (l.map (fun t => t.amount)).sum

/-- Date order of the specification: `a` is dated no earlier than `b`, both dates
being valid. -/
def dateGE (a b : Transaction) : Prop :=
  ∃ x y : Int, a.date = some x ∧ b.date = some y ∧ y ≤ x

/-- Order on date readings as the specification uses it: `a ≤ b` with both dates
valid; an invalid date satisfies no comparison. -/
def timeLE (a b : Time) : Bool :=
  match a, b with
  | some x, some y => decide (x ≤ y)
  | _, _ => false

/-- The period `[from, to]` of the specification: both bounds inclusive, an omitted
bound placing no constraint. -/
def inPeriod (dateFrom dateTo : Option Time) (d : Time) : Bool :=
  (match dateFrom with
    | none => true
    | some lo => timeLE lo d) &&
  (match dateTo with
    | none => true
    | some hi => timeLE d hi)

/-- Substring containment as the specification means it: the characters of `q` occur in
`str` contiguously, some characters `pre` before them and some characters `post` after. -/
def ContainsText (str q : String) : Prop :=
  ∃ pre post : List Char, str.data = pre ++ (q.data ++ post)

/-- The search condition of the specification on a transaction: the lower-cased
description or the lower-cased category-name snapshot contains the lower-cased query;
a missing field counts as the empty string. -/
def MatchesSearch (toLowerCase : String → String) (q : String) (t : Transaction) : Prop :=
  ContainsText (toLowerCase (t.description.getD "")) (toLowerCase q) ∨
  ContainsText (toLowerCase (t.categoryName.getD "")) (toLowerCase q)

/-- The search condition as a test on lists of characters, independent of the code's
`includes`: `q` is a contiguous sub-list of the description or of the category name. -/
def matchesSearch (toLowerCase : String → String) (q : String) (t : Transaction) : Bool :=
  decide ((toLowerCase q).data <:+: (toLowerCase (t.description.getD "")).data) ||
  decide ((toLowerCase q).data <:+: (toLowerCase (t.categoryName.getD "")).data)

/-- A lower-casing function for concrete evaluations: `toLowerCase` on ASCII letters. -/
def asciiLower (s : String) : String :=
  String.mk (s.data.map Char.toLower)

/-- The total the specification gives a category: the sum of `|amount|` over the
transactions of the list counted under the id `k`. -/
def expenseTotal (k : Int) (l : List Transaction) : ℚ :=
  ((l.filter (fun t => decide (API.categoryIdOr10 t = k))).map (fun t => |t.amount|)).sum

/-- The expense transactions of the period `[from, to]`. -/
def expensesInPeriod (s : Data) (dateFrom dateTo : Option Time) : List Transaction :=
  s.transactions.filter (fun t => decide (t.amount < 0) && inPeriod dateFrom dateTo t.date)

/-- The loop invariant of `getCategoryStats` after the transactions `l`. -/
def StatsInv (categories : List Category) (map : List CategoryStat) (l : List Transaction) :
    Prop :=
  (map.map (fun e => e.id)).Nodup ∧
  (∀ k, k ∈ map.map (fun e => e.id) ↔ ∃ t ∈ l, API.categoryIdOr10 t = k) ∧
  (∀ e ∈ map, e.name = (API.newStat categories e.id).name ∧
    e.icon = (API.newStat categories e.id).icon ∧ e.color = (API.newStat categories e.id).color ∧
    e.total = expenseTotal e.id l)

/-- Consecutive iterations: the next one starts where the span of the previous one ends. -/
def Consecutive (a b : Slice) : Prop :=
  b.startAngle = a.startAngle + a.sliceAngle

/-- Rounding as the specification names it: to the nearest integer, a tie going up. -/
def roundHalfUp (x : ℚ) : Int :=
  ⌊x + 1 / 2⌋

/-- The heights of one bar group as the specification gives them for the month `d`:
each is `value / maxVal * chartH`, within `[0, chartH]`; a zero value has height 0 and
no bar; a value equal to `maxVal` has height `chartH`. -/
def BarHeights (maxVal chartH : ℚ) (d : MonthlyBar) (g : BarGroup) : Prop :=
  g.label = d.label ∧
  g.incomeH = d.income / maxVal * chartH ∧ g.expenseH = d.expense / maxVal * chartH ∧
  0 ≤ g.incomeH ∧ g.incomeH ≤ chartH ∧ 0 ≤ g.expenseH ∧ g.expenseH ≤ chartH ∧
  (d.income = 0 → g.incomeH = 0 ∧ g.incomeBar = none) ∧
  (d.expense = 0 → g.expenseH = 0 ∧ g.expenseBar = none) ∧
  (0 < d.income → g.incomeBar ≠ none) ∧
  (0 < d.expense → g.expenseBar ≠ none) ∧
  (d.income = maxVal → g.incomeH = chartH) ∧
  (d.expense = maxVal → g.expenseH = chartH)

/-- The number of days of month `month` (0 for January to 11 for December) of the year
`year` in the Gregorian calendar, as the specification's "last day of the month". -/
def daysInMonth (year : Int) (month : Nat) : Int :=
  [31, if (year % 4 = 0 ∧ year % 100 ≠ 0) ∨ year % 400 = 0 then 29 else 28,
    31, 30, 31, 30, 31, 31, 30, 31, 30, 31].getD month 0

/-! ## The arithmetic of JS numbers: rounding to double precision

The definitions above compute in exact rationals. The definitions of this section are the
same code with the result of every arithmetic operation passed through a rounding function
`rnd`: with `rnd = Float64.nearest` they compute what the source computes on doubles, and
with `rnd = id` they are the exact definitions again. Negation, `Math.abs` and comparisons
are exact on doubles and are not rounded. -/

namespace Float64

/-- Rounding of a rational to the nearest integer, a tie going to the even neighbour. -/
def roundHalfEven (x : ℚ) : Int :=
  if x - ⌊x⌋ < 1 / 2 then ⌊x⌋
  else if 1 / 2 < x - ⌊x⌋ then ⌊x⌋ + 1
  else if ⌊x⌋ % 2 = 0 then ⌊x⌋
  else ⌊x⌋ + 1

/-- The double nearest to the rational `x` (IEEE 754 binary64, round to nearest, ties to
even): with `e = ⌊log₂ |x|⌋`, the quotient `x / 2 ^ (e - 52)` is rounded to an integer
significand of 53 bits. The exponent range is not represented (no overflow to an infinity,
no subnormal numbers). -/
def nearest (x : ℚ) : ℚ :=
  if x = 0 then 0
  else
    (roundHalfEven (x / (2 : ℚ) ^ (Int.log 2 |x| - 52)) : ℚ) * (2 : ℚ) ^ (Int.log 2 |x| - 52)

end Float64

namespace API

/-- Method `_periodSum(filter, dateFrom, dateTo)`, every `sum + t.amount` rounded. -/
def _periodSumR (rnd : ℚ → ℚ) (s : Data) (filter : Transaction → Bool)
    (dateFrom dateTo : Option Time) : ℚ :=
  ((_filterByDate s dateFrom dateTo).filter filter).foldl (fun sum t => rnd (sum + t.amount)) 0

/-- Method `getExpense(dateFrom, dateTo)` on rounded sums. -/
def getExpenseR (rnd : ℚ → ℚ) (s : Data) (dateFrom dateTo : Option Time) : ℚ :=
  |_periodSumR rnd s (fun t => decide (t.amount < 0)) dateFrom dateTo|

/-- One iteration of the loop of `getCategoryStats`, the addition
`map[catId].total += Math.abs(tx.amount)` rounded. -/
def statsStepR (rnd : ℚ → ℚ) (categories : List Category) (map : List CategoryStat)
    (tx : Transaction) : List CategoryStat :=
  let catId := categoryIdOr10 tx
  let map :=
    if map.any (fun e => decide (e.id = catId)) then map
    else map ++ [newStat categories catId]
  map.map (fun e => if e.id = catId then { e with total := rnd (e.total + |tx.amount|) } else e)

/-- Method `getCategoryStats(dateFrom, dateTo)` on rounded sums; the comparator
`b.total - a.total` is a rounded difference too. -/
def getCategoryStatsR (rnd : ℚ → ℚ) (s : Data) (dateFrom dateTo : Option Time) :
    List CategoryStat :=
  let txs := (_filterByDate s dateFrom dateTo).filter (fun t => decide (t.amount < 0))
  let map := txs.foldl (statsStepR rnd s.categories) []
  sort (fun a b => some (rnd (b.total - a.total))) (objectValues map)

end API

namespace Charts

/-- The constant `gap` of `drawDonut`: the double written `0.02`. -/
def gapR (rnd : ℚ → ℚ) : ℚ := rnd (2 / 100)

/-- The segment loop of `drawDonut` (`js/charts.js`) with every operation rounded:
`(item.total / total) * Math.PI * 2` is three operations, `startAngle + gap / 2` two,
`startAngle + sliceAngle - gap / 2` three, and `startAngle += sliceAngle` one. -/
def donutLoopR (rnd : ℚ → ℚ) (total : ℚ) : ℚ → List CategoryStat → List Slice × ℚ
  | startAngle, [] => ([], startAngle)
  | startAngle, item :: rest =>
    let sliceAngle := rnd (rnd (rnd (item.total / total) * Math.PI) * 2)
    let adjustedStart := rnd (startAngle + rnd (gapR rnd / 2))
    let adjustedEnd := rnd (rnd (startAngle + sliceAngle) - rnd (gapR rnd / 2))
    let r := donutLoopR rnd total (rnd (startAngle + sliceAngle)) rest
    ({ startAngle := startAngle, sliceAngle := sliceAngle, adjustedStart := adjustedStart,
       adjustedEnd := adjustedEnd, drawn := decide (sliceAngle > gapR rnd),
       color := item.color } :: r.1, r.2)

/-- The legend of `drawDonut` with the quotient and the product rounded; `toFixed(0)`
reads the exact value of the product. -/
def legendR (rnd : ℚ → ℚ) (total : ℚ) (data : List CategoryStat) : List LegendItem :=
  data.map (fun item =>
    { color := item.color, icon := item.icon, name := item.name,
      pct := if total = 0 then none
        else some (toFixed0 (rnd (rnd (item.total / total) * 100))) })

/-- Method `drawDonut(canvas, data, legendEl)` of `js/charts.js` with every operation
rounded. -/
def drawDonutR (rnd : ℚ → ℚ) (data : List CategoryStat) (legendEl : Bool) : Donut :=
  if data.length = 0 then
    { canvas := DonutCanvas.placeholder "Нет данных",
      legend := if legendEl then some [] else none }
  else
    let total := data.foldl (fun s d => rnd (s + d.total)) 0
    let startAngle := rnd (-Math.PI / 2)
    let canvas :=
      if total = 0 then DonutCanvas.nonFinite
      else
        let r := donutLoopR rnd total startAngle data
        DonutCanvas.chart r.1 r.2 total
    { canvas := canvas,
      legend := if legendEl then some (legendR rnd total data) else none }

end Charts

namespace ChartsRoot

/-- The segment loop of `drawDonut` in `charts.js` with every operation rounded. -/
def donutLoopR (rnd : ℚ → ℚ) (total : ℚ) : ℚ → List CategoryStat → List Slice × ℚ
  | startAngle, [] => ([], startAngle)
  | startAngle, item :: rest =>
    let sliceAngle := rnd (rnd (rnd (item.total / total) * Math.PI) * 2)
    let endAngle := rnd (startAngle + sliceAngle)
    let r := donutLoopR rnd total endAngle rest
    ({ startAngle := startAngle, sliceAngle := sliceAngle, adjustedStart := startAngle,
       adjustedEnd := endAngle, drawn := true, color := item.color } :: r.1, r.2)

/-- Method `drawDonut(canvas, data, legendEl)` of `charts.js` with every operation rounded. -/
def drawDonutR (rnd : ℚ → ℚ) (data : List CategoryStat) (legendEl : Bool) : Donut :=
  if data.length = 0 then
    { canvas := DonutCanvas.placeholder "Нет данных",
      legend := if legendEl then some [] else none }
  else
    let total := data.foldl (fun s d => rnd (s + d.total)) 0
    let startAngle := rnd (-Math.PI / 2)
    let canvas :=
      if total = 0 then DonutCanvas.nonFinite
      else
        let r := donutLoopR rnd total startAngle data
        DonutCanvas.chart r.1 r.2 total
    { canvas := canvas,
      legend := if legendEl then some (Charts.legendR rnd total data) else none }

end ChartsRoot

/-- Consecutive iterations on rounded angles: the next one starts at the rounded sum of
the start and the span of the previous one. -/
def ConsecutiveR (rnd : ℚ → ℚ) (a b : Slice) : Prop :=
  b.startAngle = rnd (a.startAngle + a.sliceAngle)

/-- The sum of a list of numbers as a left-to-right loop of rounded additions, starting
from 0. -/
def sumR (rnd : ℚ → ℚ) (l : List ℚ) : ℚ :=
  l.foldl (fun s x => rnd (s + x)) 0

open API

/-! ## Helper lemmas -/

theorem foldl_amount_eq (l : List Transaction) (a : ℚ) :
    l.foldl (fun sum t => sum + t.amount) a = a + sumAmounts l := by
  induction l generalizing a with
  | nil => simp [sumAmounts]
  | cons t l ih =>
    simp only [List.foldl_cons, ih, sumAmounts, List.map_cons, List.sum_cons]
    ring

theorem recalc_balance (s : Data) : (_recalcBalance s).balance = sumAmounts s.transactions := by
  simp [_recalcBalance, foldl_amount_eq]

theorem recalc_transactions (s : Data) : (_recalcBalance s).transactions = s.transactions := rfl

theorem init_balance (d : Data) (cats : Option (List Category))
    (txs : Option (List Transaction)) (st : Option Settings) :
    (init d cats txs st).balance = sumAmounts (init d cats txs st).transactions := by
  unfold init
  exact recalc_balance _

theorem step_balance (s : Data) (op : Op) :
    (step s op).balance = sumAmounts (step s op).transactions := by
  cases op with
  | add c => exact recalc_balance _
  | delete txId => exact recalc_balance _

theorem run_balance (s : Data) (ops : List Op)
    (h : s.balance = sumAmounts s.transactions) :
    (run s ops).balance = sumAmounts (run s ops).transactions := by
  induction ops generalizing s with
  | nil => exact h
  | cons op ops ih => exact ih (step s op) (step_balance s op)

theorem filter_id_ne_of_absent (l : List Transaction) (txId : Int)
    (h : ∀ t ∈ l, t.id ≠ txId) : l.filter (fun t => decide (t.id ≠ txId)) = l := by
  rw [List.filter_eq_self]
  intro t ht
  simpa using h t ht

theorem add_transactions (s : Data) (c : AddCall) :
    (step s (Op.add c)).transactions =
      s.transactions ++
        [(addTransaction s c.idClock c.dateClock c.amount c.categoryId c.description c.date).2] :=
  rfl

theorem run_adds_ids (s : Data) (calls : List AddCall) :
    (run s (calls.map Op.add)).transactions.map (fun t => t.id) =
      s.transactions.map (fun t => t.id) ++ calls.map (fun c => c.idClock) := by
  induction calls generalizing s with
  | nil => simp [run]
  | cons c calls ih =>
    have h := ih (step s (Op.add c))
    simp only [run, List.map_cons, List.foldl_cons] at h ⊢
    rw [h, add_transactions]
    simp [addTransaction]

/-! ## The claims -/

/-- C1. Balance invariant: in the state reached from `init` (run on any cache contents)
by any finite sequence of `addTransaction` and `deleteTransaction` calls, `getBalance`
is the sum of the amounts of the transactions in the store. The sequence is arbitrary,
so this covers the state after `init` and after every call. -/
theorem balance_invariant (d : Data) (cats : Option (List Category))
    (txs : Option (List Transaction)) (st : Option Settings) (ops : List Op) :
    getBalance (run (init d cats txs st) ops) =
      sumAmounts (run (init d cats txs st) ops).transactions :=
  run_balance _ ops (init_balance d cats txs st)

/-- C2, as stated, fails: on the freshly initialised empty store, `addTransaction` with
amount 0 records a transaction, so the list is not what it was before the call. -/
theorem addTransaction_zero_recorded :
    (addTransaction (init _data none none none) 1000 1000 0 (some 1) "" none).1.transactions
      ≠ (init _data none none none).transactions := by
  simp [addTransaction, init, _data, _recalcBalance]

/-- C2, amended. `addTransaction` does not validate the amount: with amount 0 it appends
one transaction of amount 0, and the recomputed balance is the sum over the old list.
The rejection is done by the caller `App._saveTransaction`, which returns the store
unchanged when the parsed amount is NaN, zero or negative. -/
theorem zero_amount_rejected_by_caller_only (s : Data) (idClock dateClock : Int)
    (categoryId : Option Int) (description : String) (date : Option Time)
    (txType comment : String) (selected : Option Int) (formDate : Option Int)
    (parsed : Option ℚ) (hbad : parsed = none ∨ ∃ a, parsed = some a ∧ a ≤ 0) :
    (∃ tx : Transaction, tx.amount = 0 ∧
      (addTransaction s idClock dateClock 0 categoryId description date).1.transactions
        = s.transactions ++ [tx] ∧
      (addTransaction s idClock dateClock 0 categoryId description date).1.balance
        = sumAmounts s.transactions) ∧
    App._saveTransaction s idClock dateClock txType selected parsed comment formDate = s := by
  refine ⟨⟨(addTransaction s idClock dateClock 0 categoryId description date).2, rfl, rfl, ?_⟩, ?_⟩
  · show (_recalcBalance _).balance = _
    rw [recalc_balance]
    simp [sumAmounts, addTransaction]
  · rcases hbad with h | ⟨a, h, ha⟩
    · subst h; rfl
    · subst h
      simp [App._saveTransaction, ha]

/-- Witness for C2 amended: the empty store, parsed amount 0. -/
theorem zero_amount_rejected_by_caller_only_witness :
    (∃ tx : Transaction, tx.amount = 0 ∧
      (addTransaction _data 7 7 0 (some 1) "x" none).1.transactions
        = _data.transactions ++ [tx] ∧
      (addTransaction _data 7 7 0 (some 1) "x" none).1.balance
        = sumAmounts _data.transactions) ∧
    App._saveTransaction _data 7 7 "expense" (some 1) (some 0) "x" none = _data :=
  zero_amount_rejected_by_caller_only _data 7 7 (some 1) "x" none "expense" "x" (some 1) none
    (some 0) (Or.inr ⟨0, rfl, le_refl 0⟩)

/-- C3, as stated, fails: two `addTransaction` calls that read the same clock value get
the same id, so the second id equals the id of a stored transaction. -/
theorem same_clock_same_id :
    ¬ ((run (init _data none none none)
          [Op.add ⟨1000, 1000, -5, some 1, "a", none⟩,
           Op.add ⟨1000, 1000, 7, some 8, "b", none⟩]).transactions.map
        (fun t => t.id)).Nodup := by
  simp [run, step, addTransaction, init, _data, _recalcBalance]

/-- C3, amended. The id of a new transaction is the clock reading `Date.now()` of its
call. For a store whose ids are pairwise distinct and a sequence of `addTransaction`
calls whose clock readings are pairwise distinct and differ from every stored id, the
ids after the sequence are the old ids followed by the readings, pairwise distinct. -/
theorem ids_distinct_of_distinct_clock (s : Data) (calls : List AddCall)
    (h : (s.transactions.map (fun t => t.id) ++ calls.map (fun c => c.idClock)).Nodup) :
    (run s (calls.map Op.add)).transactions.map (fun t => t.id) =
        s.transactions.map (fun t => t.id) ++ calls.map (fun c => c.idClock) ∧
      ((run s (calls.map Op.add)).transactions.map (fun t => t.id)).Nodup := by
  rw [run_adds_ids]
  exact ⟨rfl, h⟩

/-- Witness for C3 amended: two calls at the clock readings 1000 and 1001. -/
theorem ids_distinct_of_distinct_clock_witness :
    (run _data ([⟨1000, 1000, -5, some 1, "a", none⟩,
        ⟨1001, 1001, 7, some 8, "b", none⟩].map Op.add)).transactions.map (fun t => t.id) =
        _data.transactions.map (fun t => t.id) ++
          ([⟨1000, 1000, -5, some 1, "a", none⟩,
            ⟨1001, 1001, 7, some 8, "b", none⟩] : List AddCall).map (fun c => c.idClock) ∧
      ((run _data ([⟨1000, 1000, -5, some 1, "a", none⟩,
        ⟨1001, 1001, 7, some 8, "b", none⟩].map Op.add)).transactions.map
          (fun t => t.id)).Nodup :=
  ids_distinct_of_distinct_clock _data
    [⟨1000, 1000, -5, some 1, "a", none⟩, ⟨1001, 1001, 7, some 8, "b", none⟩]
    (by simp [_data])

/-- C4. In every reachable state, `deleteTransaction(txId)` leaves exactly the
transactions whose id differs from `txId`, in their original order (the list is
filtered); and when no stored transaction has that id, the whole state, transaction
list and balance included, is unchanged. The operation is total: no error arises. -/
theorem deleteTransaction_spec (d : Data) (cats : Option (List Category))
    (txs : Option (List Transaction)) (st : Option Settings) (ops : List Op) (txId : Int) :
    (deleteTransaction (run (init d cats txs st) ops) txId).transactions =
        (run (init d cats txs st) ops).transactions.filter (fun t => decide (t.id ≠ txId)) ∧
      ((∀ t ∈ (run (init d cats txs st) ops).transactions, t.id ≠ txId) →
        deleteTransaction (run (init d cats txs st) ops) txId = run (init d cats txs st) ops) := by
  refine ⟨rfl, fun h => ?_⟩
  have hb := run_balance (init d cats txs st) ops (init_balance d cats txs st)
  generalize run (init d cats txs st) ops = s at h hb
  cases s with
  | mk transactions categories balance currency weeklyDigest =>
    simp only [deleteTransaction, _recalcBalance, filter_id_ne_of_absent _ txId h,
      foldl_amount_eq, zero_add]
    simp only at hb
    rw [hb]

/-- Witness for C4: after one `addTransaction` at clock 5, deleting the absent id 6. -/
theorem deleteTransaction_spec_witness :
    deleteTransaction (run (init _data none none none)
        [Op.add ⟨5, 5, -3, some 1, "a", none⟩]) 6 =
      run (init _data none none none) [Op.add ⟨5, 5, -3, some 1, "a", none⟩] :=
  (deleteTransaction_spec _data none none none [Op.add ⟨5, 5, -3, some 1, "a", none⟩] 6).2
    (by simp [run, step, addTransaction, init, _data, _recalcBalance])

/-- C5. `addTransaction(amount, categoryId, description, date)` appends the created
transaction as the last element, leaving the earlier ones and the category list as they
were, and returns it. Its id is the clock reading, its amount and description are the
arguments, its date is the argument when one is given and the current time otherwise;
its category name and icon are those of the first category of the current list whose id
is `categoryId`, and the empty name and the box icon when no category has that id. -/
theorem addTransaction_spec (s : Data) (idClock dateClock : Int) (amount : ℚ)
    (categoryId : Option Int) (description : String) (date : Option Time) :
    (addTransaction s idClock dateClock amount categoryId description date).1.transactions =
        s.transactions ++
          [(addTransaction s idClock dateClock amount categoryId description date).2] ∧
      (addTransaction s idClock dateClock amount categoryId description date).1.categories =
        s.categories ∧
      (addTransaction s idClock dateClock amount categoryId description date).2.id = idClock ∧
      (addTransaction s idClock dateClock amount categoryId description date).2.amount = amount ∧
      (addTransaction s idClock dateClock amount categoryId description date).2.category_id =
        categoryId ∧
      (addTransaction s idClock dateClock amount categoryId description date).2.description =
        some description ∧
      (∀ dt, date = some dt →
        (addTransaction s idClock dateClock amount categoryId description date).2.date = dt) ∧
      (date = none →
        (addTransaction s idClock dateClock amount categoryId description date).2.date =
          some dateClock) ∧
      (∀ c, s.categories.find? (fun c => decide (some c.id = categoryId)) = some c →
        (addTransaction s idClock dateClock amount categoryId description date).2.categoryName =
            some c.name ∧
          (addTransaction s idClock dateClock amount categoryId description date).2.categoryIcon =
            c.icon) ∧
      ((∀ c ∈ s.categories, some c.id ≠ categoryId) →
        (addTransaction s idClock dateClock amount categoryId description date).2.categoryName =
            some "" ∧
          (addTransaction s idClock dateClock amount categoryId description date).2.categoryIcon =
            "📦") := by
  refine ⟨rfl, rfl, rfl, rfl, rfl, rfl, ?_, ?_, ?_, ?_⟩
  · intro dt h; subst h; rfl
  · intro h; subst h; rfl
  · intro c h
    simp [addTransaction, h]
  · intro h
    have hnone : s.categories.find? (fun c => decide (some c.id = categoryId)) = none := by
      rw [List.find?_eq_none]
      intro c hc
      simpa using h c hc
    simp [addTransaction, hnone]

/-- Witness for C5: category 1 of the default list, and the unknown category 99. -/
theorem addTransaction_spec_witness :
    ((addTransaction (init _data none none none) 5 6 (-50000) (some 1) "Lunch"
          (some (some 100))).2.date = some 100 ∧
      (addTransaction (init _data none none none) 5 6 (-50000) (some 1) "Lunch"
          (some (some 100))).2.categoryName = some "Еда") ∧
    (addTransaction (init _data none none none) 5 6 (-50000) (some 99) "Lunch" none).2.date =
        some 6 ∧
    (addTransaction (init _data none none none) 5 6 (-50000) (some 99) "Lunch"
        none).2.categoryName = some "" ∧
    (addTransaction (init _data none none none) 5 6 (-50000) (some 99) "Lunch"
        none).2.categoryIcon = "📦" :=
  ⟨⟨(addTransaction_spec (init _data none none none) 5 6 (-50000) (some 1) "Lunch"
        (some (some 100))).2.2.2.2.2.2.1 (some 100) rfl,
      ((addTransaction_spec (init _data none none none) 5 6 (-50000) (some 1) "Lunch"
        (some (some 100))).2.2.2.2.2.2.2.2.1
          ⟨1, "Еда", "🍔", "expense", "#FF9500"⟩
          (by simp [init, _data, _recalcBalance, DEFAULT_CATEGORIES])).1⟩,
    (addTransaction_spec (init _data none none none) 5 6 (-50000) (some 99) "Lunch"
      none).2.2.2.2.2.2.2.1 rfl,
    (addTransaction_spec (init _data none none none) 5 6 (-50000) (some 99) "Lunch"
      none).2.2.2.2.2.2.2.2.2
        (by simp [init, _data, _recalcBalance, DEFAULT_CATEGORIES])⟩

/-! ## Helper lemmas on sorting and periods -/

theorem sortInsert_perm {α β : Type} [Zero β] [LE β] [DecidableRel (fun (x y : β) => x ≤ y)]
    (cmp : α → α → Option β) (a : α) (l : List α) :
    (sortInsert cmp a l).Perm (a :: l) := by
  induction l with
  | nil => exact List.Perm.refl _
  | cons b l ih =>
    unfold sortInsert
    split
    · exact List.Perm.refl _
    · exact (List.Perm.cons b ih).trans (List.Perm.swap a b l)

theorem sort_perm {α β : Type} [Zero β] [LE β] [DecidableRel (fun (x y : β) => x ≤ y)]
    (cmp : α → α → Option β) (l : List α) :
    (sort cmp l).Perm l := by
  induction l with
  | nil => exact List.Perm.refl _
  | cons a l ih =>
    unfold sort
    exact (sortInsert_perm cmp a _).trans (List.Perm.cons a ih)

theorem dateGE_trans {a b c : Transaction} (hab : dateGE a b) (hbc : dateGE b c) :
    dateGE a c := by
  obtain ⟨x, y, hx, hy, hxy⟩ := hab
  obtain ⟨y', z, hy', hz, hyz⟩ := hbc
  rw [hy] at hy'
  cases hy'
  exact ⟨x, z, hx, hz, le_trans hyz hxy⟩

theorem sortInsert_sorted (a : Transaction) (l : List Transaction)
    (ha : a.date ≠ none) (hl : ∀ t ∈ l, t.date ≠ none) (hs : l.Pairwise dateGE) :
    (sortInsert dateCompare a l).Pairwise dateGE := by
  induction l with
  | nil => simp [sortInsert]
  | cons b l ih =>
    obtain ⟨ta, hta⟩ := Option.ne_none_iff_exists'.mp ha
    obtain ⟨tb, htb⟩ := Option.ne_none_iff_exists'.mp (hl b (List.mem_cons_self b l))
    rw [List.pairwise_cons] at hs
    unfold sortInsert
    simp only [dateCompare, hta, htb, decide_eq_true_eq]
    split
    · rename_i hle
      have hab : dateGE a b := ⟨ta, tb, hta, htb, by omega⟩
      rw [List.pairwise_cons]
      refine ⟨?_, List.pairwise_cons.mpr hs⟩
      intro x hx
      rcases List.mem_cons.mp hx with rfl | hx
      · exact hab
      · exact dateGE_trans hab (hs.1 x hx)
    · rename_i hgt
      have hba : dateGE b a := ⟨tb, ta, htb, hta, by omega⟩
      rw [List.pairwise_cons]
      refine ⟨?_, ih (fun t ht => hl t (List.mem_cons_of_mem b ht)) hs.2⟩
      intro x hx
      rcases List.mem_cons.mp ((sortInsert_perm dateCompare a l).mem_iff.mp hx) with rfl | hx
      · exact hba
      · exact hs.1 x hx

theorem sort_sorted (l : List Transaction) (hl : ∀ t ∈ l, t.date ≠ none) :
    (sort dateCompare l).Pairwise dateGE := by
  induction l with
  | nil => simp [sort]
  | cons a l ih =>
    unfold sort
    have hl' : ∀ t ∈ l, t.date ≠ none := fun t ht => hl t (List.mem_cons_of_mem a ht)
    refine sortInsert_sorted a _ (hl a (List.mem_cons_self a l)) ?_ (ih hl')
    intro t ht
    exact hl' t ((sort_perm dateCompare l).mem_iff.mp ht)

theorem mem_getTransactions (s : Data) (t : Transaction) :
    t ∈ getTransactions s ↔ t ∈ s.transactions :=
  (sort_perm dateCompare s.transactions).mem_iff

theorem timeGE_eq_timeLE (a b : Time) : timeGE a b = timeLE b a := by
  cases a <;> cases b <;> simp [timeGE, timeLE]

theorem filterByDate_eq (s : Data) (dateFrom dateTo : Option Time) :
    _filterByDate s dateFrom dateTo =
      s.transactions.filter (fun t => inPeriod dateFrom dateTo t.date) := by
  cases dateFrom <;> cases dateTo <;>
    simp [_filterByDate, inPeriod, List.filter_filter, timeGE_eq_timeLE, Bool.and_comm]

theorem sum_abs_of_nonpos (l : List Transaction) (h : ∀ t ∈ l, t.amount ≤ 0) :
    (l.map (fun t => |t.amount|)).sum = -sumAmounts l ∧ sumAmounts l ≤ 0 := by
  induction l with
  | nil => simp [sumAmounts]
  | cons a l ih =>
    have h1 := ih (fun t ht => h t (List.mem_cons_of_mem a ht))
    have ha := h a (List.mem_cons_self a l)
    simp only [sumAmounts, List.map_cons, List.sum_cons] at h1 ⊢
    rw [h1.1, abs_of_nonpos ha]
    constructor
    · ring
    · linarith [h1.2]

/-! ## The claims on the read queries -/

/-- C6. Category snapshot immutability: a transaction is added under the category `c`
found for `categoryId`; then the category list is replaced by any other list (a
renamed category included). The stored transaction is still the last of the list with
`categoryName` and `categoryIcon` equal to the name and icon of `c` at creation time,
`getTransactions` and `getFiltered` return what they returned before the replacement,
`getTransactions` still reports the transaction, and a search whose lower-cased text
occurs in the lower-cased old name still finds it. -/
theorem category_snapshot_immutable (toLowerCase : String → String) (s : Data)
    (idClock dateClock : Int) (amount : ℚ) (categoryId : Option Int) (description : String)
    (date : Option Time) (cats : List Category) (c : Category)
    (hc : s.categories.find? (fun c => decide (some c.id = categoryId)) = some c) :
    ({ (addTransaction s idClock dateClock amount categoryId description date).1 with
          categories := cats }).transactions =
        s.transactions ++
          [(addTransaction s idClock dateClock amount categoryId description date).2] ∧
      (addTransaction s idClock dateClock amount categoryId description date).2.categoryName =
        some c.name ∧
      (addTransaction s idClock dateClock amount categoryId description date).2.categoryIcon =
        c.icon ∧
      getTransactions
          { (addTransaction s idClock dateClock amount categoryId description date).1 with
            categories := cats } =
        getTransactions (addTransaction s idClock dateClock amount categoryId description date).1 ∧
      (∀ filter search,
        getFiltered toLowerCase
            { (addTransaction s idClock dateClock amount categoryId description date).1 with
              categories := cats } filter search =
          getFiltered toLowerCase
            (addTransaction s idClock dateClock amount categoryId description date).1
            filter search) ∧
      (addTransaction s idClock dateClock amount categoryId description date).2 ∈
        getTransactions
          { (addTransaction s idClock dateClock amount categoryId description date).1 with
            categories := cats } ∧
      (∀ search, includes (toLowerCase c.name) (toLowerCase search) = true →
        (addTransaction s idClock dateClock amount categoryId description date).2 ∈
          getFiltered toLowerCase
            { (addTransaction s idClock dateClock amount categoryId description date).1 with
              categories := cats } "all" search) := by
  have hname : (addTransaction s idClock dateClock amount categoryId description date).2.categoryName
      = some c.name := by simp [addTransaction, hc]
  have hmem : (addTransaction s idClock dateClock amount categoryId description date).2 ∈
      getTransactions
        { (addTransaction s idClock dateClock amount categoryId description date).1 with
          categories := cats } := by
    rw [mem_getTransactions]
    exact List.mem_append_right s.transactions (List.mem_singleton_self _)
  refine ⟨rfl, hname, by simp [addTransaction, hc], rfl, fun _ _ => rfl, hmem, ?_⟩
  intro search hs
  unfold getFiltered
  simp only [show ("all" : String) ≠ "income" by decide,
    show ("all" : String) ≠ "expense" by decide, if_false]
  split
  · rw [List.mem_filter]
    refine ⟨hmem, ?_⟩
    rw [hname]
    simp [hs]
  · exact hmem

/-- Witness for C6: a transaction added under "Food", the category then renamed "Meals". -/
theorem category_snapshot_immutable_witness :
    (addTransaction
        { _data with categories := [⟨1, "Food", "F", "expense", "#FF9500"⟩] }
        5 6 (-3) (some 1) "Lunch" none).2 ∈
      getFiltered asciiLower
        { (addTransaction
            { _data with categories := [⟨1, "Food", "F", "expense", "#FF9500"⟩] }
            5 6 (-3) (some 1) "Lunch" none).1 with
          categories := [⟨1, "Meals", "F", "expense", "#FF9500"⟩] } "all" "FOOD" :=
  (category_snapshot_immutable asciiLower
    { _data with categories := [⟨1, "Food", "F", "expense", "#FF9500"⟩] }
    5 6 (-3) (some 1) "Lunch" none [⟨1, "Meals", "F", "expense", "#FF9500"⟩]
    ⟨1, "Food", "F", "expense", "#FF9500"⟩ (by simp [_data])).2.2.2.2.2.2 "FOOD" (by decide)

/-- C7. For a store whose transactions all have valid dates, `getTransactions` returns
a permutation of the stored list, ordered by date non-increasing. It is a function of
the state that returns a list only: the store's own list is not touched. -/
theorem getTransactions_sorted_perm (s : Data) (h : ∀ t ∈ s.transactions, t.date ≠ none) :
    (getTransactions s).Perm s.transactions ∧ (getTransactions s).Pairwise dateGE :=
  ⟨sort_perm dateCompare s.transactions, sort_sorted s.transactions h⟩

/-- Witness for C7: three transactions dated 20, 30 and 10. -/
theorem getTransactions_sorted_perm_witness :
    (getTransactions { _data with transactions :=
        [⟨1, -5, some 1, some "a", "x", some "p", "webapp", some 20⟩,
         ⟨2, 7, some 8, some "b", "y", some "q", "webapp", some 30⟩,
         ⟨3, 0, some 1, some "a", "x", some "r", "webapp", some 10⟩] }).Perm
        [⟨1, -5, some 1, some "a", "x", some "p", "webapp", some 20⟩,
         ⟨2, 7, some 8, some "b", "y", some "q", "webapp", some 30⟩,
         ⟨3, 0, some 1, some "a", "x", some "r", "webapp", some 10⟩] ∧
      (getTransactions { _data with transactions :=
        [⟨1, -5, some 1, some "a", "x", some "p", "webapp", some 20⟩,
         ⟨2, 7, some 8, some "b", "y", some "q", "webapp", some 30⟩,
         ⟨3, 0, some 1, some "a", "x", some "r", "webapp", some 10⟩] }).Pairwise dateGE :=
  getTransactions_sorted_perm _ (by simp)

/-- C8. Filter correctness, for every store: with an empty search, the `income` filter
returns exactly the sub-list of `getTransactions` with amount > 0, the `expense` filter
exactly the sub-list with amount < 0, and `all` returns `getTransactions` itself, which
is date-descending when the stored dates are valid. A stored transaction of amount 0 is
in neither the income nor the expense result, and is in the `all` result. -/
theorem getFiltered_by_sign (toLowerCase : String → String) (s : Data) :
    getFiltered toLowerCase s "income" "" =
        (getTransactions s).filter (fun t => decide (t.amount > 0)) ∧
      getFiltered toLowerCase s "expense" "" =
        (getTransactions s).filter (fun t => decide (t.amount < 0)) ∧
      getFiltered toLowerCase s "all" "" = getTransactions s ∧
      ((∀ t ∈ s.transactions, t.date ≠ none) →
        (getFiltered toLowerCase s "all" "").Pairwise dateGE) ∧
      (∀ t ∈ s.transactions, t.amount = 0 →
        t ∉ getFiltered toLowerCase s "income" "" ∧
        t ∉ getFiltered toLowerCase s "expense" "" ∧
        t ∈ getFiltered toLowerCase s "all" "") := by
  have hi : getFiltered toLowerCase s "income" "" =
      (getTransactions s).filter (fun t => decide (t.amount > 0)) := by
    simp [getFiltered]
  have he : getFiltered toLowerCase s "expense" "" =
      (getTransactions s).filter (fun t => decide (t.amount < 0)) := by
    simp [getFiltered]
  have ha : getFiltered toLowerCase s "all" "" = getTransactions s := by
    simp [getFiltered]
  refine ⟨hi, he, ha, ?_, ?_⟩
  · intro h
    rw [ha]
    exact sort_sorted s.transactions h
  · intro t ht h0
    rw [hi, he, ha]
    refine ⟨?_, ?_, (mem_getTransactions s t).mpr ht⟩
    · simp [List.mem_filter, h0]
    · simp [List.mem_filter, h0]

/-- Witness for C8: a store holding an expense, an income and a zero-amount transaction. -/
theorem getFiltered_by_sign_witness :
    ((getFiltered asciiLower { _data with transactions :=
        [⟨1, -5, some 1, some "a", "x", some "p", "webapp", some 20⟩,
         ⟨2, 7, some 8, some "b", "y", some "q", "webapp", some 30⟩,
         ⟨3, 0, some 1, some "a", "x", some "r", "webapp", some 10⟩] } "all" "").Pairwise
        dateGE) ∧
      ((⟨3, 0, some 1, some "a", "x", some "r", "webapp", some 10⟩ : Transaction) ∉
          getFiltered asciiLower { _data with transactions :=
            [⟨1, -5, some 1, some "a", "x", some "p", "webapp", some 20⟩,
             ⟨2, 7, some 8, some "b", "y", some "q", "webapp", some 30⟩,
             ⟨3, 0, some 1, some "a", "x", some "r", "webapp", some 10⟩] } "income" "" ∧
        (⟨3, 0, some 1, some "a", "x", some "r", "webapp", some 10⟩ : Transaction) ∉
          getFiltered asciiLower { _data with transactions :=
            [⟨1, -5, some 1, some "a", "x", some "p", "webapp", some 20⟩,
             ⟨2, 7, some 8, some "b", "y", some "q", "webapp", some 30⟩,
             ⟨3, 0, some 1, some "a", "x", some "r", "webapp", some 10⟩] } "expense" "" ∧
        (⟨3, 0, some 1, some "a", "x", some "r", "webapp", some 10⟩ : Transaction) ∈
          getFiltered asciiLower { _data with transactions :=
            [⟨1, -5, some 1, some "a", "x", some "p", "webapp", some 20⟩,
             ⟨2, 7, some 8, some "b", "y", some "q", "webapp", some 30⟩,
             ⟨3, 0, some 1, some "a", "x", some "r", "webapp", some 10⟩] } "all" "") :=
  ⟨(getFiltered_by_sign asciiLower _).2.2.2.1 (by simp),
    (getFiltered_by_sign asciiLower _).2.2.2.2
      ⟨3, 0, some 1, some "a", "x", some "r", "webapp", some 10⟩ (by simp) rfl⟩

theorem containsText_iff (str q : String) :
    ContainsText str q ↔ q.data <:+: str.data := by
  constructor
  · rintro ⟨pre, post, h⟩
    exact ⟨pre, post, by rw [h, List.append_assoc]⟩
  · rintro ⟨pre, post, h⟩
    exact ⟨pre, post, by rw [← h, List.append_assoc]⟩

theorem matchesSearch_iff (toLowerCase : String → String) (q : String) (t : Transaction) :
    matchesSearch toLowerCase q t = true ↔ MatchesSearch toLowerCase q t := by
  simp only [matchesSearch, MatchesSearch, Bool.or_eq_true, decide_eq_true_eq,
    containsText_iff]

/-- C9. Search, for every store, filter kind and search text, provided lower-casing maps
the empty string to itself: `getFiltered(kind, q)` is exactly the sub-list of
`getFiltered(kind, '')` (same order) of the transactions whose lower-cased description or
lower-cased category-name snapshot contains the lower-cased `q` as a contiguous
substring, a missing field counting as empty. So a transaction is returned if and only
if it is in `getFiltered(kind, '')` and matches, and one that does not match is left
out; the empty `q` keeps everything; and `includes` is substring containment. -/
theorem getFiltered_search (toLowerCase : String → String) (hlow : toLowerCase "" = "")
    (s : Data) (kind q : String) :
    getFiltered toLowerCase s kind q =
        (getFiltered toLowerCase s kind "").filter (matchesSearch toLowerCase q) ∧
      (∀ t, matchesSearch toLowerCase q t = true ↔ MatchesSearch toLowerCase q t) ∧
      (∀ t, t ∈ getFiltered toLowerCase s kind q ↔
        t ∈ getFiltered toLowerCase s kind "" ∧ MatchesSearch toLowerCase q t) ∧
      (∀ t, ¬ MatchesSearch toLowerCase q t → t ∉ getFiltered toLowerCase s kind q) ∧
      (∀ t ∈ s.transactions, MatchesSearch toLowerCase q t →
        t ∈ getFiltered toLowerCase s "all" q) ∧
      (∀ t, MatchesSearch toLowerCase "" t) ∧
      (∀ str x : String, includes str x = true ↔ ContainsText str x) := by
  have hinc : ∀ str x : String, includes str x = true ↔ ContainsText str x := by
    intro str x
    rw [containsText_iff]
    simp [includes]
  have hall : ∀ t, MatchesSearch toLowerCase "" t := by
    intro t
    left
    rw [hlow]
    exact ⟨[], (toLowerCase (t.description.getD "")).data, rfl⟩
  have hempty : ∀ l : List Transaction, l.filter (matchesSearch toLowerCase "") = l := by
    intro l
    rw [List.filter_eq_self]
    intro t _
    exact (matchesSearch_iff toLowerCase "" t).mpr (hall t)
  have hq : ∀ kind : String, getFiltered toLowerCase s kind q =
      (getFiltered toLowerCase s kind "").filter (matchesSearch toLowerCase q) := by
    intro kind
    by_cases hq : q = ""
    · subst hq
      exact (hempty _).symm
    · simp only [getFiltered, hq, ne_eq, not_true_eq_false, not_false_eq_true, if_true,
        if_false]
      apply List.filter_congr
      intro t _
      simp only [matchesSearch, includes]
  have hmem : ∀ kind t, t ∈ getFiltered toLowerCase s kind q ↔
      t ∈ getFiltered toLowerCase s kind "" ∧ MatchesSearch toLowerCase q t := by
    intro kind t
    rw [hq kind, List.mem_filter, matchesSearch_iff]
  refine ⟨hq kind, matchesSearch_iff toLowerCase q, hmem kind,
    fun t hn hin => hn ((hmem kind t).mp hin).2, ?_, hall, hinc⟩
  intro t ht hm
  rw [hmem "all" t]
  refine ⟨?_, hm⟩
  have ha : getFiltered toLowerCase s "all" "" = getTransactions s := by
    simp [getFiltered]
  rw [ha]
  exact (mem_getTransactions s t).mpr ht

/-- Witness for C9: the transaction described "Coffee" is returned for the search texts
"COFFEE" and "coff", and the transaction described "Salary" (category "Pay") is not
returned for "COFFEE". -/
theorem getFiltered_search_witness :
    (⟨1, -5, some 1, some "Food", "x", some "Coffee", "webapp", some 20⟩ : Transaction) ∈
        getFiltered asciiLower { _data with transactions :=
          [⟨1, -5, some 1, some "Food", "x", some "Coffee", "webapp", some 20⟩,
           ⟨2, 7, some 8, some "Pay", "y", some "Salary", "webapp", some 30⟩] } "all" "COFFEE" ∧
      (⟨1, -5, some 1, some "Food", "x", some "Coffee", "webapp", some 20⟩ : Transaction) ∈
        getFiltered asciiLower { _data with transactions :=
          [⟨1, -5, some 1, some "Food", "x", some "Coffee", "webapp", some 20⟩,
           ⟨2, 7, some 8, some "Pay", "y", some "Salary", "webapp", some 30⟩] } "all" "coff" ∧
      (⟨2, 7, some 8, some "Pay", "y", some "Salary", "webapp", some 30⟩ : Transaction) ∉
        getFiltered asciiLower { _data with transactions :=
          [⟨1, -5, some 1, some "Food", "x", some "Coffee", "webapp", some 20⟩,
           ⟨2, 7, some 8, some "Pay", "y", some "Salary", "webapp", some 30⟩] } "all" "COFFEE" :=
  ⟨(getFiltered_search asciiLower (by decide) _ "all" "COFFEE").2.2.2.2.1 _ (by simp)
      ((matchesSearch_iff asciiLower "COFFEE" _).mp (by decide)),
    (getFiltered_search asciiLower (by decide) _ "all" "coff").2.2.2.2.1 _ (by simp)
      ((matchesSearch_iff asciiLower "coff" _).mp (by decide)),
    (getFiltered_search asciiLower (by decide) _ "all" "COFFEE").2.2.2.1 _
      (fun h => absurd ((matchesSearch_iff asciiLower "COFFEE" _).mpr h) (by decide))⟩

/-- C10. Period sums, for every store and bounds: `getIncome(from, to)` is the sum of the
amounts of the transactions with amount > 0 dated in `[from, to]`; `getExpense(from, to)`
is the sum of `|amount|` over the transactions with amount < 0 dated in `[from, to]`,
hence non-negative. Both bounds are inclusive: a transaction dated exactly at a bound is
kept by `_filterByDate` whatever bound is omitted or equal to its date; and with both
bounds omitted every transaction is kept. -/
theorem period_sums (s : Data) (dateFrom dateTo : Option Time) :
    getIncome s dateFrom dateTo =
        sumAmounts (s.transactions.filter
          (fun t => decide (t.amount > 0) && inPeriod dateFrom dateTo t.date)) ∧
      getExpense s dateFrom dateTo =
        ((s.transactions.filter
          (fun t => decide (t.amount < 0) && inPeriod dateFrom dateTo t.date)).map
            (fun t => |t.amount|)).sum ∧
      0 ≤ getExpense s dateFrom dateTo ∧
      (∀ t ∈ s.transactions, ∀ x : Int, t.date = some x →
        t ∈ _filterByDate s (some (some x)) (some (some x)) ∧
        t ∈ _filterByDate s (some (some x)) none ∧
        t ∈ _filterByDate s none (some (some x))) ∧
      _filterByDate s none none = s.transactions := by
  refine ⟨?_, ?_, abs_nonneg _, ?_, rfl⟩
  · simp only [getIncome, _periodSum, foldl_amount_eq, zero_add, filterByDate_eq,
      List.filter_filter]
  · simp only [getExpense, _periodSum, foldl_amount_eq, zero_add, filterByDate_eq,
      List.filter_filter]
    have h := sum_abs_of_nonpos
      (s.transactions.filter
        (fun t => decide (t.amount < 0) && inPeriod dateFrom dateTo t.date))
      (by
        intro t ht
        have := (List.mem_filter.mp ht).2
        simp only [Bool.and_eq_true, decide_eq_true_eq] at this
        exact le_of_lt this.1)
    rw [h.1, abs_of_nonpos h.2]
  · intro t ht x hx
    simp only [filterByDate_eq, List.mem_filter, inPeriod, timeLE, hx]
    simp [ht]

/-- Witness for C10: transactions dated 10, 20 and 30, the period `[10, 20]`. -/
theorem period_sums_witness :
    (⟨1, -5, some 1, some "a", "x", some "p", "webapp", some 10⟩ : Transaction) ∈
        _filterByDate { _data with transactions :=
          [⟨1, -5, some 1, some "a", "x", some "p", "webapp", some 10⟩,
           ⟨2, 7, some 8, some "b", "y", some "q", "webapp", some 20⟩,
           ⟨3, 9, some 8, some "b", "y", some "r", "webapp", some 30⟩] }
          (some (some 10)) (some (some 10)) :=
  ((period_sums { _data with transactions :=
      [⟨1, -5, some 1, some "a", "x", some "p", "webapp", some 10⟩,
       ⟨2, 7, some 8, some "b", "y", some "q", "webapp", some 20⟩,
       ⟨3, 9, some 8, some "b", "y", some "r", "webapp", some 30⟩] } none none).2.2.2.1
    ⟨1, -5, some 1, some "a", "x", some "p", "webapp", some 10⟩ (by simp) 10 rfl).1

/-! ## Helper lemmas on the category statistics -/

theorem expenseTotal_append (k : Int) (l : List Transaction) (t : Transaction) :
    expenseTotal k (l ++ [t]) =
      expenseTotal k l + (if categoryIdOr10 t = k then |t.amount| else 0) := by
  unfold expenseTotal
  by_cases h : categoryIdOr10 t = k
  · simp [List.filter_append, List.filter_cons, h]
  · simp [List.filter_append, List.filter_cons, h]

theorem expenseTotal_eq_zero (k : Int) (l : List Transaction)
    (h : ∀ t ∈ l, categoryIdOr10 t ≠ k) : expenseTotal k l = 0 := by
  unfold expenseTotal
  have : l.filter (fun t => decide (categoryIdOr10 t = k)) = [] := by
    rw [List.filter_eq_nil_iff]
    intro t ht
    simpa using h t ht
  simp [this]

theorem newStat_id (categories : List Category) (k : Int) : (newStat categories k).id = k :=
  rfl

theorem newStat_total (categories : List Category) (k : Int) :
    (newStat categories k).total = 0 :=
  rfl

theorem statsStep_inv (categories : List Category) (map : List CategoryStat)
    (l : List Transaction) (t : Transaction) (h : StatsInv categories map l) :
    StatsInv categories (statsStep categories map t) (l ++ [t]) := by
  obtain ⟨hnd, hmem, hval⟩ := h
  have hupd_id : ∀ m : List CategoryStat,
      (m.map (fun e => if e.id = categoryIdOr10 t then
          { e with total := e.total + |t.amount| } else e)).map (fun e => e.id) =
        m.map (fun e => e.id) := by
    intro m
    rw [List.map_map]
    apply List.map_congr_left
    intro e _
    simp only [Function.comp]
    split <;> rfl
  by_cases hk : map.any (fun e => decide (e.id = categoryIdOr10 t)) = true
  · have hin : categoryIdOr10 t ∈ map.map (fun e => e.id) := by
      rw [List.any_eq_true] at hk
      obtain ⟨e, he, hek⟩ := hk
      exact List.mem_map.mpr ⟨e, he, by simpa using hek⟩
    have hstep : statsStep categories map t =
        map.map (fun e => if e.id = categoryIdOr10 t then
          { e with total := e.total + |t.amount| } else e) := by
      simp only [statsStep, hk, if_true]
    rw [hstep]
    refine ⟨by rw [hupd_id]; exact hnd, ?_, ?_⟩
    · intro k
      rw [hupd_id, hmem]
      constructor
      · rintro ⟨t', ht', hk'⟩
        exact ⟨t', List.mem_append_left _ ht', hk'⟩
      · rintro ⟨t', ht', hk'⟩
        rcases List.mem_append.mp ht' with ht' | ht'
        · exact ⟨t', ht', hk'⟩
        · rw [List.mem_singleton] at ht'
          subst ht'
          subst hk'
          exact (hmem _).mp hin
    · intro e' he'
      obtain ⟨e, he, rfl⟩ := List.mem_map.mp he'
      have hv := hval e he
      by_cases hek : e.id = categoryIdOr10 t
      · simp only [hek, if_true, expenseTotal_append]
        rw [← hek]
        exact ⟨hv.1, hv.2.1, hv.2.2.1, by rw [hv.2.2.2]⟩
      · simp only [hek, if_false, expenseTotal_append]
        rw [if_neg (fun h => hek h.symm), add_zero]
        exact hv
  · have hnot : categoryIdOr10 t ∉ map.map (fun e => e.id) := by
      intro hin
      apply hk
      obtain ⟨e, he, hek⟩ := List.mem_map.mp hin
      exact List.any_eq_true.mpr ⟨e, he, by simpa using hek⟩
    have hfix : map.map (fun e => if e.id = categoryIdOr10 t then
          { e with total := e.total + |t.amount| } else e) = map := by
      conv_rhs => rw [← List.map_id map]
      apply List.map_congr_left
      intro e he
      have : e.id ≠ categoryIdOr10 t := fun h => hnot (List.mem_map.mpr ⟨e, he, h⟩)
      simp [this]
    have hstep : statsStep categories map t =
        map ++ [{ newStat categories (categoryIdOr10 t) with total := 0 + |t.amount| }] := by
      simp only [statsStep, hk, Bool.false_eq_true, if_false, List.map_append, hfix,
        List.map_cons, List.map_nil]
      simp [newStat]
    have hzero : expenseTotal (categoryIdOr10 t) l = 0 := by
      apply expenseTotal_eq_zero
      intro t' ht' hk'
      exact hnot ((hmem _).mpr ⟨t', ht', hk'⟩)
    rw [hstep]
    refine ⟨?_, ?_, ?_⟩
    · rw [List.map_append, List.nodup_append]
      refine ⟨hnd, by simp, ?_⟩
      intro a ha hb
      simp only [List.map_cons, List.map_nil, List.mem_singleton, newStat_id] at hb
      exact hnot (hb ▸ ha)
    · intro k
      rw [List.map_append, List.mem_append, hmem]
      constructor
      · rintro (⟨t', ht', hk'⟩ | hk')
        · exact ⟨t', List.mem_append_left _ ht', hk'⟩
        · simp only [List.map_cons, List.map_nil, List.mem_singleton, newStat_id] at hk'
          exact ⟨t, List.mem_append_right _ (List.mem_singleton_self t), hk'.symm⟩
      · rintro ⟨t', ht', hk'⟩
        rcases List.mem_append.mp ht' with ht' | ht'
        · exact Or.inl ⟨t', ht', hk'⟩
        · rw [List.mem_singleton] at ht'
          subst ht'
          right
          simp [hk'.symm, newStat_id]
    · intro e he
      rcases List.mem_append.mp he with he | he
      · have hv := hval e he
        have hne : categoryIdOr10 t ≠ e.id := fun h => hnot (List.mem_map.mpr ⟨e, he, h.symm⟩)
        rw [expenseTotal_append, if_neg hne, add_zero]
        exact hv
      · rw [List.mem_singleton] at he
        subst he
        simp [expenseTotal_append, hzero, newStat_id, newStat_total]

theorem statsFold_inv (categories : List Category) (rest : List Transaction) :
    ∀ (map : List CategoryStat) (l : List Transaction), StatsInv categories map l →
      StatsInv categories (rest.foldl (statsStep categories) map) (l ++ rest) := by
  induction rest with
  | nil => intro map l h; simpa using h
  | cons t rest ih =>
    intro map l h
    have := ih (statsStep categories map t) (l ++ [t]) (statsStep_inv categories map l t h)
    simpa using this

theorem statsInv_nil (categories : List Category) : StatsInv categories [] [] := by
  refine ⟨by simp, ?_, ?_⟩
  · intro k; simp
  · intro e he; simp at he

theorem sortInsert_sorted_by {α : Type} (f : α → ℚ) (a : α) (l : List α)
    (hs : l.Pairwise (fun x y => f y ≤ f x)) :
    (sortInsert (fun x y => some (f y - f x)) a l).Pairwise (fun x y => f y ≤ f x) := by
  induction l with
  | nil => simp [sortInsert]
  | cons b l ih =>
    rw [List.pairwise_cons] at hs
    unfold sortInsert
    simp only [decide_eq_true_eq]
    split
    · rename_i hle
      rw [List.pairwise_cons]
      refine ⟨?_, List.pairwise_cons.mpr hs⟩
      intro x hx
      rcases List.mem_cons.mp hx with rfl | hx
      · linarith
      · have := hs.1 x hx
        linarith
    · rename_i hgt
      rw [List.pairwise_cons]
      refine ⟨?_, ih hs.2⟩
      intro x hx
      rcases List.mem_cons.mp
        ((sortInsert_perm (fun x y => some (f y - f x)) a l).mem_iff.mp hx) with rfl | hx
      · linarith
      · exact hs.1 x hx

theorem sort_sorted_by {α : Type} (f : α → ℚ) (l : List α) :
    (sort (fun x y => some (f y - f x)) l).Pairwise (fun x y => f y ≤ f x) := by
  induction l with
  | nil => simp [sort]
  | cons a l ih =>
    unfold sort
    exact sortInsert_sorted_by f a _ ih

theorem objectValues_perm (map : List CategoryStat) : (objectValues map).Perm map := by
  unfold objectValues
  exact ((sort_perm _ _).append_right _).trans (List.filter_append_perm _ map)

theorem expenses_eq (s : Data) (dateFrom dateTo : Option Time) :
    (_filterByDate s dateFrom dateTo).filter (fun t => decide (t.amount < 0)) =
      expensesInPeriod s dateFrom dateTo := by
  rw [filterByDate_eq, List.filter_filter]
  rfl

theorem getCategoryStats_perm (s : Data) (dateFrom dateTo : Option Time) :
    (getCategoryStats s dateFrom dateTo).Perm
      ((expensesInPeriod s dateFrom dateTo).foldl (statsStep s.categories) []) := by
  unfold getCategoryStats
  simp only [expenses_eq]
  exact (sort_perm _ _).trans (objectValues_perm _)

theorem getCategoryStats_inv (s : Data) (dateFrom dateTo : Option Time) :
    StatsInv s.categories (getCategoryStats s dateFrom dateTo)
      (expensesInPeriod s dateFrom dateTo) := by
  have h := statsFold_inv s.categories (expensesInPeriod s dateFrom dateTo) [] []
    (statsInv_nil s.categories)
  rw [List.nil_append] at h
  have hp := getCategoryStats_perm s dateFrom dateTo
  obtain ⟨hnd, hmem, hval⟩ := h
  refine ⟨(hp.map _).nodup_iff.mpr hnd, ?_, ?_⟩
  · intro k
    rw [(hp.map _).mem_iff]
    exact hmem k
  · intro e he
    exact hval e (hp.mem_iff.mp he)

theorem abs_le_expenseTotal (l : List Transaction) (t : Transaction) (ht : t ∈ l) :
    |t.amount| ≤ expenseTotal (categoryIdOr10 t) l := by
  unfold expenseTotal
  apply List.single_le_sum
  · intro x hx
    obtain ⟨t', _, rfl⟩ := List.mem_map.mp hx
    exact abs_nonneg _
  · exact List.mem_map.mpr ⟨t, List.mem_filter.mpr ⟨ht, by simp⟩, rfl⟩

theorem expensesInPeriod_filter_neg (s : Data) (dateFrom dateTo : Option Time) :
    expensesInPeriod
        { s with transactions := s.transactions.filter (fun t => decide (t.amount < 0)) }
        dateFrom dateTo =
      expensesInPeriod s dateFrom dateTo := by
  unfold expensesInPeriod
  simp only [List.filter_filter]
  apply List.filter_congr
  intro t _
  cases decide (t.amount < 0) <;> simp

/-! ## The claims on the category statistics -/

/-- C11, as stated, fails: with one expense of category 10 and one expense without a
category id, the single entry (id 10) has total 8, not the sum 5 of the expenses whose
category id is 10. -/
theorem stats_total_counts_missing_id_under_ten :
    ¬ (∀ e ∈ getCategoryStats
          { _data with
            categories := DEFAULT_CATEGORIES,
            transactions :=
              [⟨1, -5, some 10, some "Другое", "📦", some "a", "webapp", some 10⟩,
               ⟨2, -3, none, none, "📦", some "b", "webapp", some 20⟩] } none none,
        e.total =
          (((expensesInPeriod
              { _data with
                categories := DEFAULT_CATEGORIES,
                transactions :=
                  [⟨1, -5, some 10, some "Другое", "📦", some "a", "webapp", some 10⟩,
                   ⟨2, -3, none, none, "📦", some "b", "webapp", some 20⟩] } none none).filter
            (fun t => decide (t.category_id = some e.id))).map (fun t => |t.amount|)).sum) := by
  norm_num [getCategoryStats, _data, _filterByDate, statsStep, categoryIdOr10, newStat,
    objectValues, sort, sortInsert, DEFAULT_CATEGORIES, expensesInPeriod, inPeriod,
    List.filter]
  simp +decide

/-- C11, amended. `getCategoryStats(from, to)` groups the expense transactions of the
period by `category_id || 10` (a missing or zero id counts as 10): the ids of the
entries are pairwise distinct and are exactly the values of `category_id || 10` over
those transactions, each entry's total is the sum of `|amount|` over the transactions
counted under its id, the entries are ordered by total non-increasing, and income and
zero-amount transactions contribute nothing (removing them changes no entry). -/
theorem getCategoryStats_groups (s : Data) (dateFrom dateTo : Option Time) :
    ((getCategoryStats s dateFrom dateTo).map (fun e => e.id)).Nodup ∧
      (∀ k, k ∈ (getCategoryStats s dateFrom dateTo).map (fun e => e.id) ↔
        ∃ t ∈ s.transactions, t.amount < 0 ∧ inPeriod dateFrom dateTo t.date = true ∧
          categoryIdOr10 t = k) ∧
      (∀ e ∈ getCategoryStats s dateFrom dateTo,
        e.total = expenseTotal e.id (expensesInPeriod s dateFrom dateTo)) ∧
      (getCategoryStats s dateFrom dateTo).Pairwise (fun a b => b.total ≤ a.total) ∧
      getCategoryStats
          { s with transactions := s.transactions.filter (fun t => decide (t.amount < 0)) }
          dateFrom dateTo =
        getCategoryStats s dateFrom dateTo := by
  obtain ⟨hnd, hmem, hval⟩ := getCategoryStats_inv s dateFrom dateTo
  refine ⟨hnd, ?_, ?_, sort_sorted_by (fun e : CategoryStat => e.total) _, ?_⟩
  rotate_left
  · intro e he
    exact (hval e he).2.2.2
  · have h := expensesInPeriod_filter_neg s dateFrom dateTo
    unfold getCategoryStats
    simp only [expenses_eq, h]
  · intro k
    rw [hmem k]
    constructor
    · rintro ⟨t, ht, hk⟩
      have := List.mem_filter.mp ht
      simp only [Bool.and_eq_true, decide_eq_true_eq] at this
      exact ⟨t, this.1, this.2.1, this.2.2, hk⟩
    · rintro ⟨t, ht, hneg, hper, hk⟩
      exact ⟨t, List.mem_filter.mpr ⟨ht, by simp [hneg, hper]⟩, hk⟩

/-- Witness for C11 amended: an expense of category 10, an expense without category id
and an income; the id 10 is the only id, reached from the second transaction. -/
theorem getCategoryStats_groups_witness :
    (10 : Int) ∈ (getCategoryStats
        { _data with
          categories := DEFAULT_CATEGORIES,
          transactions :=
            [⟨1, -5, some 10, some "Другое", "📦", some "a", "webapp", some 10⟩,
             ⟨2, -3, none, none, "📦", some "b", "webapp", some 20⟩,
             ⟨3, 9, some 8, some "Зарплата", "💰", some "c", "webapp", some 30⟩] }
        none none).map (fun e => e.id) :=
  ((getCategoryStats_groups _ none none).2.1 10).mpr
    ⟨⟨2, -3, none, none, "📦", some "b", "webapp", some 20⟩, by simp,
      by norm_num, by simp [inPeriod], by simp [categoryIdOr10]⟩

/-- C12, as stated, fails: when the category list holds a category 10 named "Pets", an
expense without a category id is counted in an entry named "Pets"; no entry carries the
name 'Другое', the box icon and the gray colour. -/
theorem missing_id_takes_category_ten :
    ¬ (∃ e ∈ getCategoryStats
          { _data with
            categories := [⟨10, "Pets", "🐶", "expense", "#000000"⟩],
            transactions := [⟨2, -3, none, none, "📦", some "b", "webapp", some 20⟩] }
          none none,
        e.name = "Другое" ∧ e.icon = "📦" ∧ e.color = "#8E8E93") := by
  have h : getCategoryStats
      { _data with
        categories := [⟨10, "Pets", "🐶", "expense", "#000000"⟩],
        transactions := [⟨2, -3, none, none, "📦", some "b", "webapp", some 20⟩] }
      none none = [⟨10, "Pets", "🐶", "#000000", 3⟩] := by
    norm_num [getCategoryStats, _data, _filterByDate, statsStep, categoryIdOr10, newStat,
      objectValues, sort, sortInsert]
    decide
  rw [h]
  rintro ⟨e, he, hn, -, -⟩
  rw [List.mem_singleton] at he
  subst he
  exact absurd hn (by decide)

/-- C12, amended. An expense transaction of the period is counted (its `|amount|` is
part of the total) in the entry whose id is `category_id || 10`: the id 10 when the
category id is missing or zero, the category id itself otherwise. When no category of
the current list has that id, the entry has the name 'Другое', the box icon and the gray
colour '#8E8E93'; when the list has one, the entry carries the name, icon and colour of
the first such category (an empty field falling back to the same three values). So a
transaction without a category id is counted under id 10, and with the default category
list that entry has the name 'Другое', the box icon and the gray colour. -/
theorem other_bucket (s : Data) (dateFrom dateTo : Option Time) (t : Transaction)
    (ht : t ∈ expensesInPeriod s dateFrom dateTo) :
    ∃ e ∈ getCategoryStats s dateFrom dateTo,
      (t.category_id = none ∨ t.category_id = some 0 → e.id = 10) ∧
      (∀ k, t.category_id = some k → k ≠ 0 → e.id = k) ∧
      e.total =
        (((expensesInPeriod s dateFrom dateTo).filter (fun u =>
          decide ((match u.category_id with
            | some c => if c = 0 then 10 else c
            | none => 10) = e.id))).map (fun u => |u.amount|)).sum ∧
      |t.amount| ≤ e.total ∧
      ((∀ c ∈ s.categories, c.id ≠ e.id) →
        e.name = "Другое" ∧ e.icon = "📦" ∧ e.color = "#8E8E93") ∧
      (∀ c, s.categories.find? (fun c => decide (c.id = e.id)) = some c →
        e.name = (if c.name = "" then "Другое" else c.name) ∧
        e.icon = (if c.icon = "" then "📦" else c.icon) ∧
        e.color = (if c.color = "" then "#8E8E93" else c.color)) ∧
      (t.category_id = none → s.categories = DEFAULT_CATEGORIES →
        e.id = 10 ∧ e.name = "Другое" ∧ e.icon = "📦" ∧ e.color = "#8E8E93") := by
  obtain ⟨_, hmem, hval⟩ := getCategoryStats_inv s dateFrom dateTo
  obtain ⟨e, he, hid⟩ := List.mem_map.mp ((hmem (categoryIdOr10 t)).mpr ⟨t, ht, rfl⟩)
  obtain ⟨hname, hicon, hcolor, htotal⟩ := hval e he
  refine ⟨e, he, ?_, ?_, htotal, ?_, ?_, ?_, ?_⟩
  · rintro (h | h) <;> simp [hid, categoryIdOr10, h]
  · intro k h hk
    simp [hid, categoryIdOr10, h, hk]
  · rw [htotal, hid]
    exact abs_le_expenseTotal _ t ht
  · intro hno
    have hnone : s.categories.find? (fun c => decide (c.id = e.id)) = none := by
      rw [List.find?_eq_none]
      intro c hc
      simpa using hno c hc
    rw [hname, hicon, hcolor]
    simp [newStat, hnone]
  · intro c hc
    rw [hname, hicon, hcolor]
    simp [newStat, hc]
  · intro hmiss hdef
    have hk : categoryIdOr10 t = 10 := by simp [categoryIdOr10, hmiss]
    rw [hname, hicon, hcolor, hid, hk, hdef]
    simp [newStat, DEFAULT_CATEGORIES]

/-- Witness for C12 amended: an expense of the unknown category 99 with the default list
is counted under 'Другое'; an expense without category id, with a list whose category
10 is "Pets", is counted under id 10 with the name "Pets". -/
theorem other_bucket_witness :
    (∃ e ∈ getCategoryStats
        { _data with
          categories := DEFAULT_CATEGORIES,
          transactions := [⟨2, -3, some 99, some "", "📦", some "b", "webapp", some 20⟩] }
        none none,
      e.id = 99 ∧ e.name = "Другое" ∧ e.icon = "📦" ∧ e.color = "#8E8E93") ∧
    (∃ e ∈ getCategoryStats
        { _data with
          categories := [⟨10, "Pets", "🐶", "expense", "#000000"⟩],
          transactions := [⟨2, -3, none, none, "📦", some "b", "webapp", some 20⟩] }
        none none,
      e.id = 10 ∧ e.name = "Pets" ∧ e.icon = "🐶" ∧ e.color = "#000000") := by
  constructor
  · obtain ⟨e, he, _, hid, _, _, h, _, _⟩ := other_bucket
      { _data with
        categories := DEFAULT_CATEGORIES,
        transactions := [⟨2, -3, some 99, some "", "📦", some "b", "webapp", some 20⟩] }
      none none ⟨2, -3, some 99, some "", "📦", some "b", "webapp", some 20⟩
      (by norm_num [expensesInPeriod, _data, inPeriod])
    have h99 : e.id = 99 := hid 99 rfl (by norm_num)
    exact ⟨e, he, h99, h (by rw [h99]; simp [DEFAULT_CATEGORIES])⟩
  · obtain ⟨e, he, hid, _, _, _, _, h, _⟩ := other_bucket
      { _data with
        categories := [⟨10, "Pets", "🐶", "expense", "#000000"⟩],
        transactions := [⟨2, -3, none, none, "📦", some "b", "webapp", some 20⟩] }
      none none ⟨2, -3, none, none, "📦", some "b", "webapp", some 20⟩
      (by norm_num [expensesInPeriod, _data, inPeriod])
    have h10 : e.id = 10 := hid (Or.inl rfl)
    have hp := h ⟨10, "Pets", "🐶", "expense", "#000000"⟩ (by rw [h10]; simp)
    exact ⟨e, he, h10, by simpa using hp⟩

/-- C13. Empty states: on a store with no transactions `getCategoryStats` returns the
empty list for every period, and it returns the empty list whenever no expense
transaction is dated in the period. It is a total function: nothing is raised. -/
theorem getCategoryStats_empty (s : Data) (dateFrom dateTo : Option Time) :
    (s.transactions = [] → getCategoryStats s dateFrom dateTo = []) ∧
      ((∀ t ∈ s.transactions, t.amount < 0 → inPeriod dateFrom dateTo t.date = false) →
        getCategoryStats s dateFrom dateTo = []) := by
  have key : expensesInPeriod s dateFrom dateTo = [] → getCategoryStats s dateFrom dateTo = [] := by
    intro h
    unfold getCategoryStats
    simp only [expenses_eq, h]
    rfl
  constructor
  · intro h
    apply key
    simp [expensesInPeriod, h]
  · intro h
    apply key
    unfold expensesInPeriod
    rw [List.filter_eq_nil_iff]
    intro t ht
    simp only [Bool.and_eq_true, decide_eq_true_eq, not_and, Bool.not_eq_true]
    exact h t ht

/-- Witness for C13: the initial store, and a store holding one income and one expense
dated before the period. -/
theorem getCategoryStats_empty_witness :
    getCategoryStats _data (some (some 5)) none = [] ∧
      getCategoryStats
        { _data with
          transactions :=
            [⟨1, 7, some 8, some "b", "y", some "q", "webapp", some 30⟩,
             ⟨2, -4, some 1, some "a", "x", some "p", "webapp", some 10⟩] }
        (some (some 20)) none = [] :=
  ⟨(getCategoryStats_empty _data (some (some 5)) none).1 rfl,
    (getCategoryStats_empty _ (some (some 20)) none).2
      (by norm_num [_data, inPeriod, timeLE])⟩

/-! ## The claims on the scenario, the projections and the load -/

/-- C14. End-to-end scenario: from the empty store with the default categories, after
`addTransaction(-50000, 1, "Lunch", "2024-06-15")` and
`addTransaction(200000, 8, "Salary", "2024-06-01")` (the dates read 1718409600000 and
1717200000000 ms), whatever the clock readings: the balance is 150000,
`getExpense("2024-06-01")` is 50000, `getIncome("2024-06-01")` is 200000 and
`getCategoryStats("2024-06-01")` is the one-element list holding the entry of id 1
(the default category 1) with total 50000. -/
theorem end_to_end_scenario (id1 clock1 id2 clock2 : Int) :
    getBalance
        (addTransaction
          (addTransaction (init _data none none none) id1 clock1 (-50000) (some 1) "Lunch"
            (some (some 1718409600000))).1
          id2 clock2 200000 (some 8) "Salary" (some (some 1717200000000))).1 = 150000 ∧
      getExpense
        (addTransaction
          (addTransaction (init _data none none none) id1 clock1 (-50000) (some 1) "Lunch"
            (some (some 1718409600000))).1
          id2 clock2 200000 (some 8) "Salary" (some (some 1717200000000))).1
        (some (some 1717200000000)) none = 50000 ∧
      getIncome
        (addTransaction
          (addTransaction (init _data none none none) id1 clock1 (-50000) (some 1) "Lunch"
            (some (some 1718409600000))).1
          id2 clock2 200000 (some 8) "Salary" (some (some 1717200000000))).1
        (some (some 1717200000000)) none = 200000 ∧
      getCategoryStats
        (addTransaction
          (addTransaction (init _data none none none) id1 clock1 (-50000) (some 1) "Lunch"
            (some (some 1718409600000))).1
          id2 clock2 200000 (some 8) "Salary" (some (some 1717200000000))).1
        (some (some 1717200000000)) none = [⟨1, "Еда", "🍔", "#FF9500", 50000⟩] := by
  refine ⟨?_, ?_, ?_, ?_⟩
  · norm_num [getBalance, addTransaction, init, _data, _recalcBalance]
  · norm_num [getExpense, _periodSum, _filterByDate, timeGE, addTransaction, init, _data,
      _recalcBalance]
  · norm_num [getIncome, _periodSum, _filterByDate, timeGE, addTransaction, init, _data,
      _recalcBalance]
  · norm_num [getCategoryStats, _filterByDate, timeGE, addTransaction, init, _data,
      _recalcBalance, statsStep, categoryIdOr10, newStat, objectValues, sort, sortInsert,
      DEFAULT_CATEGORIES]
    decide

theorem lastDayOfMonth_table (y : Int) (m : Nat) (hm : m < 12) :
    Utils.lastDayOfMonth y m = daysInMonth (Utils.constructorYear y) m := by
  interval_cases m <;> simp [Utils.lastDayOfMonth, daysInMonth]

theorem lastDayOfMonth_eq_day_difference (y : Int) (m : Nat) (hm : m < 12) :
    Utils.lastDayOfMonth y m =
      JSDate.makeDay (Utils.constructorYear y) ((m : Int) + 1) 1 -
        JSDate.makeDay (Utils.constructorYear y) (m : Int) 1 := by
  interval_cases m <;> simp only [Utils.lastDayOfMonth] <;>
    (generalize Utils.constructorYear y = yy
     simp [JSDate.makeDay, JSDate.daysFromCivil]
     try split_ifs
     all_goals omega)

theorem daysInMonth_bounds (y : Int) (m : Nat) (hm : m < 12) :
    28 ≤ daysInMonth y m ∧ daysInMonth y m ≤ 31 := by
  unfold daysInMonth
  interval_cases m
  all_goals
    simp
    try split_ifs
    all_goals norm_num

theorem constructorYear_of_ge (y : Int) (hy : 100 ≤ y) : Utils.constructorYear y = y := by
  unfold Utils.constructorYear
  rw [if_neg]
  omega

/-- C15. In-pocket, for every store and current date: `getInPocket` is 0 when the balance
is at most 0, and otherwise the balance divided by `max(lastDay - today, 1)`, where
`lastDay` is the number of days of the current month (31, 30, or 28 and 29 for February
by the leap-year rule), which is also the number of days from the first of the month to
the first of the next; the divisor is at least 1, so the result is defined and
non-negative. -/
theorem getInPocket_spec (s : Data) (now : Now) :
    (getBalance s ≤ 0 → getInPocket s now = 0) ∧
      (0 < getBalance s → 100 ≤ now.fullYear → now.month < 12 →
        getInPocket s now =
          getBalance s /
            ((max (daysInMonth now.fullYear now.month - (now.date : Int)) 1 : Int) : ℚ)) ∧
      (100 ≤ now.fullYear → now.month < 12 →
        Utils.daysUntilMonthEnd now =
            max (daysInMonth now.fullYear now.month - (now.date : Int)) 1 ∧
          daysInMonth now.fullYear now.month =
            JSDate.makeDay now.fullYear ((now.month : Int) + 1) 1 -
              JSDate.makeDay now.fullYear (now.month : Int) 1 ∧
          28 ≤ daysInMonth now.fullYear now.month ∧
          daysInMonth now.fullYear now.month ≤ 31) ∧
      (0 < getBalance s →
        getInPocket s now = getBalance s / ((Utils.daysUntilMonthEnd now : Int) : ℚ)) ∧
      1 ≤ Utils.daysUntilMonthEnd now ∧
      0 ≤ getInPocket s now := by
  have hd : 1 ≤ Utils.daysUntilMonthEnd now := le_max_right _ _
  have hlast : 100 ≤ now.fullYear → now.month < 12 →
      Utils.lastDayOfMonth now.fullYear now.month = daysInMonth now.fullYear now.month := by
    intro hy hm
    rw [lastDayOfMonth_table _ _ hm, constructorYear_of_ge _ hy]
  refine ⟨?_, ?_, ?_, ?_, hd, ?_⟩
  · intro h
    simp [getInPocket, h]
  · intro h hy hm
    simp [getInPocket, not_le.mpr h, Utils.daysUntilMonthEnd, hlast hy hm]
  · intro hy hm
    refine ⟨by simp [Utils.daysUntilMonthEnd, hlast hy hm], ?_, ?_, ?_⟩
    · rw [← hlast hy hm, lastDayOfMonth_eq_day_difference _ _ hm,
        constructorYear_of_ge _ hy]
    · exact (daysInMonth_bounds now.fullYear now.month hm).1
    · exact (daysInMonth_bounds now.fullYear now.month hm).2
  · intro h
    simp [getInPocket, not_le.mpr h]
  · unfold getInPocket
    split
    · exact le_refl 0
    · rename_i h
      apply div_nonneg (le_of_lt (not_le.mp h))
      have : (0 : Int) ≤ Utils.daysUntilMonthEnd now := by omega
      exact_mod_cast this

/-- Witness for C15: on 15 June 2024 the balances 0 and -100 give 0 and the balance 300
gives 300 / 15 = 20 (June has 30 days). -/
theorem getInPocket_spec_witness :
    getInPocket { _data with balance := 0 } ⟨2024, 5, 15, 1717200000000⟩ = 0 ∧
      getInPocket { _data with balance := -100 } ⟨2024, 5, 15, 1717200000000⟩ = 0 ∧
      getInPocket { _data with balance := 300 } ⟨2024, 5, 15, 1717200000000⟩ = 20 :=
  ⟨(getInPocket_spec { _data with balance := 0 } ⟨2024, 5, 15, 1717200000000⟩).1
      (by norm_num [getBalance]),
    (getInPocket_spec { _data with balance := -100 } ⟨2024, 5, 15, 1717200000000⟩).1
      (by norm_num [getBalance]),
    ((getInPocket_spec { _data with balance := 300 } ⟨2024, 5, 15, 1717200000000⟩).2.1
      (by norm_num [getBalance]) (by norm_num) (by norm_num)).trans
      (by norm_num [getBalance, daysInMonth])⟩

/-- C16, at the failing input: on 15 June 2024 (month start 1717200000000 ms), with one
expense of 100 dated 10 July 2024, `getAvgDaily` is 100 / 15, while the expense total of
the current month (from its first instant to its last, 1719791999999 ms) divided by the
day of the month is 0. -/
theorem getAvgDaily_counts_later_months :
    getAvgDaily
        { _data with
          transactions :=
            [⟨1, -100, some 3, some "Жилье", "🏠", some "rent", "webapp",
              some 1720569600000⟩] }
        ⟨2024, 5, 15, 1717200000000⟩ = 20 / 3 ∧
      getExpense
          { _data with
            transactions :=
              [⟨1, -100, some 3, some "Жилье", "🏠", some "rent", "webapp",
                some 1720569600000⟩] }
          (some (some 1717200000000)) (some (some 1719791999999)) / 15 = 0 := by
  constructor
  · norm_num [getAvgDaily, getExpense, _periodSum, _filterByDate, timeGE, _data]
  · norm_num [getExpense, _periodSum, _filterByDate, timeGE, _data]

/-- C17. Load defaults: with nothing persisted, `init` on the initial `_data` gives the
default category list, no transactions, balance 0, currency 'UZS' and the weekly digest
enabled; on any prior state it gives the default categories, no transactions and
balance 0, leaving currency and digest as they were. The default list has exactly 10
entries whose ids are 1 to 10 in order, pairwise distinct. -/
theorem init_defaults :
    init _data none none none =
        { transactions := [], categories := DEFAULT_CATEGORIES, balance := 0,
          currency := "UZS", weeklyDigest := true } ∧
      (∀ d : Data,
        init d none none none =
          { transactions := [], categories := DEFAULT_CATEGORIES, balance := 0,
            currency := d.currency, weeklyDigest := d.weeklyDigest }) ∧
      DEFAULT_CATEGORIES.length = 10 ∧
      DEFAULT_CATEGORIES.map (fun c => c.id) = [1, 2, 3, 4, 5, 6, 7, 8, 9, 10] ∧
      (DEFAULT_CATEGORIES.map (fun c => c.id)).Nodup := by
  refine ⟨rfl, fun d => rfl, rfl, rfl, ?_⟩
  decide

/-! ## Helper lemmas on the donut loop -/

theorem foldl_total_eq (l : List CategoryStat) (a : ℚ) :
    l.foldl (fun s d => s + d.total) a = a + (l.map (fun d => d.total)).sum := by
  induction l generalizing a with
  | nil => simp
  | cons d l ih =>
    simp only [List.foldl_cons, ih, List.map_cons, List.sum_cons]
    ring

theorem sum_spans (T : ℚ) (l : List CategoryStat) :
    (l.map (fun d => d.total / T * Math.PI * 2)).sum =
      (l.map (fun d => d.total)).sum / T * Math.PI * 2 := by
  induction l with
  | nil => simp
  | cons d l ih =>
    simp only [List.map_cons, List.sum_cons, ih]
    ring

theorem sum_spans_full_turn (T : ℚ) (l : List CategoryStat)
    (hT : (l.map (fun d => d.total)).sum = T) (h0 : T ≠ 0) :
    (l.map (fun d => d.total / T * Math.PI * 2)).sum = Math.PI * 2 := by
  rw [sum_spans, hT, div_self h0, one_mul]

theorem gapped_loop_spec (T : ℚ) (l : List CategoryStat) :
    ∀ a : ℚ,
      (Charts.donutLoop T a l).1.map (fun s => s.sliceAngle) =
          l.map (fun d => d.total / T * Math.PI * 2) ∧
        (Charts.donutLoop T a l).1.head?.map (fun s => s.startAngle) =
          l.head?.map (fun _ => a) ∧
        (Charts.donutLoop T a l).1.Chain' Consecutive ∧
        (Charts.donutLoop T a l).2 = a + (l.map (fun d => d.total / T * Math.PI * 2)).sum ∧
        (Charts.donutLoop T a l).1.map (fun s => s.color) = l.map (fun d => d.color) ∧
        ∀ s ∈ (Charts.donutLoop T a l).1,
          s.adjustedStart = s.startAngle + Charts.gap / 2 ∧
          s.adjustedEnd = s.startAngle + s.sliceAngle - Charts.gap / 2 ∧
          s.drawn = decide (s.sliceAngle > Charts.gap) := by
  induction l with
  | nil =>
    intro a
    simp [Charts.donutLoop]
  | cons d l ih =>
    intro a
    obtain ⟨h1, h2, h3, h4, h5, h6⟩ := ih (a + d.total / T * Math.PI * 2)
    refine ⟨?_, ?_, ?_, ?_, ?_, ?_⟩
    · simp only [Charts.donutLoop, List.map_cons, h1]
    · simp [Charts.donutLoop]
    · simp only [Charts.donutLoop]
      rw [List.chain'_cons']
      refine ⟨?_, h3⟩
      intro y hy
      have : (Charts.donutLoop T (a + d.total / T * Math.PI * 2) l).1.head?.map
          (fun s => s.startAngle) = some y.startAngle := by
        rw [Option.mem_def.mp hy]
        rfl
      rw [h2] at this
      cases l with
      | nil => simp at this
      | cons d' l' =>
        simp only [List.head?_cons, Option.map_some', Option.some.injEq] at this
        exact this.symm
    · simp only [Charts.donutLoop, h4, List.map_cons, List.sum_cons]
      ring
    · simp only [Charts.donutLoop, List.map_cons, h5]
    · intro s hs
      simp only [Charts.donutLoop, List.mem_cons] at hs
      rcases hs with rfl | hs
      · exact ⟨rfl, rfl, rfl⟩
      · exact h6 s hs

theorem plain_loop_spec (T : ℚ) (l : List CategoryStat) :
    ∀ a : ℚ,
      (ChartsRoot.donutLoop T a l).1.map (fun s => s.sliceAngle) =
          l.map (fun d => d.total / T * Math.PI * 2) ∧
        (ChartsRoot.donutLoop T a l).1.head?.map (fun s => s.startAngle) =
          l.head?.map (fun _ => a) ∧
        (ChartsRoot.donutLoop T a l).1.Chain' Consecutive ∧
        (ChartsRoot.donutLoop T a l).2 =
          a + (l.map (fun d => d.total / T * Math.PI * 2)).sum ∧
        ∀ s ∈ (ChartsRoot.donutLoop T a l).1,
          s.adjustedStart = s.startAngle ∧
          s.adjustedEnd = s.startAngle + s.sliceAngle ∧
          s.drawn = true := by
  induction l with
  | nil =>
    intro a
    simp [ChartsRoot.donutLoop]
  | cons d l ih =>
    intro a
    obtain ⟨h1, h2, h3, h4, h6⟩ := ih (a + d.total / T * Math.PI * 2)
    refine ⟨?_, ?_, ?_, ?_, ?_⟩
    · simp only [ChartsRoot.donutLoop, List.map_cons, h1]
    · simp [ChartsRoot.donutLoop]
    · simp only [ChartsRoot.donutLoop]
      rw [List.chain'_cons']
      refine ⟨?_, h3⟩
      intro y hy
      have : (ChartsRoot.donutLoop T (a + d.total / T * Math.PI * 2) l).1.head?.map
          (fun s => s.startAngle) = some y.startAngle := by
        rw [Option.mem_def.mp hy]
        rfl
      rw [h2] at this
      cases l with
      | nil => simp at this
      | cons d' l' =>
        simp only [List.head?_cons, Option.map_some', Option.some.injEq] at this
        exact this.symm
    · simp only [ChartsRoot.donutLoop, h4, List.map_cons, List.sum_cons]
      ring
    · intro s hs
      simp only [ChartsRoot.donutLoop, List.mem_cons] at hs
      rcases hs with rfl | hs
      · exact ⟨rfl, rfl, rfl⟩
      · exact h6 s hs

theorem gapped_canvas (data : List CategoryStat) (legendEl : Bool) (hne : data ≠ [])
    (h0 : (data.map (fun d => d.total)).sum ≠ 0) :
    (Charts.drawDonut data legendEl).canvas =
      DonutCanvas.chart
        (Charts.donutLoop ((data.map (fun d => d.total)).sum) (-Math.PI / 2) data).1
        (Charts.donutLoop ((data.map (fun d => d.total)).sum) (-Math.PI / 2) data).2
        ((data.map (fun d => d.total)).sum) := by
  have hlen : data.length ≠ 0 := fun h => hne (List.length_eq_zero.mp h)
  simp [Charts.drawDonut, hlen, foldl_total_eq, h0]

theorem plain_canvas (data : List CategoryStat) (legendEl : Bool) (hne : data ≠ [])
    (h0 : (data.map (fun d => d.total)).sum ≠ 0) :
    (ChartsRoot.drawDonut data legendEl).canvas =
      DonutCanvas.chart
        (ChartsRoot.donutLoop ((data.map (fun d => d.total)).sum) (-Math.PI / 2) data).1
        (ChartsRoot.donutLoop ((data.map (fun d => d.total)).sum) (-Math.PI / 2) data).2
        ((data.map (fun d => d.total)).sum) := by
  have hlen : data.length ≠ 0 := fun h => hne (List.length_eq_zero.mp h)
  simp [ChartsRoot.drawDonut, hlen, foldl_total_eq, h0]

/-! ## Helper lemmas on rounding to double precision -/

namespace Float64

theorem roundHalfEven_eq (y : ℚ) (m : Int) (h : |y - m| < 1 / 2) : roundHalfEven y = m := by
  rw [abs_lt] at h
  obtain ⟨h1, h2⟩ := h
  unfold roundHalfEven
  by_cases hym : (m : ℚ) ≤ y
  · have hf : ⌊y⌋ = m := by
      rw [Int.floor_eq_iff]
      constructor
      · exact hym
      · linarith
    rw [hf, if_pos (by linarith)]
  · push_neg at hym
    have hf : ⌊y⌋ = m - 1 := by
      rw [Int.floor_eq_iff]
      push_cast
      constructor
      · linarith
      · linarith
    rw [hf]
    push_cast
    rw [if_neg (by linarith), if_pos (by linarith)]
    ring

theorem roundHalfEven_cases (y : ℚ) : roundHalfEven y = ⌊y⌋ ∨ roundHalfEven y = ⌊y⌋ + 1 := by
  unfold roundHalfEven
  split_ifs <;> simp

theorem roundHalfEven_intCast (n : Int) : roundHalfEven (n : ℚ) = n :=
  roundHalfEven_eq _ n (by simp)

theorem roundHalfEven_mono {a b : ℚ} (h : a ≤ b) : roundHalfEven a ≤ roundHalfEven b := by
  have hfl : ⌊a⌋ ≤ ⌊b⌋ := Int.floor_mono h
  rcases lt_or_eq_of_le hfl with hlt | heq
  · rcases roundHalfEven_cases a with ha | ha <;> rcases roundHalfEven_cases b with hb | hb <;>
      omega
  · unfold roundHalfEven
    rw [← heq]
    have hfr : a - ⌊a⌋ ≤ b - ⌊a⌋ := by linarith
    split_ifs <;> first | omega | (exfalso; linarith)

theorem roundHalfEven_neg (y : ℚ) : roundHalfEven (-y) = -roundHalfEven y := by
  by_cases hy : (⌊y⌋ : ℚ) = y
  · rw [← hy, ← Int.cast_neg, roundHalfEven_intCast, roundHalfEven_intCast]
  · have hlt : (⌊y⌋ : ℚ) < y := lt_of_le_of_ne (Int.floor_le y) hy
    have hlt2 : y < ⌊y⌋ + 1 := Int.lt_floor_add_one y
    have hf : ⌊-y⌋ = -⌊y⌋ - 1 := by
      rw [Int.floor_eq_iff]
      push_cast
      constructor <;> linarith
    unfold roundHalfEven
    rw [hf]
    push_cast
    split_ifs <;> first | omega | (exfalso; linarith)

theorem log_eq_of_bounds (x : ℚ) (e : Int) (hlo : (2 : ℚ) ^ e ≤ x)
    (hhi : x < (2 : ℚ) ^ (e + 1)) : Int.log 2 x = e := by
  have hx : 0 < x := lt_of_lt_of_le (zpow_pos (by norm_num) e) hlo
  apply le_antisymm
  · have := (Int.lt_zpow_iff_log_lt (b := 2) (by norm_num) hx (x := e + 1)).mp
      (by exact_mod_cast hhi)
    omega
  · exact (Int.zpow_le_iff_le_log (b := 2) (by norm_num) hx).mp (by exact_mod_cast hlo)

theorem log_bounds (x : ℚ) (hx : 0 < x) :
    (2 : ℚ) ^ Int.log 2 x ≤ x ∧ x < (2 : ℚ) ^ (Int.log 2 x + 1) := by
  constructor
  · exact_mod_cast Int.zpow_log_le_self (b := 2) (by norm_num) hx
  · exact_mod_cast Int.lt_zpow_succ_log_self (b := 2) (by norm_num) x

theorem nearest_eq (x : ℚ) (m k : Int) (hlo : (2 : ℚ) ^ (k + 52) ≤ |x|)
    (hhi : |x| < (2 : ℚ) ^ (k + 52 + 1)) (hm : |x / (2 : ℚ) ^ k - m| < 1 / 2) :
    nearest x = m * (2 : ℚ) ^ k := by
  have hx : x ≠ 0 := by
    intro h
    rw [h, abs_zero] at hlo
    exact absurd hlo (not_le.mpr (zpow_pos (by norm_num) _))
  have hlog := log_eq_of_bounds |x| (k + 52) hlo hhi
  unfold nearest
  rw [if_neg hx, hlog]
  have hk : k + 52 - 52 = k := by omega
  rw [hk, roundHalfEven_eq _ m hm]

theorem roundHalfEven_eq_even (y : ℚ) (m : Int) (h : |y - m| ≤ 1 / 2) (hm : m % 2 = 0) :
    roundHalfEven y = m := by
  rcases lt_or_eq_of_le h with hlt | heq
  · exact roundHalfEven_eq y m hlt
  · rcases abs_eq (by norm_num : (0 : ℚ) ≤ 1 / 2) |>.mp heq with hp | hn
    · have hy : y = m + 1 / 2 := by linarith
      have hf : ⌊y⌋ = m := by
        rw [Int.floor_eq_iff]
        constructor
        · linarith
        · linarith
      unfold roundHalfEven
      rw [hf, if_neg (by linarith), if_neg (by linarith), if_pos hm]
    · have hy : y = m - 1 / 2 := by linarith
      have hf : ⌊y⌋ = m - 1 := by
        rw [Int.floor_eq_iff]
        push_cast
        constructor
        · linarith
        · linarith
      unfold roundHalfEven
      rw [hf]
      push_cast
      rw [if_neg (by linarith), if_neg (by linarith), if_neg (by omega)]
      ring

theorem nearest_eq_even (x : ℚ) (m k : Int) (hlo : (2 : ℚ) ^ (k + 52) ≤ |x|)
    (hhi : |x| < (2 : ℚ) ^ (k + 52 + 1)) (hm : |x / (2 : ℚ) ^ k - m| ≤ 1 / 2)
    (heven : m % 2 = 0) : nearest x = m * (2 : ℚ) ^ k := by
  have hx : x ≠ 0 := by
    intro h
    rw [h, abs_zero] at hlo
    exact absurd hlo (not_le.mpr (zpow_pos (by norm_num) _))
  have hlog := log_eq_of_bounds |x| (k + 52) hlo hhi
  unfold nearest
  rw [if_neg hx, hlog]
  have hk : k + 52 - 52 = k := by omega
  rw [hk, roundHalfEven_eq_even _ m hm heven]

theorem nearest_zero : nearest 0 = 0 := by
  simp [nearest]

theorem nearest_neg (x : ℚ) : nearest (-x) = -nearest x := by
  by_cases hx : x = 0
  · simp [hx, nearest_zero]
  · unfold nearest
    rw [if_neg hx, if_neg (neg_ne_zero.mpr hx), abs_neg, neg_div, roundHalfEven_neg]
    push_cast
    ring

theorem two_zpow_split (e : Int) : (2 : ℚ) ^ e = 2 ^ (52 : ℕ) * (2 : ℚ) ^ (e - 52) := by
  rw [← zpow_natCast, ← zpow_add₀ (by norm_num : (2 : ℚ) ≠ 0)]
  congr 1
  omega

theorem two_zpow_split_succ (e : Int) :
    (2 : ℚ) ^ (e + 1) = 2 ^ (53 : ℕ) * (2 : ℚ) ^ (e - 52) := by
  rw [← zpow_natCast, ← zpow_add₀ (by norm_num : (2 : ℚ) ≠ 0)]
  congr 1
  omega

theorem scaled_bounds (x : ℚ) (hx : 0 < x) :
    (2 : ℤ) ^ (52 : ℕ) ≤ roundHalfEven (x / (2 : ℚ) ^ (Int.log 2 x - 52)) ∧
      roundHalfEven (x / (2 : ℚ) ^ (Int.log 2 x - 52)) ≤ (2 : ℤ) ^ (53 : ℕ) := by
  obtain ⟨hlo, hhi⟩ := log_bounds x hx
  have hu : (0 : ℚ) < (2 : ℚ) ^ (Int.log 2 x - 52) := zpow_pos (by norm_num) _
  rw [two_zpow_split] at hlo
  rw [two_zpow_split_succ] at hhi
  have h1 : ((2 : ℤ) ^ (52 : ℕ) : ℤ) ≤ ⌊x / (2 : ℚ) ^ (Int.log 2 x - 52)⌋ := by
    rw [Int.le_floor]
    push_cast
    rw [le_div_iff₀ hu]
    exact hlo
  have h2 : ⌊x / (2 : ℚ) ^ (Int.log 2 x - 52)⌋ < ((2 : ℤ) ^ (53 : ℕ) : ℤ) := by
    rw [Int.floor_lt]
    push_cast
    rw [div_lt_iff₀ hu]
    exact hhi
  rcases roundHalfEven_cases (x / (2 : ℚ) ^ (Int.log 2 x - 52)) with h | h <;> rw [h] <;>
    constructor <;> omega

theorem nearest_pos_bounds (x : ℚ) (hx : 0 < x) :
    (2 : ℚ) ^ Int.log 2 x ≤ nearest x ∧ nearest x ≤ (2 : ℚ) ^ (Int.log 2 x + 1) := by
  obtain ⟨h1, h2⟩ := scaled_bounds x hx
  have hu : (0 : ℚ) < (2 : ℚ) ^ (Int.log 2 x - 52) := zpow_pos (by norm_num) _
  unfold nearest
  rw [if_neg (ne_of_gt hx), abs_of_pos hx, two_zpow_split, two_zpow_split_succ]
  constructor
  · apply mul_le_mul_of_nonneg_right _ hu.le
    exact_mod_cast h1
  · apply mul_le_mul_of_nonneg_right _ hu.le
    exact_mod_cast h2

theorem nearest_pos (x : ℚ) (hx : 0 < x) : 0 < nearest x :=
  lt_of_lt_of_le (zpow_pos (by norm_num) _) (nearest_pos_bounds x hx).1

theorem nearest_exact_pos (n k : Int) (h1 : (2 : ℤ) ^ (52 : ℕ) ≤ n) (h2 : n ≤ (2 : ℤ) ^ (53 : ℕ)) :
    nearest ((n : ℚ) * (2 : ℚ) ^ k) = (n : ℚ) * (2 : ℚ) ^ k := by
  have hk : (0 : ℚ) < (2 : ℚ) ^ k := zpow_pos (by norm_num) _
  have hn : (0 : ℚ) < (n : ℚ) := by
    have : (0 : ℤ) < n := lt_of_lt_of_le (by norm_num) h1
    exact_mod_cast this
  have h1q : ((2 : ℚ) ^ (52 : ℕ)) ≤ (n : ℚ) := by exact_mod_cast h1
  rcases lt_or_eq_of_le h2 with hlt | heq
  · have hltq : (n : ℚ) < (2 : ℚ) ^ (53 : ℕ) := by exact_mod_cast hlt
    apply nearest_eq
    · rw [abs_of_pos (mul_pos hn hk), zpow_add₀ (by norm_num : (2 : ℚ) ≠ 0), mul_comm]
      apply mul_le_mul_of_nonneg_right _ hk.le
      rw [zpow_ofNat]
      exact h1q
    · rw [abs_of_pos (mul_pos hn hk)]
      have : (2 : ℚ) ^ (k + 52 + 1) = (2 : ℚ) ^ (53 : ℕ) * (2 : ℚ) ^ k := by
        rw [← zpow_natCast, ← zpow_add₀ (by norm_num : (2 : ℚ) ≠ 0)]
        congr 1
        omega
      rw [this]
      exact mul_lt_mul_of_pos_right hltq hk
    · rw [mul_div_assoc, div_self (ne_of_gt hk), mul_one, sub_self, abs_zero]
      norm_num
  · have hx : (n : ℚ) * (2 : ℚ) ^ k = ((2 : ℤ) ^ (52 : ℕ) : ℤ) * (2 : ℚ) ^ (k + 1) := by
      rw [heq, zpow_add₀ (by norm_num : (2 : ℚ) ≠ 0)]
      push_cast
      ring
    rw [hx]
    have hk1 : (0 : ℚ) < (2 : ℚ) ^ (k + 1) := zpow_pos (by norm_num) _
    apply nearest_eq
    · rw [abs_of_pos (mul_pos (by positivity) hk1), zpow_add₀ (by norm_num : (2 : ℚ) ≠ 0),
        mul_comm]
      apply mul_le_mul_of_nonneg_right _ hk1.le
      push_cast
      rw [zpow_ofNat]
      norm_num
    · rw [abs_of_pos (mul_pos (by positivity) hk1)]
      have : (2 : ℚ) ^ (k + 1 + 52 + 1) = (2 : ℚ) ^ (53 : ℕ) * (2 : ℚ) ^ (k + 1) := by
        rw [← zpow_natCast, ← zpow_add₀ (by norm_num : (2 : ℚ) ≠ 0)]
        congr 1
        omega
      rw [this]
      apply mul_lt_mul_of_pos_right _ hk1
      push_cast
      norm_num
    · rw [mul_div_assoc, div_self (ne_of_gt hk1), mul_one, sub_self, abs_zero]
      norm_num

theorem nearest_idem (x : ℚ) : nearest (nearest x) = nearest x := by
  have hpos : ∀ y : ℚ, 0 < y → nearest (nearest y) = nearest y := by
    intro y hy
    obtain ⟨h1, h2⟩ := scaled_bounds y hy
    have : nearest y =
        (roundHalfEven (y / (2 : ℚ) ^ (Int.log 2 y - 52)) : ℚ) * (2 : ℚ) ^ (Int.log 2 y - 52) := by
      unfold nearest
      rw [if_neg (ne_of_gt hy), abs_of_pos hy]
    rw [this]
    exact nearest_exact_pos _ _ h1 h2
  rcases lt_trichotomy x 0 with hx | hx | hx
  · have := hpos (-x) (neg_pos.mpr hx)
    rw [nearest_neg, nearest_neg] at this
    exact neg_injective this
  · rw [hx, nearest_zero, nearest_zero]
  · exact hpos x hx

theorem nearest_mono_pos {x y : ℚ} (hx : 0 < x) (hxy : x ≤ y) : nearest x ≤ nearest y := by
  have hy : 0 < y := lt_of_lt_of_le hx hxy
  have hlog : Int.log 2 x ≤ Int.log 2 y := Int.log_mono_right hx hxy
  rcases lt_or_eq_of_le hlog with hlt | heq
  · calc nearest x ≤ (2 : ℚ) ^ (Int.log 2 x + 1) := (nearest_pos_bounds x hx).2
      _ ≤ (2 : ℚ) ^ Int.log 2 y := zpow_le_zpow_right₀ (by norm_num) (by omega)
      _ ≤ nearest y := (nearest_pos_bounds y hy).1
  · have hu : (0 : ℚ) < (2 : ℚ) ^ (Int.log 2 y - 52) := zpow_pos (by norm_num) _
    unfold nearest
    rw [if_neg (ne_of_gt hx), if_neg (ne_of_gt hy), abs_of_pos hx, abs_of_pos hy, heq]
    apply mul_le_mul_of_nonneg_right _ hu.le
    have : roundHalfEven (x / (2 : ℚ) ^ (Int.log 2 y - 52)) ≤
        roundHalfEven (y / (2 : ℚ) ^ (Int.log 2 y - 52)) :=
      roundHalfEven_mono (div_le_div_of_nonneg_right hxy hu.le)
    exact_mod_cast this

theorem nearest_mono {x y : ℚ} (hxy : x ≤ y) : nearest x ≤ nearest y := by
  rcases lt_trichotomy x 0 with hx | hx | hx
  · rcases lt_or_le y 0 with hy | hy
    · have := nearest_mono_pos (neg_pos.mpr hy) (neg_le_neg hxy)
      rw [nearest_neg, nearest_neg] at this
      exact neg_le_neg_iff.mp this
    · have h1 : nearest x < 0 := by
        have := nearest_pos (-x) (neg_pos.mpr hx)
        rw [nearest_neg] at this
        exact neg_pos.mp this
      have h2 : 0 ≤ nearest y := by
        rcases eq_or_lt_of_le hy with h | h
        · rw [← h, nearest_zero]
        · exact (nearest_pos y h).le
      linarith
  · rw [hx, nearest_zero]
    rw [hx] at hxy
    rcases eq_or_lt_of_le hxy with h | h
    · rw [← h, nearest_zero]
    · exact (nearest_pos y h).le
  · exact nearest_mono_pos hx hxy

theorem nearest_int_pos (n : Int) (hn : 0 < n) (hle : n ≤ (2 : ℤ) ^ (53 : ℕ)) :
    nearest (n : ℚ) = n := by
  have hnq : (0 : ℚ) < (n : ℚ) := by exact_mod_cast hn
  rcases lt_or_eq_of_le hle with hlt | heq
  · obtain ⟨hlo, hhi⟩ := log_bounds (n : ℚ) hnq
    have he0 : 0 ≤ Int.log 2 (n : ℚ) := by
      apply (Int.zpow_le_iff_le_log (b := 2) (by norm_num) hnq).mp
      have : (1 : ℤ) ≤ n := hn
      have h1 : (1 : ℚ) ≤ (n : ℚ) := by exact_mod_cast this
      simpa using h1
    have he52 : Int.log 2 (n : ℚ) < 53 := by
      apply (Int.lt_zpow_iff_log_lt (b := 2) (by norm_num) hnq).mp
      have : (n : ℚ) < (2 : ℚ) ^ (53 : ℕ) := by exact_mod_cast hlt
      have e : (((2 : ℕ) : ℚ)) ^ (53 : ℤ) = (2 : ℚ) ^ (53 : ℕ) := by norm_num
      rw [e]
      exact this
    obtain ⟨j, hj⟩ : ∃ j : ℕ, Int.log 2 (n : ℚ) = 52 - (j : ℤ) :=
      ⟨(52 - Int.log 2 (n : ℚ)).toNat, by omega⟩
    rw [hj] at hlo hhi
    have hpj : (0 : ℚ) < (2 : ℚ) ^ (j : ℕ) := by positivity
    have e1 : (2 : ℚ) ^ (52 - (j : ℤ)) = (2 : ℚ) ^ (52 : ℕ) / (2 : ℚ) ^ (j : ℕ) := by
      rw [zpow_sub₀ (by norm_num : (2 : ℚ) ≠ 0), zpow_natCast]
      norm_num
    have e2 : (2 : ℚ) ^ (52 - (j : ℤ) + 1) = (2 : ℚ) ^ (53 : ℕ) / (2 : ℚ) ^ (j : ℕ) := by
      have : (52 : ℤ) - (j : ℤ) + 1 = 53 - (j : ℤ) := by omega
      rw [this, zpow_sub₀ (by norm_num : (2 : ℚ) ≠ 0), zpow_natCast]
      norm_num
    rw [e1, div_le_iff₀ hpj] at hlo
    rw [e2, lt_div_iff₀ hpj] at hhi
    have h1 : (2 : ℤ) ^ (52 : ℕ) ≤ n * 2 ^ j := by exact_mod_cast hlo
    have h2 : n * 2 ^ j ≤ (2 : ℤ) ^ (53 : ℕ) := by
      have : n * 2 ^ j < (2 : ℤ) ^ (53 : ℕ) := by exact_mod_cast hhi
      exact this.le
    have := nearest_exact_pos (n * 2 ^ j) (-(j : ℤ)) h1 h2
    have hval : ((n * 2 ^ j : ℤ) : ℚ) * (2 : ℚ) ^ (-(j : ℤ)) = (n : ℚ) := by
      push_cast
      rw [zpow_neg, zpow_natCast, mul_assoc, mul_inv_cancel₀ (ne_of_gt hpj), mul_one]
    rw [hval] at this
    exact this
  · have := nearest_exact_pos n 0 (by rw [heq]; norm_num) hle
    simpa using this

theorem nearest_int (n : Int) (hle : |n| ≤ (2 : ℤ) ^ (53 : ℕ)) : nearest (n : ℚ) = n := by
  rcases lt_trichotomy n 0 with hn | hn | hn
  · have h := nearest_int_pos (-n) (neg_pos.mpr hn) (by rw [abs_of_neg hn] at hle; exact hle)
    push_cast at h
    rw [nearest_neg] at h
    exact neg_injective h
  · rw [hn]
    simp [nearest_zero]
  · exact nearest_int_pos n hn (by rw [abs_of_pos hn] at hle; exact hle)

theorem nearest_eval (x y : ℚ) (m k : Int) (hlo : (2 : ℚ) ^ (k + 52) ≤ x)
    (hhi : x < (2 : ℚ) ^ (k + 52 + 1)) (h1 : (m : ℚ) - 1 / 2 < x / (2 : ℚ) ^ k)
    (h2 : x / (2 : ℚ) ^ k < (m : ℚ) + 1 / 2) (hy : y = m * (2 : ℚ) ^ k) : nearest x = y := by
  have hx : 0 < x := lt_of_lt_of_le (by positivity) hlo
  rw [hy]
  apply nearest_eq x m k
  · rwa [abs_of_pos hx]
  · rwa [abs_of_pos hx]
  · rw [abs_lt]
    constructor
    · linarith
    · linarith

theorem nearest_eval_neg (x y : ℚ) (m k : Int) (hlo : (2 : ℚ) ^ (k + 52) ≤ x)
    (hhi : x < (2 : ℚ) ^ (k + 52 + 1)) (h1 : (m : ℚ) - 1 / 2 < x / (2 : ℚ) ^ k)
    (h2 : x / (2 : ℚ) ^ k < (m : ℚ) + 1 / 2) (hy : y = m * (2 : ℚ) ^ k) :
    nearest (-x) = -y := by
  rw [nearest_neg, nearest_eval x y m k hlo hhi h1 h2 hy]

theorem nearest_eval_tie (x y : ℚ) (m k : Int) (hlo : (2 : ℚ) ^ (k + 52) ≤ x)
    (hhi : x < (2 : ℚ) ^ (k + 52 + 1)) (h1 : (m : ℚ) - 1 / 2 ≤ x / (2 : ℚ) ^ k)
    (h2 : x / (2 : ℚ) ^ k ≤ (m : ℚ) + 1 / 2) (heven : m % 2 = 0)
    (hy : y = m * (2 : ℚ) ^ k) : nearest x = y := by
  have hx : 0 < x := lt_of_lt_of_le (by positivity) hlo
  rw [hy]
  apply nearest_eq_even x m k _ _ _ heven
  · rwa [abs_of_pos hx]
  · rwa [abs_of_pos hx]
  · rw [abs_le]
    constructor
    · linarith
    · linarith

theorem nearest_eval_tie_neg (x y : ℚ) (m k : Int) (hlo : (2 : ℚ) ^ (k + 52) ≤ x)
    (hhi : x < (2 : ℚ) ^ (k + 52 + 1)) (h1 : (m : ℚ) - 1 / 2 ≤ x / (2 : ℚ) ^ k)
    (h2 : x / (2 : ℚ) ^ k ≤ (m : ℚ) + 1 / 2) (heven : m % 2 = 0)
    (hy : y = m * (2 : ℚ) ^ k) : nearest (-x) = -y := by
  rw [nearest_neg, nearest_eval_tie x y m k hlo hhi h1 h2 heven hy]

theorem nearest_nonpos_iff (x : ℚ) : nearest x ≤ 0 ↔ x ≤ 0 := by
  constructor
  · intro h
    by_contra hx
    push_neg at hx
    exact absurd (nearest_pos x hx) (not_lt.mpr h)
  · intro h
    have := nearest_mono h
    rwa [nearest_zero] at this

theorem nearest_one : nearest 1 = 1 := by
  have := nearest_int 1 (by norm_num)
  simpa using this

theorem nearest_hundred : nearest 100 = 100 := by
  have := nearest_int 100 (by norm_num)
  simpa using this

end Float64

/-! ## Helper lemmas on the rounded definitions -/

theorem periodSumR_id (s : Data) (f : Transaction → Bool) (dateFrom dateTo : Option Time) :
    _periodSumR id s f dateFrom dateTo = _periodSum s f dateFrom dateTo := rfl

theorem getExpenseR_id (s : Data) (dateFrom dateTo : Option Time) :
    getExpenseR id s dateFrom dateTo = getExpense s dateFrom dateTo := rfl

theorem statsStepR_id (categories : List Category) (map : List CategoryStat)
    (tx : Transaction) : statsStepR id categories map tx = statsStep categories map tx := rfl

theorem getCategoryStatsR_id (s : Data) (dateFrom dateTo : Option Time) :
    getCategoryStatsR id s dateFrom dateTo = getCategoryStats s dateFrom dateTo := rfl

theorem gapped_loopR_id (T : ℚ) (l : List CategoryStat) :
    ∀ a : ℚ, Charts.donutLoopR id T a l = Charts.donutLoop T a l := by
  induction l with
  | nil => intro a; rfl
  | cons d l ih =>
    intro a
    simp only [Charts.donutLoopR, Charts.donutLoop, Charts.gapR, Charts.gap, id, ih]

theorem plain_loopR_id (T : ℚ) (l : List CategoryStat) :
    ∀ a : ℚ, ChartsRoot.donutLoopR id T a l = ChartsRoot.donutLoop T a l := by
  induction l with
  | nil => intro a; rfl
  | cons d l ih =>
    intro a
    simp only [ChartsRoot.donutLoopR, ChartsRoot.donutLoop, id, ih]

theorem legendR_id (T : ℚ) (data : List CategoryStat) :
    Charts.legendR id T data = Charts.legend T data := rfl

theorem gapped_drawDonutR_id (data : List CategoryStat) (legendEl : Bool) :
    Charts.drawDonutR id data legendEl = Charts.drawDonut data legendEl := by
  simp only [Charts.drawDonutR, Charts.drawDonut, gapped_loopR_id, legendR_id, id]

theorem plain_drawDonutR_id (data : List CategoryStat) (legendEl : Bool) :
    ChartsRoot.drawDonutR id data legendEl = ChartsRoot.drawDonut data legendEl := by
  simp only [ChartsRoot.drawDonutR, ChartsRoot.drawDonut, plain_loopR_id, legendR_id, id]

theorem sumR_totals (rnd : ℚ → ℚ) (data : List CategoryStat) :
    data.foldl (fun s d => rnd (s + d.total)) 0 = sumR rnd (data.map (fun d => d.total)) := by
  unfold sumR
  rw [List.foldl_map]

theorem foldl_rounded_ge (rnd : ℚ → ℚ) (hmono : ∀ x y, x ≤ y → rnd x ≤ rnd y)
    (hidem : ∀ x, rnd (rnd x) = rnd x) (l : List ℚ) (hfix : ∀ x ∈ l, rnd x = x)
    (hnn : ∀ x ∈ l, 0 ≤ x) :
    ∀ a : ℚ, rnd a = a → 0 ≤ a →
      a ≤ l.foldl (fun s x => rnd (s + x)) a ∧
      ∀ x ∈ l, x ≤ l.foldl (fun s x => rnd (s + x)) a := by
  induction l with
  | nil =>
    intro a _ _
    simp
  | cons y l ih =>
    intro a ha ha0
    have hy0 : 0 ≤ y := hnn y (List.mem_cons_self _ _)
    have hyfix : rnd y = y := hfix y (List.mem_cons_self _ _)
    have h1 : a ≤ rnd (a + y) := by
      have := hmono a (a + y) (by linarith)
      rwa [ha] at this
    have h2 : y ≤ rnd (a + y) := by
      have := hmono y (a + y) (by linarith)
      rwa [hyfix] at this
    obtain ⟨h3, h4⟩ := ih (fun x hx => hfix x (List.mem_cons_of_mem _ hx))
      (fun x hx => hnn x (List.mem_cons_of_mem _ hx)) (rnd (a + y)) (hidem _) (le_trans ha0 h1)
    simp only [List.foldl_cons]
    refine ⟨le_trans h1 h3, ?_⟩
    intro x hx
    rcases List.mem_cons.mp hx with rfl | hx
    · exact le_trans h2 h3
    · exact h4 x hx

theorem sumR_ge (rnd : ℚ → ℚ) (hmono : ∀ x y, x ≤ y → rnd x ≤ rnd y)
    (hidem : ∀ x, rnd (rnd x) = rnd x) (h0 : rnd 0 = 0) (l : List ℚ)
    (hfix : ∀ x ∈ l, rnd x = x) (hnn : ∀ x ∈ l, 0 ≤ x) :
    ∀ x ∈ l, x ≤ sumR rnd l :=
  (foldl_rounded_ge rnd hmono hidem l hfix hnn 0 h0 le_rfl).2

theorem sumR_pos (rnd : ℚ → ℚ) (hmono : ∀ x y, x ≤ y → rnd x ≤ rnd y)
    (hidem : ∀ x, rnd (rnd x) = rnd x) (h0 : rnd 0 = 0) (l : List ℚ)
    (hfix : ∀ x ∈ l, rnd x = x) (hnn : ∀ x ∈ l, 0 ≤ x) (hpos : 0 < l.sum) :
    0 < sumR rnd l := by
  have hex : ∃ x ∈ l, 0 < x := by
    by_contra hcon
    push_neg at hcon
    have : l.sum = 0 := List.sum_eq_zero (fun x hx => le_antisymm (hcon x hx) (hnn x hx))
    linarith
  obtain ⟨x, hx, hx0⟩ := hex
  exact lt_of_lt_of_le hx0 (sumR_ge rnd hmono hidem h0 l hfix hnn x hx)

theorem nearest_sum_pos (data : List CategoryStat)
    (hrep : ∀ d ∈ data, Float64.nearest d.total = d.total) (hnn : ∀ d ∈ data, 0 ≤ d.total)
    (hpos : 0 < (data.map (fun d => d.total)).sum) :
    0 < sumR Float64.nearest (data.map (fun d => d.total)) ∧
      ∀ d ∈ data, d.total ≤ sumR Float64.nearest (data.map (fun d => d.total)) := by
  have hfix : ∀ x ∈ data.map (fun d => d.total), Float64.nearest x = x := by
    intro x hx
    obtain ⟨d, hd, rfl⟩ := List.mem_map.mp hx
    exact hrep d hd
  have hnn2 : ∀ x ∈ data.map (fun d => d.total), 0 ≤ x := by
    intro x hx
    obtain ⟨d, hd, rfl⟩ := List.mem_map.mp hx
    exact hnn d hd
  refine ⟨sumR_pos _ (fun _ _ h => Float64.nearest_mono h) Float64.nearest_idem
    Float64.nearest_zero _ hfix hnn2 hpos, ?_⟩
  intro d hd
  exact sumR_ge _ (fun _ _ h => Float64.nearest_mono h) Float64.nearest_idem
    Float64.nearest_zero _ hfix hnn2 _ (List.mem_map.mpr ⟨d, hd, rfl⟩)

theorem nearest_neg_half_pi : Float64.nearest (-Math.PI / 2) = -Math.PI / 2 := by
  have e : -Math.PI / 2 = -(884279719003555 / 562949953421312) := by norm_num [Math.PI]
  rw [e]
  exact Float64.nearest_eval_neg _ _ 7074237752028440 (-52) (by norm_num) (by norm_num)
    (by norm_num) (by norm_num) (by norm_num)

theorem gapped_loopR_spec (rnd : ℚ → ℚ) (T : ℚ) (l : List CategoryStat) :
    ∀ a : ℚ,
      (Charts.donutLoopR rnd T a l).1.map (fun s => s.sliceAngle) =
          l.map (fun d => rnd (rnd (rnd (d.total / T) * Math.PI) * 2)) ∧
        (Charts.donutLoopR rnd T a l).1.head?.map (fun s => s.startAngle) =
          l.head?.map (fun _ => a) ∧
        (Charts.donutLoopR rnd T a l).1.Chain' (ConsecutiveR rnd) ∧
        (Charts.donutLoopR rnd T a l).2 =
          ((Charts.donutLoopR rnd T a l).1.getLast?.map
            (fun s => rnd (s.startAngle + s.sliceAngle))).getD a ∧
        (Charts.donutLoopR rnd T a l).1.map (fun s => s.color) = l.map (fun d => d.color) ∧
        ∀ s ∈ (Charts.donutLoopR rnd T a l).1,
          s.adjustedStart = rnd (s.startAngle + rnd (Charts.gapR rnd / 2)) ∧
          s.adjustedEnd =
            rnd (rnd (s.startAngle + s.sliceAngle) - rnd (Charts.gapR rnd / 2)) ∧
          s.drawn = decide (s.sliceAngle > Charts.gapR rnd) := by
  induction l with
  | nil =>
    intro a
    simp [Charts.donutLoopR]
  | cons d l ih =>
    intro a
    obtain ⟨h1, h2, h3, h4, h5, h6⟩ :=
      ih (rnd (a + rnd (rnd (rnd (d.total / T) * Math.PI) * 2)))
    refine ⟨?_, ?_, ?_, ?_, ?_, ?_⟩
    · simp only [Charts.donutLoopR, List.map_cons, h1]
    · simp [Charts.donutLoopR]
    · simp only [Charts.donutLoopR]
      rw [List.chain'_cons']
      refine ⟨?_, h3⟩
      intro y hy
      have : (Charts.donutLoopR rnd T
          (rnd (a + rnd (rnd (rnd (d.total / T) * Math.PI) * 2))) l).1.head?.map
          (fun s => s.startAngle) = some y.startAngle := by
        rw [Option.mem_def.mp hy]
        rfl
      rw [h2] at this
      cases l with
      | nil => simp at this
      | cons d' l' =>
        simp only [List.head?_cons, Option.map_some', Option.some.injEq] at this
        exact this.symm
    · simp only [Charts.donutLoopR]
      rw [h4]
      cases hl : (Charts.donutLoopR rnd T
          (rnd (a + rnd (rnd (rnd (d.total / T) * Math.PI) * 2))) l).1 with
      | nil => simp
      | cons y ys =>
        obtain ⟨z, hz⟩ : ∃ z, (y :: ys).getLast? = some z :=
          ⟨_, List.getLast?_eq_getLast _ (List.cons_ne_nil _ _)⟩
        simp [List.getLast?_cons_cons, hz]
    · simp only [Charts.donutLoopR, List.map_cons, h5]
    · intro s hs
      simp only [Charts.donutLoopR, List.mem_cons] at hs
      rcases hs with rfl | hs
      · exact ⟨rfl, rfl, rfl⟩
      · exact h6 s hs

theorem plain_loopR_spec (rnd : ℚ → ℚ) (T : ℚ) (l : List CategoryStat) :
    ∀ a : ℚ,
      (ChartsRoot.donutLoopR rnd T a l).1.map (fun s => s.sliceAngle) =
          l.map (fun d => rnd (rnd (rnd (d.total / T) * Math.PI) * 2)) ∧
        (ChartsRoot.donutLoopR rnd T a l).1.head?.map (fun s => s.startAngle) =
          l.head?.map (fun _ => a) ∧
        (ChartsRoot.donutLoopR rnd T a l).1.Chain' (ConsecutiveR rnd) ∧
        (ChartsRoot.donutLoopR rnd T a l).2 =
          ((ChartsRoot.donutLoopR rnd T a l).1.getLast?.map
            (fun s => rnd (s.startAngle + s.sliceAngle))).getD a ∧
        ∀ s ∈ (ChartsRoot.donutLoopR rnd T a l).1,
          s.adjustedStart = s.startAngle ∧
          s.adjustedEnd = rnd (s.startAngle + s.sliceAngle) ∧
          s.drawn = true := by
  induction l with
  | nil =>
    intro a
    simp [ChartsRoot.donutLoopR]
  | cons d l ih =>
    intro a
    obtain ⟨h1, h2, h3, h4, h6⟩ :=
      ih (rnd (a + rnd (rnd (rnd (d.total / T) * Math.PI) * 2)))
    refine ⟨?_, ?_, ?_, ?_, ?_⟩
    · simp only [ChartsRoot.donutLoopR, List.map_cons, h1]
    · simp [ChartsRoot.donutLoopR]
    · simp only [ChartsRoot.donutLoopR]
      rw [List.chain'_cons']
      refine ⟨?_, h3⟩
      intro y hy
      have : (ChartsRoot.donutLoopR rnd T
          (rnd (a + rnd (rnd (rnd (d.total / T) * Math.PI) * 2))) l).1.head?.map
          (fun s => s.startAngle) = some y.startAngle := by
        rw [Option.mem_def.mp hy]
        rfl
      rw [h2] at this
      cases l with
      | nil => simp at this
      | cons d' l' =>
        simp only [List.head?_cons, Option.map_some', Option.some.injEq] at this
        exact this.symm
    · simp only [ChartsRoot.donutLoopR]
      rw [h4]
      cases hl : (ChartsRoot.donutLoopR rnd T
          (rnd (a + rnd (rnd (rnd (d.total / T) * Math.PI) * 2))) l).1 with
      | nil => simp
      | cons y ys =>
        obtain ⟨z, hz⟩ : ∃ z, (y :: ys).getLast? = some z :=
          ⟨_, List.getLast?_eq_getLast _ (List.cons_ne_nil _ _)⟩
        simp [List.getLast?_cons_cons, hz]
    · intro s hs
      simp only [ChartsRoot.donutLoopR, List.mem_cons] at hs
      rcases hs with rfl | hs
      · exact ⟨rfl, rfl, rfl⟩
      · exact h6 s hs

theorem loopR_last_some (l : List Slice) (hne : l ≠ []) (f : Slice → ℚ) (a : ℚ) :
    l.getLast?.map f = some ((l.getLast?.map f).getD a) := by
  cases h : l.getLast? with
  | none => exact absurd (List.getLast?_eq_none_iff.mp h) hne
  | some s => simp

theorem gapped_canvasR (rnd : ℚ → ℚ) (data : List CategoryStat) (legendEl : Bool)
    (hne : data ≠ []) (h0 : sumR rnd (data.map (fun d => d.total)) ≠ 0) :
    (Charts.drawDonutR rnd data legendEl).canvas =
      DonutCanvas.chart
        (Charts.donutLoopR rnd (sumR rnd (data.map (fun d => d.total)))
          (rnd (-Math.PI / 2)) data).1
        (Charts.donutLoopR rnd (sumR rnd (data.map (fun d => d.total)))
          (rnd (-Math.PI / 2)) data).2
        (sumR rnd (data.map (fun d => d.total))) := by
  have hlen : data.length ≠ 0 := fun h => hne (List.length_eq_zero.mp h)
  simp [Charts.drawDonutR, hlen, sumR_totals, h0]

theorem plain_canvasR (rnd : ℚ → ℚ) (data : List CategoryStat) (legendEl : Bool)
    (hne : data ≠ []) (h0 : sumR rnd (data.map (fun d => d.total)) ≠ 0) :
    (ChartsRoot.drawDonutR rnd data legendEl).canvas =
      DonutCanvas.chart
        (ChartsRoot.donutLoopR rnd (sumR rnd (data.map (fun d => d.total)))
          (rnd (-Math.PI / 2)) data).1
        (ChartsRoot.donutLoopR rnd (sumR rnd (data.map (fun d => d.total)))
          (rnd (-Math.PI / 2)) data).2
        (sumR rnd (data.map (fun d => d.total))) := by
  have hlen : data.length ≠ 0 := fun h => hne (List.length_eq_zero.mp h)
  simp [ChartsRoot.drawDonutR, hlen, sumR_totals, h0]

/-! ## Evaluations of double arithmetic on concrete numbers -/

/-- The double sum `0 + 33` is 33. -/
theorem double_eval_01 : Float64.nearest 33 = 33 :=
  Float64.nearest_eval _ _ 4644337115725824 (-47) (by norm_num) (by norm_num) (by norm_num)
    (by norm_num) (by norm_num)

/-- The double sum `33 + 33` is 66. -/
theorem double_eval_02 : Float64.nearest 66 = 66 :=
  Float64.nearest_eval _ _ 4644337115725824 (-46) (by norm_num) (by norm_num) (by norm_num)
    (by norm_num) (by norm_num)

/-- The double sum `66 + 34` is 100. -/
theorem double_eval_03 : Float64.nearest 100 = 100 :=
  Float64.nearest_eval _ _ 7036874417766400 (-46) (by norm_num) (by norm_num) (by norm_num)
    (by norm_num) (by norm_num)

/-- The double `-Math.PI / 2` is -1.5707963267948966, exactly half of `-Math.PI`. -/
theorem double_eval_04 :
    Float64.nearest (-(884279719003555 / 562949953421312)) =
      -(884279719003555 / 562949953421312) :=
  Float64.nearest_eval_neg _ _ 7074237752028440 (-52) (by norm_num) (by norm_num) (by norm_num)
    (by norm_num) (by norm_num)

/-- The double quotient `33 / 100` is 0.33. -/
theorem double_eval_05 : Float64.nearest (33 / 100) = 5944751508129055 / 18014398509481984 :=
  Float64.nearest_eval _ _ 5944751508129055 (-54) (by norm_num) (by norm_num) (by norm_num)
    (by norm_num) (by norm_num)

/-- The double product `0.33 * 100` is 33. -/
theorem double_eval_06 : Float64.nearest (148618787703226375 / 4503599627370496) = 33 :=
  Float64.nearest_eval _ _ 4644337115725824 (-47) (by norm_num) (by norm_num) (by norm_num)
    (by norm_num) (by norm_num)

/-- The double product `0.33 * Math.PI` is 1.0367255756846319. -/
theorem double_eval_07 :
    Float64.nearest (5256823193154320562746943790525 / 5070602400912917605986812821504) =
      4668996916338771 / 4503599627370496 :=
  Float64.nearest_eval _ _ 4668996916338771 (-52) (by norm_num) (by norm_num) (by norm_num)
    (by norm_num) (by norm_num)

/-- The double product `1.0367255756846319 * 2` is 2.0734511513692637. -/
theorem double_eval_08 :
    Float64.nearest (4668996916338771 / 2251799813685248) =
      4668996916338771 / 2251799813685248 :=
  Float64.nearest_eval _ _ 4668996916338771 (-51) (by norm_num) (by norm_num) (by norm_num)
    (by norm_num) (by norm_num)

/-- The double sum `-1.5707963267948966 + 2.0734511513692637` is 0.5026548245743672. -/
theorem double_eval_09 :
    Float64.nearest (1131878040324551 / 2251799813685248) =
      1131878040324551 / 2251799813685248 :=
  Float64.nearest_eval _ _ 4527512161298204 (-53) (by norm_num) (by norm_num) (by norm_num)
    (by norm_num) (by norm_num)

/-- The double sum `0.5026548245743672 + 2.0734511513692637` is 2.576105975943631. -/
theorem double_eval_10 :
    Float64.nearest (2900437478331661 / 1125899906842624) =
      2900437478331661 / 1125899906842624 :=
  Float64.nearest_eval _ _ 5800874956663322 (-51) (by norm_num) (by norm_num) (by norm_num)
    (by norm_num) (by norm_num)

/-- The double quotient `34 / 100` is 0.34. -/
theorem double_eval_11 : Float64.nearest (17 / 50) = 6124895493223875 / 18014398509481984 :=
  Float64.nearest_eval _ _ 6124895493223875 (-54) (by norm_num) (by norm_num) (by norm_num)
    (by norm_num) (by norm_num)

/-- The double product `0.34 * 100` is 34. -/
theorem double_eval_12 : Float64.nearest (153122387330596875 / 4503599627370496) = 34 :=
  Float64.nearest_eval _ _ 4785074604081152 (-47) (by norm_num) (by norm_num) (by norm_num)
    (by norm_num) (by norm_num)

/-- The double product `0.34 * Math.PI` is 1.0681415022205298. -/
theorem double_eval_13 :
    Float64.nearest (5416120865674148592569535875625 / 5070602400912917605986812821504) =
      1202620417844835 / 1125899906842624 :=
  Float64.nearest_eval _ _ 4810481671379340 (-52) (by norm_num) (by norm_num) (by norm_num)
    (by norm_num) (by norm_num)

/-- The double product `1.0681415022205298 * 2` is 2.1362830044410597. -/
theorem double_eval_14 :
    Float64.nearest (1202620417844835 / 562949953421312) =
      1202620417844835 / 562949953421312 :=
  Float64.nearest_eval _ _ 4810481671379340 (-51) (by norm_num) (by norm_num) (by norm_num)
    (by norm_num) (by norm_num)

/-- The double sum `2.576105975943631 + 2.1362830044410597` is 4.712388980384691. -/
theorem double_eval_15 :
    Float64.nearest (5305678314021331 / 1125899906842624) =
      5305678314021331 / 1125899906842624 :=
  Float64.nearest_eval _ _ 5305678314021331 (-50) (by norm_num) (by norm_num) (by norm_num)
    (by norm_num) (by norm_num)

/-- The double sum `-Math.PI / 2 + Math.PI * 2` is 4.71238898038469. -/
theorem double_eval_16 :
    Float64.nearest (2652839157010665 / 562949953421312) =
      2652839157010665 / 562949953421312 :=
  Float64.nearest_eval _ _ 5305678314021330 (-50) (by norm_num) (by norm_num) (by norm_num)
    (by norm_num) (by norm_num)

/-- The double sum `0 + 23` is 23. -/
theorem double_eval_17 : Float64.nearest 23 = 23 :=
  Float64.nearest_eval _ _ 6473924464345088 (-48) (by norm_num) (by norm_num) (by norm_num)
    (by norm_num) (by norm_num)

/-- The double sum `23 + 17` is 40. -/
theorem double_eval_18 : Float64.nearest 40 = 40 :=
  Float64.nearest_eval _ _ 5629499534213120 (-47) (by norm_num) (by norm_num) (by norm_num)
    (by norm_num) (by norm_num)

/-- The double quotient `23 / 40` is 0.575. -/
theorem double_eval_19 : Float64.nearest (23 / 40) = 2589569785738035 / 4503599627370496 :=
  Float64.nearest_eval _ _ 5179139571476070 (-53) (by norm_num) (by norm_num) (by norm_num)
    (by norm_num) (by norm_num)

/-- The double product `0.575 * 100` is 57.49999999999999. -/
theorem double_eval_20 :
    Float64.nearest (64739244643450875 / 1125899906842624) =
      8092405580431359 / 140737488355328 :=
  Float64.nearest_eval _ _ 8092405580431359 (-47) (by norm_num) (by norm_num) (by norm_num)
    (by norm_num) (by norm_num)

/-- The double quotient `17 / 40` is 0.425. -/
theorem double_eval_21 : Float64.nearest (17 / 40) = 7656119366529843 / 18014398509481984 :=
  Float64.nearest_eval _ _ 7656119366529843 (-54) (by norm_num) (by norm_num) (by norm_num)
    (by norm_num) (by norm_num)

/-- The double product `0.425 * 100` is 42.5. -/
theorem double_eval_22 : Float64.nearest (191402984163246075 / 4503599627370496) = 85 / 2 :=
  Float64.nearest_eval _ _ 5981343255101440 (-47) (by norm_num) (by norm_num) (by norm_num)
    (by norm_num) (by norm_num)

/-- The number 34 is a double. -/
theorem double_eval_23 : Float64.nearest 34 = 34 :=
  Float64.nearest_eval _ _ 4785074604081152 (-47) (by norm_num) (by norm_num) (by norm_num)
    (by norm_num) (by norm_num)

/-- The number 17 is a double. -/
theorem double_eval_24 : Float64.nearest 17 = 17 :=
  Float64.nearest_eval _ _ 4785074604081152 (-48) (by norm_num) (by norm_num) (by norm_num)
    (by norm_num) (by norm_num)

/-- The double sum `0 + -0.1` is -0.1. -/
theorem double_eval_25 :
    Float64.nearest (-(3602879701896397 / 36028797018963968)) =
      -(3602879701896397 / 36028797018963968) :=
  Float64.nearest_eval_neg _ _ 7205759403792794 (-56) (by norm_num) (by norm_num) (by norm_num)
    (by norm_num) (by norm_num)

/-- The double sum `-0.1 + -0.2` is -0.30000000000000004. -/
theorem double_eval_26 :
    Float64.nearest (-(10808639105689191 / 36028797018963968)) =
      -(1351079888211149 / 4503599627370496) :=
  Float64.nearest_eval_tie_neg _ _ 5404319552844596 (-54) (by norm_num) (by norm_num) (by norm_num)
    (by norm_num) (by decide) (by norm_num)

/-- The double sum `-0.30000000000000004 + -0.3` is -0.6000000000000001. -/
theorem double_eval_27 :
    Float64.nearest (-(10808639105689191 / 18014398509481984)) =
      -(1351079888211149 / 2251799813685248) :=
  Float64.nearest_eval_tie_neg _ _ 5404319552844596 (-53) (by norm_num) (by norm_num) (by norm_num)
    (by norm_num) (by decide) (by norm_num)

/-- The double sum `0 + 0.1` is 0.1. -/
theorem double_eval_28 :
    Float64.nearest (3602879701896397 / 36028797018963968) =
      3602879701896397 / 36028797018963968 :=
  Float64.nearest_eval _ _ 7205759403792794 (-56) (by norm_num) (by norm_num) (by norm_num)
    (by norm_num) (by norm_num)

/-- The double sum `0 + 0.2` is 0.2. -/
theorem double_eval_29 :
    Float64.nearest (3602879701896397 / 18014398509481984) =
      3602879701896397 / 18014398509481984 :=
  Float64.nearest_eval _ _ 7205759403792794 (-55) (by norm_num) (by norm_num) (by norm_num)
    (by norm_num) (by norm_num)

/-- The double sum `0 + 0.3` is 0.3. -/
theorem double_eval_30 :
    Float64.nearest (5404319552844595 / 18014398509481984) =
      5404319552844595 / 18014398509481984 :=
  Float64.nearest_eval _ _ 5404319552844595 (-54) (by norm_num) (by norm_num) (by norm_num)
    (by norm_num) (by norm_num)

/-- The double sum `0.3 + 0.2` is 0.5. -/
theorem double_eval_31 : Float64.nearest (1 / 2) = 1 / 2 :=
  Float64.nearest_eval _ _ 4503599627370496 (-53) (by norm_num) (by norm_num) (by norm_num)
    (by norm_num) (by norm_num)

/-- The double sum `0.5 + 0.1` is 0.6. -/
theorem double_eval_32 :
    Float64.nearest (21617278211378381 / 36028797018963968) =
      5404319552844595 / 9007199254740992 :=
  Float64.nearest_eval _ _ 5404319552844595 (-53) (by norm_num) (by norm_num) (by norm_num)
    (by norm_num) (by norm_num)

/-! ## The claims on the donut chart -/

/-- C18, as stated, fails on doubles: for the totals 33, 33 and 34 the running angle of
`drawDonut` (`js/charts.js` and `charts.js` alike) ends at 4.712388980384691, one unit in
the last place above `-Math.PI / 2 + Math.PI * 2` (4.71238898038469, itself a double), and
the spans add up to 6.283185307179587, not to `Math.PI * 2` (6.283185307179586). -/
theorem donut_turn_inexact_on_doubles :
    (∃ slices endAngle total,
      (Charts.drawDonutR Float64.nearest
          [⟨1, "a", "x", "#FF9500", 33⟩, ⟨2, "b", "y", "#FF3B30", 33⟩,
           ⟨3, "c", "z", "#AF52DE", 34⟩] true).canvas =
          DonutCanvas.chart slices endAngle total ∧
        endAngle = 5305678314021331 / 1125899906842624 ∧
        endAngle ≠ -Math.PI / 2 + Math.PI * 2 ∧
        endAngle ≠ Float64.nearest (-Math.PI / 2 + Math.PI * 2) ∧
        (slices.map (fun s => s.sliceAngle)).sum = 7074237752028441 / 1125899906842624 ∧
        (slices.map (fun s => s.sliceAngle)).sum ≠ Math.PI * 2) ∧
    (∃ slices endAngle total,
      (ChartsRoot.drawDonutR Float64.nearest
          [⟨1, "a", "x", "#FF9500", 33⟩, ⟨2, "b", "y", "#FF3B30", 33⟩,
           ⟨3, "c", "z", "#AF52DE", 34⟩] true).canvas =
          DonutCanvas.chart slices endAngle total ∧
        endAngle = 5305678314021331 / 1125899906842624 ∧
        endAngle ≠ -Math.PI / 2 + Math.PI * 2 ∧
        endAngle ≠ Float64.nearest (-Math.PI / 2 + Math.PI * 2) ∧
        (slices.map (fun s => s.sliceAngle)).sum = 7074237752028441 / 1125899906842624 ∧
        (slices.map (fun s => s.sliceAngle)).sum ≠ Math.PI * 2) := by
  have hT : sumR Float64.nearest
      (([⟨1, "a", "x", "#FF9500", 33⟩, ⟨2, "b", "y", "#FF3B30", 33⟩,
         ⟨3, "c", "z", "#AF52DE", 34⟩] : List CategoryStat).map (fun d => d.total)) = 100 := by
    norm_num [sumR, double_eval_01, double_eval_02, double_eval_03]
  have hfull : Float64.nearest (-Math.PI / 2 + Math.PI * 2) =
      2652839157010665 / 562949953421312 := by
    norm_num [Math.PI, double_eval_16]
  constructor
  · obtain ⟨h1, _, _, _, _, _⟩ := gapped_loopR_spec Float64.nearest
      (sumR Float64.nearest
        (([⟨1, "a", "x", "#FF9500", 33⟩, ⟨2, "b", "y", "#FF3B30", 33⟩,
           ⟨3, "c", "z", "#AF52DE", 34⟩] : List CategoryStat).map (fun d => d.total)))
      [⟨1, "a", "x", "#FF9500", 33⟩, ⟨2, "b", "y", "#FF3B30", 33⟩, ⟨3, "c", "z", "#AF52DE", 34⟩]
      (Float64.nearest (-Math.PI / 2))
    have hend : (Charts.donutLoopR Float64.nearest
        (sumR Float64.nearest
          (([⟨1, "a", "x", "#FF9500", 33⟩, ⟨2, "b", "y", "#FF3B30", 33⟩,
             ⟨3, "c", "z", "#AF52DE", 34⟩] : List CategoryStat).map (fun d => d.total)))
        (Float64.nearest (-Math.PI / 2))
        [⟨1, "a", "x", "#FF9500", 33⟩, ⟨2, "b", "y", "#FF3B30", 33⟩,
         ⟨3, "c", "z", "#AF52DE", 34⟩]).2 = 5305678314021331 / 1125899906842624 := by
      rw [hT]
      norm_num [Charts.donutLoopR, Math.PI, double_eval_04, double_eval_05, double_eval_07,
        double_eval_08, double_eval_09, double_eval_10, double_eval_11, double_eval_13,
        double_eval_14, double_eval_15]
    refine ⟨_, _, _, gapped_canvasR _ _ true (by simp) (by rw [hT]; norm_num), hend, ?_, ?_,
      ?_, ?_⟩
    · rw [hend]
      norm_num [Math.PI]
    · rw [hend, hfull]
      norm_num
    · rw [h1, hT]
      norm_num [Math.PI, double_eval_05, double_eval_07, double_eval_08, double_eval_11,
        double_eval_13, double_eval_14]
    · rw [h1, hT]
      norm_num [Math.PI, double_eval_05, double_eval_07, double_eval_08, double_eval_11,
        double_eval_13, double_eval_14]
  · obtain ⟨h1, _, _, _, _⟩ := plain_loopR_spec Float64.nearest
      (sumR Float64.nearest
        (([⟨1, "a", "x", "#FF9500", 33⟩, ⟨2, "b", "y", "#FF3B30", 33⟩,
           ⟨3, "c", "z", "#AF52DE", 34⟩] : List CategoryStat).map (fun d => d.total)))
      [⟨1, "a", "x", "#FF9500", 33⟩, ⟨2, "b", "y", "#FF3B30", 33⟩, ⟨3, "c", "z", "#AF52DE", 34⟩]
      (Float64.nearest (-Math.PI / 2))
    have hend : (ChartsRoot.donutLoopR Float64.nearest
        (sumR Float64.nearest
          (([⟨1, "a", "x", "#FF9500", 33⟩, ⟨2, "b", "y", "#FF3B30", 33⟩,
             ⟨3, "c", "z", "#AF52DE", 34⟩] : List CategoryStat).map (fun d => d.total)))
        (Float64.nearest (-Math.PI / 2))
        [⟨1, "a", "x", "#FF9500", 33⟩, ⟨2, "b", "y", "#FF3B30", 33⟩,
         ⟨3, "c", "z", "#AF52DE", 34⟩]).2 = 5305678314021331 / 1125899906842624 := by
      rw [hT]
      norm_num [ChartsRoot.donutLoopR, Math.PI, double_eval_04, double_eval_05,
        double_eval_07, double_eval_08, double_eval_09, double_eval_10, double_eval_11,
        double_eval_13, double_eval_14, double_eval_15]
    refine ⟨_, _, _, plain_canvasR _ _ true (by simp) (by rw [hT]; norm_num), hend, ?_, ?_,
      ?_, ?_⟩
    · rw [hend]
      norm_num [Math.PI]
    · rw [hend, hfull]
      norm_num
    · rw [h1, hT]
      norm_num [Math.PI, double_eval_05, double_eval_07, double_eval_08, double_eval_11,
        double_eval_13, double_eval_14]
    · rw [h1, hT]
      norm_num [Math.PI, double_eval_05, double_eval_07, double_eval_08, double_eval_11,
        double_eval_13, double_eval_14]

/-- C18, amended. Donut segment geometry on doubles, for every non-empty stats list whose
totals are doubles, non-negative and of positive sum, in `js/charts.js` and in `charts.js`
alike: `drawDonut` draws the chart, its total the left-to-right sum of the totals, every
addition rounded, and positive; the first segment starts at `-Math.PI / 2` (-90°); each
following segment starts at the double sum `startAngle + sliceAngle` of the previous one;
segment `i` has the span `(item_i.total / total) * Math.PI * 2`, each of the three
operations rounded; and the running angle ends at the double sum `startAngle + sliceAngle`
of the last segment. Without rounding (`rnd = id`) the functions are the exact ones, the
spans add up to `Math.PI * 2`, one full turn, and the running angle ends at
`-Math.PI / 2 + Math.PI * 2`. -/
theorem donut_geometry (data : List CategoryStat) (legendEl : Bool) (hne : data ≠ [])
    (hrep : ∀ d ∈ data, Float64.nearest d.total = d.total)
    (hnn : ∀ d ∈ data, 0 ≤ d.total) (hpos : 0 < (data.map (fun d => d.total)).sum) :
    (∃ slices endAngle total,
      (Charts.drawDonutR Float64.nearest data legendEl).canvas =
          DonutCanvas.chart slices endAngle total ∧
        total = sumR Float64.nearest (data.map (fun d => d.total)) ∧ 0 < total ∧
        slices.head?.map (fun s => s.startAngle) = some (-Math.PI / 2) ∧
        slices.Chain' (ConsecutiveR Float64.nearest) ∧
        slices.map (fun s => s.sliceAngle) =
          data.map (fun d =>
            Float64.nearest (Float64.nearest (Float64.nearest (d.total / total) * Math.PI) * 2)) ∧
        slices.getLast?.map (fun s => Float64.nearest (s.startAngle + s.sliceAngle)) =
          some endAngle) ∧
    (∃ slices endAngle total,
      (ChartsRoot.drawDonutR Float64.nearest data legendEl).canvas =
          DonutCanvas.chart slices endAngle total ∧
        total = sumR Float64.nearest (data.map (fun d => d.total)) ∧ 0 < total ∧
        slices.head?.map (fun s => s.startAngle) = some (-Math.PI / 2) ∧
        slices.Chain' (ConsecutiveR Float64.nearest) ∧
        slices.map (fun s => s.sliceAngle) =
          data.map (fun d =>
            Float64.nearest (Float64.nearest (Float64.nearest (d.total / total) * Math.PI) * 2)) ∧
        slices.getLast?.map (fun s => Float64.nearest (s.startAngle + s.sliceAngle)) =
          some endAngle ∧
        ∀ s ∈ slices, s.adjustedStart = s.startAngle ∧
          s.adjustedEnd = Float64.nearest (s.startAngle + s.sliceAngle)) ∧
    (∃ slices endAngle,
      (Charts.drawDonutR id data legendEl).canvas =
          DonutCanvas.chart slices endAngle ((data.map (fun d => d.total)).sum) ∧
        Charts.drawDonutR id data legendEl = Charts.drawDonut data legendEl ∧
        slices.head?.map (fun s => s.startAngle) = some (-Math.PI / 2) ∧
        slices.Chain' Consecutive ∧
        slices.map (fun s => s.sliceAngle) =
          data.map (fun d => d.total / (data.map (fun d => d.total)).sum * Math.PI * 2) ∧
        (slices.map (fun s => s.sliceAngle)).sum = Math.PI * 2 ∧
        endAngle = -Math.PI / 2 + Math.PI * 2) ∧
    (∃ slices endAngle,
      (ChartsRoot.drawDonutR id data legendEl).canvas =
          DonutCanvas.chart slices endAngle ((data.map (fun d => d.total)).sum) ∧
        ChartsRoot.drawDonutR id data legendEl = ChartsRoot.drawDonut data legendEl ∧
        slices.head?.map (fun s => s.startAngle) = some (-Math.PI / 2) ∧
        slices.Chain' Consecutive ∧
        slices.map (fun s => s.sliceAngle) =
          data.map (fun d => d.total / (data.map (fun d => d.total)).sum * Math.PI * 2) ∧
        (slices.map (fun s => s.sliceAngle)).sum = Math.PI * 2 ∧
        endAngle = -Math.PI / 2 + Math.PI * 2 ∧
        ∀ s ∈ slices, s.adjustedStart = s.startAngle ∧
          s.adjustedEnd = s.startAngle + s.sliceAngle) := by
  have hhead : ∀ a : ℚ, data.head?.map (fun _ => a) = some a := by
    intro a
    cases data with
    | nil => exact absurd rfl hne
    | cons d l => rfl
  obtain ⟨hTpos, _⟩ := nearest_sum_pos data hrep hnn hpos
  have h0 : (data.map (fun d => d.total)).sum ≠ 0 := ne_of_gt hpos
  have hsum := sum_spans_full_turn _ data rfl h0
  refine ⟨?_, ?_, ?_, ?_⟩
  · obtain ⟨h1, h2, h3, h4, _, _⟩ := gapped_loopR_spec Float64.nearest
      (sumR Float64.nearest (data.map (fun d => d.total))) data (Float64.nearest (-Math.PI / 2))
    have hnil : (Charts.donutLoopR Float64.nearest
        (sumR Float64.nearest (data.map (fun d => d.total)))
        (Float64.nearest (-Math.PI / 2)) data).1 ≠ [] := by
      intro h
      rw [h, hhead] at h2
      simp at h2
    refine ⟨_, _, _, gapped_canvasR _ data legendEl hne (ne_of_gt hTpos), rfl, hTpos, ?_, h3,
      h1, ?_⟩
    · rw [h2, hhead, nearest_neg_half_pi]
    · rw [h4]
      exact loopR_last_some _ hnil _ _
  · obtain ⟨h1, h2, h3, h4, h6⟩ := plain_loopR_spec Float64.nearest
      (sumR Float64.nearest (data.map (fun d => d.total))) data (Float64.nearest (-Math.PI / 2))
    have hnil : (ChartsRoot.donutLoopR Float64.nearest
        (sumR Float64.nearest (data.map (fun d => d.total)))
        (Float64.nearest (-Math.PI / 2)) data).1 ≠ [] := by
      intro h
      rw [h, hhead] at h2
      simp at h2
    refine ⟨_, _, _, plain_canvasR _ data legendEl hne (ne_of_gt hTpos), rfl, hTpos, ?_, h3,
      h1, ?_, ?_⟩
    · rw [h2, hhead, nearest_neg_half_pi]
    · rw [h4]
      exact loopR_last_some _ hnil _ _
    · intro s hs
      exact ⟨(h6 s hs).1, (h6 s hs).2.1⟩
  · obtain ⟨h1, h2, h3, h4, _, _⟩ :=
      gapped_loop_spec ((data.map (fun d => d.total)).sum) data (-Math.PI / 2)
    rw [gapped_drawDonutR_id]
    refine ⟨_, _, gapped_canvas data legendEl hne h0, rfl, h2.trans (hhead _), h3, h1, ?_, ?_⟩
    · rw [h1, hsum]
    · rw [h4, hsum]
  · obtain ⟨h1, h2, h3, h4, h6⟩ :=
      plain_loop_spec ((data.map (fun d => d.total)).sum) data (-Math.PI / 2)
    rw [plain_drawDonutR_id]
    refine ⟨_, _, plain_canvas data legendEl hne h0, rfl, h2.trans (hhead _), h3, h1, ?_, ?_,
      ?_⟩
    · rw [h1, hsum]
    · rw [h4, hsum]
    · intro s hs
      exact ⟨(h6 s hs).1, (h6 s hs).2.1⟩

/-- Witness for C18 amended: the totals 33, 33 and 34, on doubles. -/
theorem donut_geometry_witness :
    ∃ slices endAngle total,
      (Charts.drawDonutR Float64.nearest
          [⟨1, "a", "x", "#FF9500", 33⟩, ⟨2, "b", "y", "#FF3B30", 33⟩,
           ⟨3, "c", "z", "#AF52DE", 34⟩] true).canvas =
          DonutCanvas.chart slices endAngle total ∧
        total = sumR Float64.nearest
          (([⟨1, "a", "x", "#FF9500", 33⟩, ⟨2, "b", "y", "#FF3B30", 33⟩,
             ⟨3, "c", "z", "#AF52DE", 34⟩] : List CategoryStat).map (fun d => d.total)) ∧
        0 < total ∧
        slices.head?.map (fun s => s.startAngle) = some (-Math.PI / 2) ∧
        slices.Chain' (ConsecutiveR Float64.nearest) ∧
        slices.map (fun s => s.sliceAngle) =
          ([⟨1, "a", "x", "#FF9500", 33⟩, ⟨2, "b", "y", "#FF3B30", 33⟩,
            ⟨3, "c", "z", "#AF52DE", 34⟩] : List CategoryStat).map
            (fun d =>
              Float64.nearest
                (Float64.nearest (Float64.nearest (d.total / total) * Math.PI) * 2)) ∧
        slices.getLast?.map (fun s => Float64.nearest (s.startAngle + s.sliceAngle)) =
          some endAngle :=
  (donut_geometry
    [⟨1, "a", "x", "#FF9500", 33⟩, ⟨2, "b", "y", "#FF3B30", 33⟩, ⟨3, "c", "z", "#AF52DE", 34⟩]
    true (by simp)
    (by
      intro d hd
      simp only [List.mem_cons, List.mem_singleton, List.not_mem_nil, or_false] at hd
      rcases hd with rfl | rfl | rfl
      · exact double_eval_01
      · exact double_eval_01
      · exact double_eval_23)
    (by
      intro d hd
      simp only [List.mem_cons, List.mem_singleton, List.not_mem_nil, or_false] at hd
      rcases hd with rfl | rfl | rfl
      all_goals norm_num)
    (by norm_num)).1

/-- C19, as stated, fails: for the non-empty list holding one entry of total 0 the
placeholder is not drawn. -/
theorem zero_total_not_placeholder :
    ¬ ((Charts.drawDonut [⟨1, "Еда", "🍔", "#FF9500", 0⟩] true).canvas =
        DonutCanvas.placeholder "Нет данных") := by
  simp [Charts.drawDonut]

/-- C19, amended. In `js/charts.js` and in `charts.js`, `drawDonut` produces the empty state
(placeholder drawn, no segments, legend cleared when a legend element is given) on the
empty list, and only the length of the list is tested: a list that gets the placeholder
is empty, whatever the totals. The function is total. -/
theorem donut_empty_iff_no_data (data : List CategoryStat) (legendEl : Bool) :
    (data = [] →
      Charts.drawDonut data legendEl =
          { canvas := DonutCanvas.placeholder "Нет данных",
            legend := if legendEl then some [] else none } ∧
        ChartsRoot.drawDonut data legendEl =
          { canvas := DonutCanvas.placeholder "Нет данных",
            legend := if legendEl then some [] else none }) ∧
      (∀ text, (Charts.drawDonut data legendEl).canvas = DonutCanvas.placeholder text →
        data = []) ∧
      (∀ text, (ChartsRoot.drawDonut data legendEl).canvas = DonutCanvas.placeholder text →
        data = []) := by
  refine ⟨?_, ?_, ?_⟩
  · intro h
    subst h
    exact ⟨rfl, rfl⟩
  · intro text h
    by_contra hne
    have hlen : data.length ≠ 0 := fun h => hne (List.length_eq_zero.mp h)
    simp only [Charts.drawDonut, hlen, if_false] at h
    split at h <;> exact absurd h (by simp)
  · intro text h
    by_contra hne
    have hlen : data.length ≠ 0 := fun h => hne (List.length_eq_zero.mp h)
    simp only [ChartsRoot.drawDonut, hlen, if_false] at h
    split at h <;> exact absurd h (by simp)

/-- Witness for C19 amended: the empty list, with a legend element. -/
theorem donut_empty_iff_no_data_witness :
    Charts.drawDonut [] true =
        { canvas := DonutCanvas.placeholder "Нет данных", legend := some [] } ∧
      ChartsRoot.drawDonut [] true =
        { canvas := DonutCanvas.placeholder "Нет данных", legend := some [] } :=
  (donut_empty_iff_no_data [] true).1 rfl

/-- C20. Donut gap (`js/charts.js`, gap 0.02), for every non-empty stats list with a
non-zero sum: the loop has one iteration per item; an iteration whose span is smaller
than the gap (or equal to it) is skipped; every drawn segment goes from
`startAngle + gap / 2` to `startAngle + sliceAngle - gap / 2`, the drawn end strictly
greater than the drawn start and the drawn span equal to `span - gap > 0`; and whether
drawn or skipped, each iteration advances the running angle by its full span. -/
theorem donut_gap (data : List CategoryStat) (legendEl : Bool) (hne : data ≠ [])
    (h0 : (data.map (fun d => d.total)).sum ≠ 0) :
    Charts.gap = 2 / 100 ∧
    ∃ slices endAngle,
      (Charts.drawDonut data legendEl).canvas =
          DonutCanvas.chart slices endAngle ((data.map (fun d => d.total)).sum) ∧
        slices.length = data.length ∧
        (∀ s ∈ slices,
          (s.sliceAngle ≤ Charts.gap → s.drawn = false) ∧
          (s.drawn = true →
            s.adjustedStart = s.startAngle + Charts.gap / 2 ∧
            s.adjustedEnd = s.startAngle + s.sliceAngle - Charts.gap / 2 ∧
            s.adjustedStart < s.adjustedEnd ∧
            s.adjustedEnd - s.adjustedStart = s.sliceAngle - Charts.gap ∧
            0 < s.sliceAngle - Charts.gap)) ∧
        slices.Chain' Consecutive ∧
        endAngle = -Math.PI / 2 + (slices.map (fun s => s.sliceAngle)).sum := by
  obtain ⟨h1, _, h3, h4, _, h6⟩ :=
    gapped_loop_spec ((data.map (fun d => d.total)).sum) data (-Math.PI / 2)
  refine ⟨rfl, _, _, gapped_canvas data legendEl hne h0, ?_, ?_, h3, ?_⟩
  · have := congrArg List.length h1
    simpa using this
  · intro s hs
    obtain ⟨ha, hb, hc⟩ := h6 s hs
    constructor
    · intro hle
      rw [hc]
      simpa using hle
    · intro hd
      rw [hc, decide_eq_true_eq] at hd
      refine ⟨ha, hb, ?_, ?_, ?_⟩
      · rw [ha, hb]; linarith
      · rw [ha, hb]; ring
      · linarith
  · rw [h4, h1]

/-- Witness for C20: the totals 1 and 999; the first span is below the gap. -/
theorem donut_gap_witness :
    Charts.gap = 2 / 100 ∧
    ∃ slices endAngle,
      (Charts.drawDonut [⟨1, "a", "x", "#FF9500", 1⟩, ⟨2, "b", "y", "#FF3B30", 999⟩]
          true).canvas =
          DonutCanvas.chart slices endAngle
            (([⟨1, "a", "x", "#FF9500", 1⟩, ⟨2, "b", "y", "#FF3B30", 999⟩] :
              List CategoryStat).map (fun d => d.total)).sum ∧
        slices.length =
          ([⟨1, "a", "x", "#FF9500", 1⟩, ⟨2, "b", "y", "#FF3B30", 999⟩] :
            List CategoryStat).length ∧
        (∀ s ∈ slices,
          (s.sliceAngle ≤ Charts.gap → s.drawn = false) ∧
          (s.drawn = true →
            s.adjustedStart = s.startAngle + Charts.gap / 2 ∧
            s.adjustedEnd = s.startAngle + s.sliceAngle - Charts.gap / 2 ∧
            s.adjustedStart < s.adjustedEnd ∧
            s.adjustedEnd - s.adjustedStart = s.sliceAngle - Charts.gap ∧
            0 < s.sliceAngle - Charts.gap)) ∧
        slices.Chain' Consecutive ∧
        endAngle = -Math.PI / 2 + (slices.map (fun s => s.sliceAngle)).sum :=
  donut_gap [⟨1, "a", "x", "#FF9500", 1⟩, ⟨2, "b", "y", "#FF3B30", 999⟩] true
    (by simp) (by norm_num)

/-! ## The claims on the legend and the bar chart -/

theorem legend_eq (T : ℚ) (hT : T ≠ 0) (data : List CategoryStat)
    (hnn : ∀ d ∈ data, 0 ≤ d.total / T * 100) :
    Charts.legend T data =
      data.map (fun item =>
        { color := item.color, icon := item.icon, name := item.name,
          pct := some (roundHalfUp (item.total / T * 100)) }) := by
  unfold Charts.legend
  apply List.map_congr_left
  intro item hi
  have h := hnn item hi
  simp [hT, Charts.toFixed0, roundHalfUp, not_lt.mpr h]

theorem share_bounds (data : List CategoryStat) (hnn : ∀ d ∈ data, 0 ≤ d.total)
    (hpos : 0 < (data.map (fun d => d.total)).sum) (item : CategoryStat) (hi : item ∈ data) :
    0 ≤ item.total / (data.map (fun d => d.total)).sum * 100 ∧
      item.total / (data.map (fun d => d.total)).sum * 100 ≤ 100 := by
  have hle : item.total ≤ (data.map (fun d => d.total)).sum := by
    apply List.single_le_sum
    · intro x hx
      obtain ⟨d, hd, rfl⟩ := List.mem_map.mp hx
      exact hnn d hd
    · exact List.mem_map.mpr ⟨item, hi, rfl⟩
  constructor
  · exact mul_nonneg (div_nonneg (hnn item hi) (le_of_lt hpos)) (by norm_num)
  · have : item.total / (data.map (fun d => d.total)).sum ≤ 1 := (div_le_one hpos).mpr hle
    linarith

theorem legendR_pct_bounds (T t : ℚ) (ht : 0 ≤ t) (htT : t ≤ T) (hT : 0 < T) :
    0 ≤ roundHalfUp (Float64.nearest (Float64.nearest (t / T) * 100)) ∧
      roundHalfUp (Float64.nearest (Float64.nearest (t / T) * 100)) ≤ 100 ∧
      Charts.toFixed0 (Float64.nearest (Float64.nearest (t / T) * 100)) =
        roundHalfUp (Float64.nearest (Float64.nearest (t / T) * 100)) := by
  have hq0 : 0 ≤ Float64.nearest (t / T) := by
    have := Float64.nearest_mono (div_nonneg ht hT.le)
    rwa [Float64.nearest_zero] at this
  have hq1 : Float64.nearest (t / T) ≤ 1 := by
    have := Float64.nearest_mono ((div_le_one hT).mpr htT)
    rwa [Float64.nearest_one] at this
  have hp0 : 0 ≤ Float64.nearest (Float64.nearest (t / T) * 100) := by
    have := Float64.nearest_mono (mul_nonneg hq0 (by norm_num : (0 : ℚ) ≤ 100))
    rwa [Float64.nearest_zero] at this
  have hp1 : Float64.nearest (Float64.nearest (t / T) * 100) ≤ 100 := by
    have := Float64.nearest_mono (by linarith : Float64.nearest (t / T) * 100 ≤ 100)
    rwa [Float64.nearest_hundred] at this
  refine ⟨?_, ?_, ?_⟩
  · unfold roundHalfUp
    apply Int.floor_nonneg.mpr
    linarith
  · unfold roundHalfUp
    have : ⌊Float64.nearest (Float64.nearest (t / T) * 100) + 1 / 2⌋ < 101 := by
      rw [Int.floor_lt]
      push_cast
      linarith
    omega
  · unfold Charts.toFixed0 roundHalfUp
    rw [if_neg (not_lt.mpr hp0)]

theorem legendR_eq (data : List CategoryStat)
    (hrep : ∀ d ∈ data, Float64.nearest d.total = d.total) (hnn : ∀ d ∈ data, 0 ≤ d.total)
    (hpos : 0 < (data.map (fun d => d.total)).sum) :
    Charts.legendR Float64.nearest (sumR Float64.nearest (data.map (fun d => d.total))) data =
      data.map (fun item =>
        { color := item.color, icon := item.icon, name := item.name,
          pct := some (roundHalfUp (Float64.nearest (Float64.nearest
            (item.total / sumR Float64.nearest (data.map (fun d => d.total))) * 100))) }) := by
  obtain ⟨hT, hle⟩ := nearest_sum_pos data hrep hnn hpos
  unfold Charts.legendR
  apply List.map_congr_left
  intro item hi
  rw [if_neg (ne_of_gt hT), (legendR_pct_bounds _ _ (hnn item hi) (hle item hi) hT).2.2]

/-- C21, as stated, fails on doubles: for the totals 23 and 17 the legend of `drawDonut`
(`js/charts.js` and `charts.js` alike) shows 57 for the first item, the double product
`(23 / 40) * 100` being 57.49999999999999, while `round(23 / 40 · 100)` is
`round(57.5) = 58`. -/
theorem legend_pct_below_rounded_share :
    (Charts.drawDonutR Float64.nearest
        [⟨1, "a", "x", "#FF9500", 23⟩, ⟨2, "b", "y", "#FF3B30", 17⟩] true).legend =
      some [⟨"#FF9500", "x", "a", some 57⟩, ⟨"#FF3B30", "y", "b", some 43⟩] ∧
    (ChartsRoot.drawDonutR Float64.nearest
        [⟨1, "a", "x", "#FF9500", 23⟩, ⟨2, "b", "y", "#FF3B30", 17⟩] true).legend =
      some [⟨"#FF9500", "x", "a", some 57⟩, ⟨"#FF3B30", "y", "b", some 43⟩] ∧
    roundHalfUp ((23 : ℚ) / (23 + 17) * 100) = 58 ∧
    Float64.nearest (Float64.nearest ((23 : ℚ) / (23 + 17)) * 100) =
      8092405580431359 / 140737488355328 := by
  refine ⟨?_, ?_, ?_, ?_⟩
  · norm_num [Charts.drawDonutR, Charts.legendR, Charts.toFixed0, Int.floor_eq_iff,
      double_eval_17, double_eval_18, double_eval_19, double_eval_20, double_eval_21,
      double_eval_22]
  · norm_num [ChartsRoot.drawDonutR, Charts.legendR, Charts.toFixed0, Int.floor_eq_iff,
      double_eval_17, double_eval_18, double_eval_19, double_eval_20, double_eval_21,
      double_eval_22]
  · norm_num [roundHalfUp, Int.floor_eq_iff]
  · norm_num [double_eval_19, double_eval_20]

/-- C21, amended. Donut rounding on doubles, for every non-empty stats list whose totals
are doubles, non-negative and of positive sum, in `js/charts.js` and in `charts.js` alike:
the legend has one line per item, in order, whose percentage is the rounding (to the
nearest integer, a tie going up) of the double `(item.total / total) * 100`, the quotient
and the product being rounded to doubles and `total` being the rounded left-to-right sum;
each percentage is computed from its item and the total alone, with no adjustment between
the lines, and lies between 0 and 100. -/
theorem donut_rounding (data : List CategoryStat) (hne : data ≠ [])
    (hrep : ∀ d ∈ data, Float64.nearest d.total = d.total)
    (hnn : ∀ d ∈ data, 0 ≤ d.total) (hpos : 0 < (data.map (fun d => d.total)).sum) :
    (Charts.drawDonutR Float64.nearest data true).legend =
        some (data.map (fun item =>
          { color := item.color, icon := item.icon, name := item.name,
            pct := some (roundHalfUp (Float64.nearest (Float64.nearest
              (item.total / sumR Float64.nearest (data.map (fun d => d.total))) * 100))) })) ∧
      (ChartsRoot.drawDonutR Float64.nearest data true).legend =
        some (data.map (fun item =>
          { color := item.color, icon := item.icon, name := item.name,
            pct := some (roundHalfUp (Float64.nearest (Float64.nearest
              (item.total / sumR Float64.nearest (data.map (fun d => d.total))) * 100))) })) ∧
      ∀ item ∈ data,
        0 ≤ roundHalfUp (Float64.nearest (Float64.nearest
          (item.total / sumR Float64.nearest (data.map (fun d => d.total))) * 100)) ∧
        roundHalfUp (Float64.nearest (Float64.nearest
          (item.total / sumR Float64.nearest (data.map (fun d => d.total))) * 100)) ≤ 100 := by
  have hlen : data.length ≠ 0 := fun h => hne (List.length_eq_zero.mp h)
  have hleg := legendR_eq data hrep hnn hpos
  obtain ⟨hT, hle⟩ := nearest_sum_pos data hrep hnn hpos
  refine ⟨?_, ?_, ?_⟩
  · simp only [Charts.drawDonutR, hlen, if_false, if_true, sumR_totals, hleg]
  · simp only [ChartsRoot.drawDonutR, hlen, if_false, if_true, sumR_totals, hleg]
  · intro item hi
    have h := legendR_pct_bounds _ _ (hnn item hi) (hle item hi) hT
    exact ⟨h.1, h.2.1⟩

/-- Witness for C21 amended: on doubles the totals 33, 33 and 34 give the percentages 33,
33 and 34, and the totals 23 and 17 give 57 and 43. -/
theorem donut_rounding_witness :
    (Charts.drawDonutR Float64.nearest
        [⟨1, "a", "x", "#FF9500", 33⟩, ⟨2, "b", "y", "#FF3B30", 33⟩,
         ⟨3, "c", "z", "#AF52DE", 34⟩] true).legend =
      some [⟨"#FF9500", "x", "a", some 33⟩, ⟨"#FF3B30", "y", "b", some 33⟩,
        ⟨"#AF52DE", "z", "c", some 34⟩] ∧
    (Charts.drawDonutR Float64.nearest
        [⟨1, "a", "x", "#FF9500", 23⟩, ⟨2, "b", "y", "#FF3B30", 17⟩] true).legend =
      some [⟨"#FF9500", "x", "a", some 57⟩, ⟨"#FF3B30", "y", "b", some 43⟩] :=
  ⟨(donut_rounding
    [⟨1, "a", "x", "#FF9500", 33⟩, ⟨2, "b", "y", "#FF3B30", 33⟩, ⟨3, "c", "z", "#AF52DE", 34⟩]
    (by simp)
    (by
      intro d hd
      simp only [List.mem_cons, List.mem_singleton, List.not_mem_nil, or_false] at hd
      rcases hd with rfl | rfl | rfl
      · exact double_eval_01
      · exact double_eval_01
      · exact double_eval_23)
    (by
      intro d hd
      simp only [List.mem_cons, List.mem_singleton, List.not_mem_nil, or_false] at hd
      rcases hd with rfl | rfl | rfl
      all_goals norm_num)
    (by norm_num)).1.trans
    (by
      norm_num [sumR, roundHalfUp, Int.floor_eq_iff, double_eval_01, double_eval_02,
        double_eval_03, double_eval_05, double_eval_06, double_eval_11, double_eval_12]),
   (donut_rounding
    [⟨1, "a", "x", "#FF9500", 23⟩, ⟨2, "b", "y", "#FF3B30", 17⟩]
    (by simp)
    (by
      intro d hd
      simp only [List.mem_cons, List.mem_singleton, List.not_mem_nil, or_false] at hd
      rcases hd with rfl | rfl
      · exact double_eval_17
      · exact double_eval_24)
    (by
      intro d hd
      simp only [List.mem_cons, List.mem_singleton, List.not_mem_nil, or_false] at hd
      rcases hd with rfl | rfl
      all_goals norm_num)
    (by norm_num)).1.trans
    (by
      norm_num [sumR, roundHalfUp, Int.floor_eq_iff, double_eval_17, double_eval_18,
        double_eval_19, double_eval_20, double_eval_21, double_eval_22])⟩

theorem barMaxVal_spec (data : List MonthlyBar) :
    1 ≤ Charts.barMaxVal data ∧
      (∀ d ∈ data, d.income ≤ Charts.barMaxVal data ∧ d.expense ≤ Charts.barMaxVal data) ∧
      (Charts.barMaxVal data = 1 ∨
        ∃ d ∈ data, Charts.barMaxVal data = d.income ∨ Charts.barMaxVal data = d.expense) := by
  induction data with
  | nil => simp [Charts.barMaxVal]
  | cons a l ih =>
    obtain ⟨h1, h2, h3⟩ := ih
    have hcons : Charts.barMaxVal (a :: l) = max (max a.income a.expense) (Charts.barMaxVal l) :=
      rfl
    rw [hcons]
    refine ⟨le_trans h1 (le_max_right _ _), ?_, ?_⟩
    · intro d hd
      rcases List.mem_cons.mp hd with rfl | hd
      · exact ⟨le_trans (le_max_left _ _) (le_max_left _ _),
          le_trans (le_max_right _ _) (le_max_left _ _)⟩
      · exact ⟨le_trans (h2 d hd).1 (le_max_right _ _),
          le_trans (h2 d hd).2 (le_max_right _ _)⟩
    · rcases max_choice (max a.income a.expense) (Charts.barMaxVal l) with h | h
      · right
        rw [h]
        rcases max_choice a.income a.expense with h' | h'
        · exact ⟨a, List.mem_cons_self a l, Or.inl h'⟩
        · exact ⟨a, List.mem_cons_self a l, Or.inr h'⟩
      · rw [h]
        rcases h3 with h3 | ⟨d, hd, h3⟩
        · exact Or.inl h3
        · exact Or.inr ⟨d, List.mem_cons_of_mem a hd, h3⟩

theorem barMaxVal_le (data : List MonthlyBar) (M : ℚ) (hM : 1 ≤ M)
    (h : ∀ d ∈ data, d.income ≤ M ∧ d.expense ≤ M) : Charts.barMaxVal data ≤ M := by
  rcases (barMaxVal_spec data).2.2 with h1 | ⟨d, hd, h1 | h1⟩
  · rw [h1]; exact hM
  · rw [h1]; exact (h d hd).1
  · rw [h1]; exact (h d hd).2

theorem barLoop_heights (left top chartH maxVal barGroupWidth barWidth : ℚ)
    (hmax : 1 ≤ maxVal) (hch : 0 < chartH) (l : List MonthlyBar) :
    ∀ i : Nat,
      (∀ d ∈ l, 0 ≤ d.income ∧ d.income ≤ maxVal ∧ 0 ≤ d.expense ∧ d.expense ≤ maxVal) →
      List.Forall₂ (BarHeights maxVal chartH) l
        (Charts.barLoop left top chartH maxVal barGroupWidth barWidth i l) := by
  have hpos : 0 < maxVal := lt_of_lt_of_le one_pos hmax
  have key : ∀ v : ℚ, 0 ≤ v → v ≤ maxVal →
      max (v / maxVal * chartH) 0 = v / maxVal * chartH ∧ 0 ≤ v / maxVal * chartH ∧
        v / maxVal * chartH ≤ chartH := by
    intro v h0 h1
    have hn : 0 ≤ v / maxVal * chartH := mul_nonneg (div_nonneg h0 (le_of_lt hpos)) hch.le
    refine ⟨max_eq_left hn, hn, ?_⟩
    have : v / maxVal ≤ 1 := (div_le_one hpos).mpr h1
    calc v / maxVal * chartH ≤ 1 * chartH := mul_le_mul_of_nonneg_right this hch.le
      _ = chartH := one_mul _
  induction l with
  | nil => intro i _; exact List.Forall₂.nil
  | cons d l ih =>
    intro i h
    obtain ⟨hi0, hi1, he0, he1⟩ := h d (List.mem_cons_self d l)
    obtain ⟨ki, ki0, ki1⟩ := key d.income hi0 hi1
    obtain ⟨ke, ke0, ke1⟩ := key d.expense he0 he1
    unfold Charts.barLoop
    refine List.Forall₂.cons ?_ (ih (i + 1) (fun d' hd' => h d' (List.mem_cons_of_mem d hd')))
    refine ⟨rfl, ki, ke, ?_, ?_, ?_, ?_, ?_, ?_, ?_, ?_, ?_, ?_⟩
    · simp only [ki]; exact ki0
    · simp only [ki]; exact ki1
    · simp only [ke]; exact ke0
    · simp only [ke]; exact ke1
    · intro hz
      simp [hz, Charts._drawRoundedBar]
    · intro hz
      simp [hz, Charts._drawRoundedBar]
    · intro hp
      have h0 : 0 < d.income / maxVal * chartH := mul_pos (div_pos hp hpos) hch
      simp [Charts._drawRoundedBar, ki, not_le.mpr h0]
    · intro hp
      have h0 : 0 < d.expense / maxVal * chartH := mul_pos (div_pos hp hpos) hch
      simp [Charts._drawRoundedBar, ke, not_le.mpr h0]
    · intro hv
      simp only [hv, div_self (ne_of_gt hpos), one_mul]
      exact max_eq_left hch.le
    · intro hv
      simp only [hv, div_self (ne_of_gt hpos), one_mul]
      exact max_eq_left hch.le

/-- C22. Bar heights, for every non-empty list of monthly bars with non-negative income
and expense and every window width: `drawBar` draws the chart with `chartH = 192` and
`maxVal = max(1, every income, every expense)`, so `maxVal ≥ 1`, every value is at most
`maxVal`, and `maxVal` is 1 or one of the values; group by group, each bar height is
`value / maxVal * chartH` and lies in `[0, chartH]`, a zero value gives height 0 and no
bar, a positive value gives a bar, and a value equal to `maxVal` gives height `chartH`;
a value that is at least 1 and at least every other value is `maxVal`. -/
theorem bar_heights (innerWidth : ℚ) (data : List MonthlyBar) (hne : data ≠ [])
    (hnn : ∀ d ∈ data, 0 ≤ d.income ∧ 0 ≤ d.expense) :
    1 ≤ Charts.barMaxVal data ∧
      (∀ d ∈ data, d.income ≤ Charts.barMaxVal data ∧ d.expense ≤ Charts.barMaxVal data) ∧
      (Charts.barMaxVal data = 1 ∨
        ∃ d ∈ data, Charts.barMaxVal data = d.income ∨ Charts.barMaxVal data = d.expense) ∧
      (∀ v : ℚ, 1 ≤ v → (∀ d ∈ data, d.income ≤ v ∧ d.expense ≤ v) →
        (∃ d ∈ data, d.income = v ∨ d.expense = v) → Charts.barMaxVal data = v) ∧
      ∃ w barWidth groups,
        Charts.drawBar innerWidth data =
            BarCanvas.chart w 192 (Charts.barMaxVal data) barWidth groups ∧
          List.Forall₂ (BarHeights (Charts.barMaxVal data) 192) data groups := by
  obtain ⟨h1, h2, h3⟩ := barMaxVal_spec data
  have hlen : data.length ≠ 0 := fun h => hne (List.length_eq_zero.mp h)
  refine ⟨h1, h2, h3, ?_, ?_⟩
  · intro v hv hall hex
    apply le_antisymm (barMaxVal_le data v hv hall)
    obtain ⟨d, hd, hdv | hdv⟩ := hex
    · rw [← hdv]; exact (h2 d hd).1
    · rw [← hdv]; exact (h2 d hd).2
  · refine ⟨min 600 (innerWidth - 64),
      min ((min 600 (innerWidth - 64) - 16 - 16) / (data.length : ℚ) * (28 / 100)) 28,
      Charts.barLoop 16 28 192 (Charts.barMaxVal data)
        ((min 600 (innerWidth - 64) - 16 - 16) / (data.length : ℚ))
        (min ((min 600 (innerWidth - 64) - 16 - 16) / (data.length : ℚ) * (28 / 100)) 28)
        0 data, ?_, ?_⟩
    · simp only [Charts.drawBar, hlen, if_false]
      norm_num
    · exact barLoop_heights 16 28 192 (Charts.barMaxVal data) _ _ h1 (by norm_num)
        data 0 (fun d hd => ⟨(hnn d hd).1, (h2 d hd).1, (hnn d hd).2, (h2 d hd).2⟩)

/-- Witness for C22: two months, with a zero expense and the largest value 100. -/
theorem bar_heights_witness :
    1 ≤ Charts.barMaxVal [⟨"Май", 50, 0⟩, ⟨"Июн", 100, 25⟩] ∧
      (∀ d ∈ ([⟨"Май", 50, 0⟩, ⟨"Июн", 100, 25⟩] : List MonthlyBar),
        d.income ≤ Charts.barMaxVal [⟨"Май", 50, 0⟩, ⟨"Июн", 100, 25⟩] ∧
        d.expense ≤ Charts.barMaxVal [⟨"Май", 50, 0⟩, ⟨"Июн", 100, 25⟩]) ∧
      (Charts.barMaxVal [⟨"Май", 50, 0⟩, ⟨"Июн", 100, 25⟩] = 1 ∨
        ∃ d ∈ ([⟨"Май", 50, 0⟩, ⟨"Июн", 100, 25⟩] : List MonthlyBar),
          Charts.barMaxVal [⟨"Май", 50, 0⟩, ⟨"Июн", 100, 25⟩] = d.income ∨
          Charts.barMaxVal [⟨"Май", 50, 0⟩, ⟨"Июн", 100, 25⟩] = d.expense) ∧
      (∀ v : ℚ, 1 ≤ v →
        (∀ d ∈ ([⟨"Май", 50, 0⟩, ⟨"Июн", 100, 25⟩] : List MonthlyBar),
          d.income ≤ v ∧ d.expense ≤ v) →
        (∃ d ∈ ([⟨"Май", 50, 0⟩, ⟨"Июн", 100, 25⟩] : List MonthlyBar),
          d.income = v ∨ d.expense = v) →
        Charts.barMaxVal [⟨"Май", 50, 0⟩, ⟨"Июн", 100, 25⟩] = v) ∧
      ∃ w barWidth groups,
        Charts.drawBar 400 [⟨"Май", 50, 0⟩, ⟨"Июн", 100, 25⟩] =
            BarCanvas.chart w 192 (Charts.barMaxVal [⟨"Май", 50, 0⟩, ⟨"Июн", 100, 25⟩])
              barWidth groups ∧
          List.Forall₂ (BarHeights (Charts.barMaxVal [⟨"Май", 50, 0⟩, ⟨"Июн", 100, 25⟩]) 192)
            [⟨"Май", 50, 0⟩, ⟨"Июн", 100, 25⟩] groups :=
  bar_heights 400 [⟨"Май", 50, 0⟩, ⟨"Июн", 100, 25⟩] (by simp) (by norm_num)

/-! ## The claims on the analytics dates and the form -/

/-- C23, at the failing input: on 15 July 2024 at noon (time zone at offset 0), with one
expense of 100 dated 30 June 2024 23:59:59.500 (1719791999500 ms), `_getMonthlyBarData`
returns six entries labelled February to July whose incomes and expenses are all 0,
June included, although the date lies between the first instant of June
(1717200000000 ms) and the first instant of July (1719792000000 ms): the range of June
ends at 23:59:59.000 of its last day (1719791999000 ms). -/
theorem monthly_bars_miss_last_second :
    App._getMonthlyBarData
        { _data with
          transactions :=
            [⟨1, -100, some 3, some "Жилье", "🏠", some "rent", "webapp",
              some 1719791999500⟩] }
        0 ⟨2024, 6, 15, 12, 0, 0, 0⟩ =
      [⟨"Фев", 0, 0⟩, ⟨"Мар", 0, 0⟩, ⟨"Апр", 0, 0⟩, ⟨"Май", 0, 0⟩, ⟨"Июн", 0, 0⟩,
        ⟨"Июл", 0, 0⟩] ∧
      JSDate.construct 0 2024 5 1 0 0 0 = 1717200000000 ∧
      JSDate.construct 0 2024 6 1 0 0 0 = 1719792000000 ∧
      JSDate.construct 0 2024 6 0 23 59 59 = 1719791999000 ∧
      (1717200000000 : Int) ≤ 1719791999500 ∧ (1719791999500 : Int) < 1719792000000 := by
  refine ⟨?_, ?_, ?_, ?_, by norm_num, by norm_num⟩
  · norm_num [App._getMonthlyBarData, App.monthlyBar, JSDate.construct,
      JSDate.constructedYear, JSDate.constructedMonth, Utils.constructorYear, JSDate.makeTime,
      JSDate.makeDay, JSDate.daysFromCivil, App.monthNames, getIncome, getExpense, _periodSum,
      _filterByDate, timeGE, _data, List.filter]
    decide
  · norm_num [JSDate.construct, Utils.constructorYear, JSDate.makeTime, JSDate.makeDay,
      JSDate.daysFromCivil]
  · norm_num [JSDate.construct, Utils.constructorYear, JSDate.makeTime, JSDate.makeDay,
      JSDate.daysFromCivil]
  · norm_num [JSDate.construct, Utils.constructorYear, JSDate.makeTime, JSDate.makeDay,
      JSDate.daysFromCivil]

/-- C27, at the failing input: on Sunday 16 June 2024 at noon (time zone at offset 0),
`getDay()` is 0 and the start of the 'week' period is 00:00 of Monday 17 June
(1718582400000 ms), later than the current time (1718539200000 ms). The same holds on
every Sunday, in every time zone: the start is later than the current time. -/
theorem week_start_after_now_on_sunday :
    JSDate.getDay ⟨2024, 5, 16, 12, 0, 0, 0⟩ = 0 ∧
      JSDate.getTime 0 ⟨2024, 5, 16, 12, 0, 0, 0⟩ = 1718539200000 ∧
      App.analyticsDateFrom "week" 0 ⟨2024, 5, 16, 12, 0, 0, 0⟩ = 1718582400000 ∧
      JSDate.getTime 0 ⟨2024, 5, 16, 12, 0, 0, 0⟩ <
        App.analyticsDateFrom "week" 0 ⟨2024, 5, 16, 12, 0, 0, 0⟩ ∧
      (∀ (tz : Int) (now : DateFields), JSDate.getDay now = 0 →
        now.hours * 3600000 + now.minutes * 60000 + now.seconds * 1000 + now.milliseconds <
          86400000 →
        JSDate.getTime tz now < App.analyticsDateFrom "week" tz now) := by
  have h1 : JSDate.getDay ⟨2024, 5, 16, 12, 0, 0, 0⟩ = 0 := by
    norm_num [JSDate.getDay, JSDate.makeDay, JSDate.daysFromCivil]
  have h2 : JSDate.getTime 0 ⟨2024, 5, 16, 12, 0, 0, 0⟩ = 1718539200000 := by
    norm_num [JSDate.getTime, JSDate.makeTime, JSDate.makeDay, JSDate.daysFromCivil]
  have h3 : App.analyticsDateFrom "week" 0 ⟨2024, 5, 16, 12, 0, 0, 0⟩ = 1718582400000 := by
    simp only [App.analyticsDateFrom, if_true, h1]
    norm_num [JSDate.makeTime, JSDate.makeDay, JSDate.daysFromCivil]
  refine ⟨h1, h2, h3, ?_, ?_⟩
  · rw [h2, h3]
    norm_num
  · intro tz now hday htime
    simp only [App.analyticsDateFrom, if_true, hday, JSDate.getTime, JSDate.makeTime,
      JSDate.makeDay]
    omega

/-- C24. Form validation and sign: `_saveTransaction` returns the store unchanged when the
entered amount parses to NaN, to 0 or to a negative number; for a positive parsed
amount `a` it is one call of `addTransaction` with amount `a` when the type is 'income'
and `-a` for any other type (category `selectedCategoryId || 10`), so the list grows by
one transaction whose amount is non-zero, positive for income and negative otherwise. -/
theorem saveTransaction_spec (s : Data) (idClock dateClock : Int) (txType : String)
    (selected : Option Int) (parsed : Option ℚ) (comment : String) (formDate : Option Int) :
    ((parsed = none ∨ ∃ a, parsed = some a ∧ a ≤ 0) →
      App._saveTransaction s idClock dateClock txType selected parsed comment formDate = s) ∧
    (∀ a, parsed = some a → 0 < a →
      App._saveTransaction s idClock dateClock txType selected parsed comment formDate =
          (addTransaction s idClock dateClock (if txType = "income" then a else -a)
            (some (match selected with
              | some c => if c = 0 then 10 else c
              | none => 10))
            comment (formDate.map some)).1 ∧
        ∃ tx : Transaction,
          (App._saveTransaction s idClock dateClock txType selected parsed comment
              formDate).transactions = s.transactions ++ [tx] ∧
            tx.amount ≠ 0 ∧
            (txType = "income" → tx.amount = a ∧ 0 < tx.amount) ∧
            (txType ≠ "income" → tx.amount = -a ∧ tx.amount < 0)) := by
  constructor
  · rintro (h | ⟨a, h, ha⟩)
    · subst h; rfl
    · subst h
      simp [App._saveTransaction, ha]
  · intro a h ha
    subst h
    have hne : ¬ (a = 0 ∨ a ≤ 0) := by
      rintro (h0 | h0)
      · exact absurd h0 (ne_of_gt ha)
      · exact absurd ha (not_lt.mpr h0)
    have hsave : App._saveTransaction s idClock dateClock txType selected (some a) comment
        formDate =
        (addTransaction s idClock dateClock (if txType = "income" then a else -a)
          (some (match selected with
            | some c => if c = 0 then 10 else c
            | none => 10))
          comment (formDate.map some)).1 := by
      simp only [App._saveTransaction, hne, if_false]
    refine ⟨hsave, ?_⟩
    rw [hsave]
    refine ⟨_, rfl, ?_, ?_, ?_⟩
    · show (if txType = "income" then a else -a) ≠ 0
      split
      · exact ne_of_gt ha
      · exact neg_ne_zero.mpr (ne_of_gt ha)
    · intro hty
      show (if txType = "income" then a else -a) = a ∧ 0 < (if txType = "income" then a else -a)
      rw [if_pos hty]
      exact ⟨rfl, ha⟩
    · intro hty
      show (if txType = "income" then a else -a) = -a ∧ (if txType = "income" then a else -a) < 0
      rw [if_neg hty]
      exact ⟨rfl, neg_lt_zero.mpr ha⟩

/-- Witness for C24: the amount 12.5 entered as an expense, and the amount 0. -/
theorem saveTransaction_spec_witness :
    App._saveTransaction _data 7 8 "expense" none (some 0) "x" none = _data ∧
      ∃ tx : Transaction,
        (App._saveTransaction _data 7 8 "expense" none (some (25 / 2)) "x"
            none).transactions = _data.transactions ++ [tx] ∧
          tx.amount ≠ 0 ∧
          ("expense" = "income" → tx.amount = 25 / 2 ∧ 0 < tx.amount) ∧
          ("expense" ≠ "income" → tx.amount = -(25 / 2) ∧ tx.amount < 0) :=
  ⟨(saveTransaction_spec _data 7 8 "expense" none (some 0) "x" none).1
      (Or.inr ⟨0, rfl, le_refl 0⟩),
    ((saveTransaction_spec _data 7 8 "expense" none (some (25 / 2)) "x" none).2 (25 / 2) rfl
      (by norm_num)).2⟩

/-! ## The claims relating the statistics, the expense total and the donut -/

theorem getExpense_eq (s : Data) (dateFrom dateTo : Option Time) :
    getExpense s dateFrom dateTo =
      ((expensesInPeriod s dateFrom dateTo).map (fun t => |t.amount|)).sum := by
  simp only [getExpense, _periodSum, foldl_amount_eq, zero_add, expenses_eq]
  have h := sum_abs_of_nonpos (expensesInPeriod s dateFrom dateTo)
    (by
      intro t ht
      have := (List.mem_filter.mp ht).2
      simp only [Bool.and_eq_true, decide_eq_true_eq] at this
      exact le_of_lt this.1)
  rw [h.1, abs_of_nonpos h.2]

theorem sum_ite_absent (ks : List Int) (a : Int) (c : ℚ) (h : a ∉ ks) :
    (ks.map (fun k => if a = k then c else 0)).sum = 0 := by
  induction ks with
  | nil => simp
  | cons k ks ih =>
    have hk : a ≠ k := fun e => h (e ▸ List.mem_cons_self a ks)
    have hks : a ∉ ks := fun e => h (List.mem_cons_of_mem k e)
    simp [hk, ih hks]

theorem sum_ite_present (ks : List Int) (a : Int) (c : ℚ) (hnd : ks.Nodup) (h : a ∈ ks) :
    (ks.map (fun k => if a = k then c else 0)).sum = c := by
  induction ks with
  | nil => simp at h
  | cons k ks ih =>
    rw [List.nodup_cons] at hnd
    by_cases hk : a = k
    · subst hk
      simp [sum_ite_absent ks a c hnd.1]
    · have hks : a ∈ ks := by
        rcases List.mem_cons.mp h with e | e
        · exact absurd e hk
        · exact e
      simp [hk, ih hnd.2 hks]

theorem expenseTotal_cons (k : Int) (t : Transaction) (l : List Transaction) :
    expenseTotal k (t :: l) =
      (if categoryIdOr10 t = k then |t.amount| else 0) + expenseTotal k l := by
  unfold expenseTotal
  by_cases h : categoryIdOr10 t = k
  · simp [List.filter_cons, h]
  · simp [List.filter_cons, h]

theorem sum_expenseTotal (ks : List Int) (hnd : ks.Nodup) (l : List Transaction)
    (hcov : ∀ t ∈ l, categoryIdOr10 t ∈ ks) :
    (ks.map (fun k => expenseTotal k l)).sum = (l.map (fun t => |t.amount|)).sum := by
  induction l with
  | nil => simp [expenseTotal]
  | cons t l ih =>
    have h1 : (ks.map (fun k => expenseTotal k (t :: l))).sum =
        (ks.map (fun k => if categoryIdOr10 t = k then |t.amount| else 0)).sum +
          (ks.map (fun k => expenseTotal k l)).sum := by
      rw [← List.sum_map_add]
      congr 1
      apply List.map_congr_left
      intro k _
      exact expenseTotal_cons k t l
    rw [h1, sum_ite_present ks _ _ hnd (hcov t (List.mem_cons_self t l)),
      ih (fun t' ht' => hcov t' (List.mem_cons_of_mem t ht'))]
    simp

theorem stats_total_pos (s : Data) (dateFrom dateTo : Option Time) :
    ∀ e ∈ getCategoryStats s dateFrom dateTo, 0 < e.total := by
  obtain ⟨_, hmem, hval⟩ := getCategoryStats_inv s dateFrom dateTo
  intro e he
  obtain ⟨t, ht, hk⟩ := (hmem e.id).mp (List.mem_map.mpr ⟨e, he, rfl⟩)
  have hneg : t.amount < 0 := by
    have := (List.mem_filter.mp ht).2
    simp only [Bool.and_eq_true, decide_eq_true_eq] at this
    exact this.1
  have hle := abs_le_expenseTotal _ t ht
  rw [hk, ← (hval e he).2.2.2] at hle
  exact lt_of_lt_of_le (abs_pos.mpr (ne_of_lt hneg)) hle

theorem stats_sum_exact (s : Data) (dateFrom dateTo : Option Time) :
    ((getCategoryStats s dateFrom dateTo).map (fun e => e.total)).sum =
      getExpense s dateFrom dateTo := by
  obtain ⟨hnd, hmem, hval⟩ := getCategoryStats_inv s dateFrom dateTo
  have h1 : (getCategoryStats s dateFrom dateTo).map (fun e => e.total) =
      ((getCategoryStats s dateFrom dateTo).map (fun e => e.id)).map
        (fun k => expenseTotal k (expensesInPeriod s dateFrom dateTo)) := by
    rw [List.map_map]
    apply List.map_congr_left
    intro e he
    exact (hval e he).2.2.2
  rw [h1, sum_expenseTotal _ hnd _ (fun t ht => (hmem _).mpr ⟨t, ht, rfl⟩), getExpense_eq]

theorem nearest_of_int (x : ℚ) (n : Int) (hx : x = n) (hb : |x| ≤ 2 ^ 53) :
    Float64.nearest x = x := by
  subst hx
  apply Float64.nearest_int
  have h : ((|n| : ℤ) : ℚ) ≤ (((2 : ℤ) ^ (53 : ℕ) : ℤ) : ℚ) := by
    push_cast
    exact hb
  exact_mod_cast h

theorem abs_sum_nonneg (l : List ℚ) : 0 ≤ (l.map (fun x => |x|)).sum := by
  apply List.sum_nonneg
  intro x hx
  obtain ⟨z, _, rfl⟩ := List.mem_map.mp hx
  exact abs_nonneg z

theorem foldl_nearest_int (l : List ℚ) (hint : ∀ x ∈ l, ∃ n : ℤ, x = n) :
    ∀ a : ℚ, (∃ n : ℤ, a = n) → |a| + (l.map (fun x => |x|)).sum ≤ 2 ^ 53 →
      l.foldl (fun s x => Float64.nearest (s + x)) a = a + l.sum := by
  induction l with
  | nil =>
    intro a _ _
    simp
  | cons y l ih =>
    intro a ha hb
    obtain ⟨n, hn⟩ := ha
    obtain ⟨m, hm⟩ := hint y (List.mem_cons_self _ _)
    simp only [List.map_cons, List.sum_cons] at hb
    have hrest := abs_sum_nonneg l
    have habs : |a + y| ≤ |a| + |y| := abs_add a y
    have hcast : a + y = ((n + m : ℤ) : ℚ) := by
      rw [hn, hm]
      push_cast
      rfl
    have hfix : Float64.nearest (a + y) = a + y :=
      nearest_of_int (a + y) (n + m) hcast (by linarith)
    simp only [List.foldl_cons, hfix, List.sum_cons]
    rw [ih (fun x hx => hint x (List.mem_cons_of_mem _ hx)) (a + y) ⟨n + m, hcast⟩
      (by linarith)]
    ring

theorem abs_int (x : ℚ) (h : ∃ n : ℤ, x = n) : ∃ n : ℤ, |x| = n := by
  obtain ⟨n, rfl⟩ := h
  exact ⟨|n|, by push_cast; rfl⟩

theorem statsFoldR_eq (categories : List Category) (rest : List Transaction)
    (hint : ∀ t ∈ rest, ∃ n : ℤ, t.amount = n) :
    ∀ map : List CategoryStat,
      (rest.map (fun t => |t.amount|)).sum ≤ 2 ^ 53 →
      (∀ e ∈ map, (∃ n : ℤ, e.total = n) ∧ 0 ≤ e.total ∧
        e.total + (rest.map (fun t => |t.amount|)).sum ≤ 2 ^ 53) →
      rest.foldl (statsStepR Float64.nearest categories) map =
        rest.foldl (statsStep categories) map := by
  induction rest with
  | nil =>
    intro map _ _
    rfl
  | cons tx rest ih =>
    intro map hsum hmap
    simp only [List.map_cons, List.sum_cons] at hsum hmap
    have hrest : 0 ≤ (rest.map (fun t => |t.amount|)).sum := by
      apply List.sum_nonneg
      intro x hx
      obtain ⟨z, _, rfl⟩ := List.mem_map.mp hx
      exact abs_nonneg _
    have htx0 : 0 ≤ |tx.amount| := abs_nonneg _
    obtain ⟨m, hm⟩ := abs_int tx.amount (hint tx (List.mem_cons_self _ _))
    -- the entries the step works on: those of the map and, for a new key, the fresh one
    have hmap2 : ∀ e ∈ (if map.any (fun e => decide (e.id = categoryIdOr10 tx)) then map
        else map ++ [newStat categories (categoryIdOr10 tx)]),
        (∃ n : ℤ, e.total = n) ∧ 0 ≤ e.total ∧
          e.total + (|tx.amount| + (rest.map (fun t => |t.amount|)).sum) ≤ 2 ^ 53 := by
      intro e he
      split_ifs at he with hany
      · exact hmap e he
      · rcases List.mem_append.mp he with he | he
        · exact hmap e he
        · rw [List.mem_singleton] at he
          subst he
          refine ⟨⟨0, by simp [newStat]⟩, by simp [newStat], ?_⟩
          simp only [newStat_total, zero_add]
          exact hsum
    have hstep : statsStepR Float64.nearest categories map tx =
        statsStep categories map tx := by
      unfold statsStepR statsStep
      apply List.map_congr_left
      intro e he
      obtain ⟨⟨n, hn⟩, h0, hb⟩ := hmap2 e he
      have hfix : Float64.nearest (e.total + |tx.amount|) = e.total + |tx.amount| := by
        apply nearest_of_int _ (n + m)
        · rw [hn, hm]
          push_cast
          rfl
        · rw [abs_of_nonneg (by linarith)]
          linarith
      simp only [hfix]
    simp only [List.foldl_cons, hstep]
    apply ih (fun t ht => hint t (List.mem_cons_of_mem _ ht))
    · linarith
    · intro e' he'
      unfold statsStep at he'
      obtain ⟨e, he, rfl⟩ := List.mem_map.mp he'
      obtain ⟨⟨n, hn⟩, h0, hb⟩ := hmap2 e he
      split_ifs with hid
      · refine ⟨⟨n + m, ?_⟩, ?_, ?_⟩
        · show e.total + |tx.amount| = _
          rw [hn, hm]
          push_cast
          rfl
        · show 0 ≤ e.total + |tx.amount|
          linarith
        · show e.total + |tx.amount| + _ ≤ _
          linarith
      · exact ⟨⟨n, hn⟩, h0, by linarith⟩

theorem expenseTotal_int (k : Int) (l : List Transaction)
    (hint : ∀ t ∈ l, ∃ n : ℤ, t.amount = n) : ∃ n : ℤ, expenseTotal k l = n := by
  induction l with
  | nil => exact ⟨0, by simp [expenseTotal]⟩
  | cons t l ih =>
    obtain ⟨n, hn⟩ := ih (fun t' ht' => hint t' (List.mem_cons_of_mem _ ht'))
    obtain ⟨m, hm⟩ := abs_int t.amount (hint t (List.mem_cons_self _ _))
    rw [expenseTotal_cons]
    split_ifs
    · exact ⟨m + n, by rw [hm, hn]; push_cast; rfl⟩
    · exact ⟨n, by rw [hn, zero_add]⟩

theorem getExpenseR_int (s : Data) (dateFrom dateTo : Option Time)
    (hint : ∀ t ∈ expensesInPeriod s dateFrom dateTo, ∃ n : ℤ, t.amount = n)
    (hsum : ((expensesInPeriod s dateFrom dateTo).map (fun t => |t.amount|)).sum ≤ 2 ^ 53) :
    getExpenseR Float64.nearest s dateFrom dateTo = getExpense s dateFrom dateTo := by
  unfold getExpenseR getExpense _periodSumR _periodSum
  rw [expenses_eq, foldl_amount_eq, zero_add]
  have h := foldl_nearest_int ((expensesInPeriod s dateFrom dateTo).map (fun t => t.amount))
    (by
      intro x hx
      obtain ⟨t, ht, rfl⟩ := List.mem_map.mp hx
      exact hint t ht)
    0 ⟨0, by simp⟩
    (by
      rw [abs_zero, zero_add, List.map_map]
      exact hsum)
  rw [List.foldl_map, zero_add] at h
  rw [h]
  rfl

theorem getCategoryStatsR_perm (s : Data) (dateFrom dateTo : Option Time)
    (hint : ∀ t ∈ expensesInPeriod s dateFrom dateTo, ∃ n : ℤ, t.amount = n)
    (hsum : ((expensesInPeriod s dateFrom dateTo).map (fun t => |t.amount|)).sum ≤ 2 ^ 53) :
    (getCategoryStatsR Float64.nearest s dateFrom dateTo).Perm
      (getCategoryStats s dateFrom dateTo) := by
  have hfold := statsFoldR_eq s.categories (expensesInPeriod s dateFrom dateTo) hint [] hsum
    (by simp)
  have h1 : (getCategoryStatsR Float64.nearest s dateFrom dateTo).Perm
      ((expensesInPeriod s dateFrom dateTo).foldl (statsStep s.categories) []) := by
    unfold getCategoryStatsR
    simp only [expenses_eq, hfold]
    exact (sort_perm _ _).trans (objectValues_perm _)
  exact h1.trans (getCategoryStats_perm s dateFrom dateTo).symm

/-- C25, as stated, fails on doubles: for the expenses -0.1, -0.2 and -0.3 in three
categories `getExpense` returns 0.6000000000000001 (the sums are rounded in the order of
the list), while the totals of `getCategoryStats` are 0.3, 0.2 and 0.1, whose sum is not
that number, neither exactly nor as the double sum 0.3 + 0.2 + 0.1 = 0.6. -/
theorem stats_sum_differs_on_doubles :
    getExpenseR Float64.nearest
        { _data with
          categories := DEFAULT_CATEGORIES,
          transactions :=
            [⟨1, -(3602879701896397 / 36028797018963968), some 1, some "Еда", "🍔", some "a",
                "webapp", some 10⟩,
             ⟨2, -(3602879701896397 / 18014398509481984), some 2, some "Транспорт", "🚕",
                some "b", "webapp", some 20⟩,
             ⟨3, -(5404319552844595 / 18014398509481984), some 3, some "Покупки", "🛍",
                some "c", "webapp", some 30⟩] } none none =
        1351079888211149 / 2251799813685248 ∧
      (getCategoryStatsR Float64.nearest
        { _data with
          categories := DEFAULT_CATEGORIES,
          transactions :=
            [⟨1, -(3602879701896397 / 36028797018963968), some 1, some "Еда", "🍔", some "a",
                "webapp", some 10⟩,
             ⟨2, -(3602879701896397 / 18014398509481984), some 2, some "Транспорт", "🚕",
                some "b", "webapp", some 20⟩,
             ⟨3, -(5404319552844595 / 18014398509481984), some 3, some "Покупки", "🛍",
                some "c", "webapp", some 30⟩] } none none).map (fun e => e.total) =
        [5404319552844595 / 18014398509481984, 3602879701896397 / 18014398509481984,
          3602879701896397 / 36028797018963968] ∧
      ([5404319552844595 / 18014398509481984, 3602879701896397 / 18014398509481984,
          3602879701896397 / 36028797018963968] : List ℚ).sum ≠
        1351079888211149 / 2251799813685248 ∧
      sumR Float64.nearest
          [5404319552844595 / 18014398509481984, 3602879701896397 / 18014398509481984,
            3602879701896397 / 36028797018963968] =
        5404319552844595 / 9007199254740992 ∧
      (5404319552844595 / 9007199254740992 : ℚ) ≠ 1351079888211149 / 2251799813685248 := by
  have a1 : |(3602879701896397 / 36028797018963968 : ℚ)| =
      3602879701896397 / 36028797018963968 := abs_of_pos (by norm_num)
  have a2 : |(3602879701896397 / 18014398509481984 : ℚ)| =
      3602879701896397 / 18014398509481984 := abs_of_pos (by norm_num)
  have a3 : |(5404319552844595 / 18014398509481984 : ℚ)| =
      5404319552844595 / 18014398509481984 := abs_of_pos (by norm_num)
  have a4 : |(1351079888211149 / 2251799813685248 : ℚ)| =
      1351079888211149 / 2251799813685248 := abs_of_pos (by norm_num)
  refine ⟨?_, ?_, ?_, ?_, ?_⟩
  · norm_num [getExpenseR, _periodSumR, _data, _filterByDate, double_eval_25, double_eval_26,
      double_eval_27, a4]
  · norm_num [getCategoryStatsR, _data, _filterByDate, statsStepR, categoryIdOr10, newStat,
      objectValues, sort, sortInsert, DEFAULT_CATEGORIES, Float64.nearest_nonpos_iff,
      double_eval_28, double_eval_29, double_eval_30, a1, a2, a3]
  · norm_num
  · norm_num [sumR, double_eval_30, double_eval_31, double_eval_32]
  · norm_num

/-- C25, amended. Stats agree with the expense total when the sums are exact, for every
store and every period: without rounding (`rnd = id`, where the functions are the exact
ones) the sum of the `total` fields of `getCategoryStats(from, to)` equals
`getExpense(from, to)`; and on doubles the same holds when the expense amounts of the
period are whole numbers whose absolute values add up to at most 2^53: then the statistics
are those of exact arithmetic up to the order of the entries, `getExpense` is the exact sum
of the absolute amounts, and the totals add up to it, as an exact sum and as a
left-to-right sum of doubles alike. -/
theorem stats_sum_eq_expense (s : Data) (dateFrom dateTo : Option Time) :
    (((getCategoryStatsR id s dateFrom dateTo).map (fun e => e.total)).sum =
        getExpenseR id s dateFrom dateTo ∧
      getCategoryStatsR id s dateFrom dateTo = getCategoryStats s dateFrom dateTo ∧
      getExpenseR id s dateFrom dateTo = getExpense s dateFrom dateTo) ∧
    ((∀ t ∈ expensesInPeriod s dateFrom dateTo, ∃ n : ℤ, t.amount = n) →
      ((expensesInPeriod s dateFrom dateTo).map (fun t => |t.amount|)).sum ≤ 2 ^ 53 →
      ((getCategoryStatsR Float64.nearest s dateFrom dateTo).map (fun e => e.total)).sum =
          getExpenseR Float64.nearest s dateFrom dateTo ∧
        sumR Float64.nearest
            ((getCategoryStatsR Float64.nearest s dateFrom dateTo).map (fun e => e.total)) =
          getExpenseR Float64.nearest s dateFrom dateTo ∧
        getExpenseR Float64.nearest s dateFrom dateTo =
          ((expensesInPeriod s dateFrom dateTo).map (fun t => |t.amount|)).sum ∧
        (getCategoryStatsR Float64.nearest s dateFrom dateTo).Perm
          (getCategoryStats s dateFrom dateTo)) := by
  refine ⟨⟨?_, getCategoryStatsR_id s dateFrom dateTo, getExpenseR_id s dateFrom dateTo⟩, ?_⟩
  · rw [getCategoryStatsR_id, getExpenseR_id]
    exact stats_sum_exact s dateFrom dateTo
  · intro hint hsum
    have hperm := getCategoryStatsR_perm s dateFrom dateTo hint hsum
    have hexp := getExpenseR_int s dateFrom dateTo hint hsum
    have hexact : ((getCategoryStatsR Float64.nearest s dateFrom dateTo).map
        (fun e => e.total)).sum = getExpense s dateFrom dateTo := by
      rw [(hperm.map (fun e => e.total)).sum_eq]
      exact stats_sum_exact s dateFrom dateTo
    obtain ⟨_, _, hval⟩ := getCategoryStats_inv s dateFrom dateTo
    have hpos := stats_total_pos s dateFrom dateTo
    have hmemR : ∀ x ∈ (getCategoryStatsR Float64.nearest s dateFrom dateTo).map
        (fun e => e.total), (∃ n : ℤ, x = (n : ℚ)) ∧ 0 ≤ x := by
      intro x hx
      obtain ⟨e, he, rfl⟩ := List.mem_map.mp hx
      have he2 := hperm.mem_iff.mp he
      refine ⟨?_, le_of_lt (hpos e he2)⟩
      rw [(hval e he2).2.2.2]
      exact expenseTotal_int _ _ hint
    have habs : ((getCategoryStatsR Float64.nearest s dateFrom dateTo).map
        (fun e => e.total)).map (fun x => |x|) =
        (getCategoryStatsR Float64.nearest s dateFrom dateTo).map (fun e => e.total) := by
      conv_rhs => rw [← List.map_id ((getCategoryStatsR Float64.nearest s dateFrom dateTo).map
        (fun e => e.total))]
      apply List.map_congr_left
      intro x hx
      exact abs_of_nonneg (hmemR x hx).2
    have hfold := foldl_nearest_int
      ((getCategoryStatsR Float64.nearest s dateFrom dateTo).map (fun e => e.total))
      (fun x hx => (hmemR x hx).1) 0 ⟨0, by simp⟩
      (by
        rw [abs_zero, zero_add, habs, hexact, getExpense_eq]
        exact hsum)
    refine ⟨?_, ?_, ?_, hperm⟩
    · rw [hexact, hexp]
    · unfold sumR
      rw [hfold, zero_add, hexact, hexp]
    · rw [hexp, getExpense_eq]

/-- Witness for C25 amended: the whole-number expenses -5 and -3 in two categories; on
doubles the totals add up to 8, the value of `getExpense`. -/
theorem stats_sum_eq_expense_witness :
    ((getCategoryStatsR Float64.nearest
          { _data with
            categories := DEFAULT_CATEGORIES,
            transactions :=
              [⟨1, -5, some 1, some "Еда", "🍔", some "a", "webapp", some 10⟩,
               ⟨2, -3, some 2, some "Транспорт", "🚕", some "b", "webapp", some 20⟩] }
          none none).map (fun e => e.total)).sum = 8 ∧
      getExpenseR Float64.nearest
          { _data with
            categories := DEFAULT_CATEGORIES,
            transactions :=
              [⟨1, -5, some 1, some "Еда", "🍔", some "a", "webapp", some 10⟩,
               ⟨2, -3, some 2, some "Транспорт", "🚕", some "b", "webapp", some 20⟩] }
          none none = 8 := by
  have h := (stats_sum_eq_expense
    { _data with
      categories := DEFAULT_CATEGORIES,
      transactions :=
        [⟨1, -5, some 1, some "Еда", "🍔", some "a", "webapp", some 10⟩,
         ⟨2, -3, some 2, some "Транспорт", "🚕", some "b", "webapp", some 20⟩] }
    none none).2
    (by
      intro t ht
      simp only [expensesInPeriod, _data, List.mem_filter, List.mem_cons, List.mem_singleton,
        List.not_mem_nil, or_false] at ht
      rcases ht.1 with rfl | rfl
      · exact ⟨-5, by norm_num⟩
      · exact ⟨-3, by norm_num⟩)
    (by norm_num [expensesInPeriod, _data, inPeriod, List.filter])
  have h8 : ((expensesInPeriod
      { _data with
        categories := DEFAULT_CATEGORIES,
        transactions :=
          [⟨1, -5, some 1, some "Еда", "🍔", some "a", "webapp", some 10⟩,
           ⟨2, -3, some 2, some "Транспорт", "🚕", some "b", "webapp", some 20⟩] }
      none none).map (fun t => |t.amount|)).sum = 8 := by
    norm_num [expensesInPeriod, _data, inPeriod, List.filter]
  exact ⟨h.1.trans (h.2.2.1.trans h8), h.2.2.1.trans h8⟩

/-- C26. No division by zero on the ledger-to-donut path, for every store and period:
every entry of `getCategoryStats` has a total > 0; so when the result is non-empty the
sum `drawDonut` divides by is positive, the chart (not the placeholder, not a non-finite
drawing) is drawn with one segment record per entry, and every legend percentage is a
number, the rounded share of its entry. -/
theorem stats_donut_well_defined (s : Data) (dateFrom dateTo : Option Time) :
    (∀ e ∈ getCategoryStats s dateFrom dateTo, 0 < e.total) ∧
      (getCategoryStats s dateFrom dateTo ≠ [] →
        0 < ((getCategoryStats s dateFrom dateTo).map (fun e => e.total)).sum ∧
        (∃ slices endAngle,
          (Charts.drawDonut (getCategoryStats s dateFrom dateTo) true).canvas =
              DonutCanvas.chart slices endAngle
                (((getCategoryStats s dateFrom dateTo).map (fun e => e.total)).sum) ∧
            slices.map (fun x => x.sliceAngle) =
              (getCategoryStats s dateFrom dateTo).map (fun e =>
                e.total / ((getCategoryStats s dateFrom dateTo).map (fun e => e.total)).sum *
                  Math.PI * 2)) ∧
        (Charts.drawDonut (getCategoryStats s dateFrom dateTo) true).legend =
          some ((getCategoryStats s dateFrom dateTo).map (fun item =>
            { color := item.color, icon := item.icon, name := item.name,
              pct := some (roundHalfUp (item.total /
                ((getCategoryStats s dateFrom dateTo).map (fun e => e.total)).sum * 100)) }))) := by
  have hpos := stats_total_pos s dateFrom dateTo
  refine ⟨hpos, fun hne => ?_⟩
  have hsum : 0 < ((getCategoryStats s dateFrom dateTo).map (fun e => e.total)).sum := by
    apply List.sum_pos
    · intro x hx
      obtain ⟨e, he, rfl⟩ := List.mem_map.mp hx
      exact hpos e he
    · intro h
      exact hne (List.map_eq_nil_iff.mp h)
  have hlen : (getCategoryStats s dateFrom dateTo).length ≠ 0 :=
    fun h => hne (List.length_eq_zero.mp h)
  refine ⟨hsum, ⟨_, _, gapped_canvas _ true hne (ne_of_gt hsum),
    (gapped_loop_spec _ _ _).1⟩, ?_⟩
  have hleg := legend_eq _ (ne_of_gt hsum) (getCategoryStats s dateFrom dateTo)
    (fun d hd => (share_bounds _ (fun e he => le_of_lt (hpos e he)) hsum d hd).1)
  simp only [Charts.drawDonut, hlen, if_false, if_true, foldl_total_eq, zero_add, hleg]

/-- Witness for C26: a store with two expenses of different categories. -/
theorem stats_donut_well_defined_witness :
    0 < ((getCategoryStats
          { _data with
            categories := DEFAULT_CATEGORIES,
            transactions :=
              [⟨1, -5, some 1, some "Еда", "🍔", some "a", "webapp", some 10⟩,
               ⟨2, -3, some 2, some "Транспорт", "🚕", some "b", "webapp", some 20⟩] }
          none none).map (fun e => e.total)).sum :=
  ((stats_donut_well_defined
    { _data with
      categories := DEFAULT_CATEGORIES,
      transactions :=
        [⟨1, -5, some 1, some "Еда", "🍔", some "a", "webapp", some 10⟩,
         ⟨2, -3, some 2, some "Транспорт", "🚕", some "b", "webapp", some 20⟩] }
    none none).2
    (by
      intro h
      have := congrArg List.length h
      norm_num [getCategoryStats, _data, _filterByDate, statsStep, categoryIdOr10, newStat,
        objectValues, sort, sortInsert, DEFAULT_CATEGORIES] at this)).1

/-- C28. Add then delete is a round trip: in every reachable state, after an
`addTransaction` call whose assigned id (the clock reading) differs from the id of every
stored transaction, `deleteTransaction` with the id of the returned transaction gives
back the state before the add: the same transaction list in the same order, the same
balance, and every other field. -/
theorem add_delete_round_trip (d : Data) (cats : Option (List Category))
    (txs : Option (List Transaction)) (st : Option Settings) (ops : List Op)
    (idClock dateClock : Int) (amount : ℚ) (categoryId : Option Int) (description : String)
    (date : Option Time)
    (hfresh : ∀ t ∈ (run (init d cats txs st) ops).transactions, t.id ≠ idClock) :
    deleteTransaction
        (addTransaction (run (init d cats txs st) ops) idClock dateClock amount categoryId
          description date).1
        (addTransaction (run (init d cats txs st) ops) idClock dateClock amount categoryId
          description date).2.id =
      run (init d cats txs st) ops := by
  have hb := run_balance (init d cats txs st) ops (init_balance d cats txs st)
  generalize run (init d cats txs st) ops = s at hfresh hb
  cases s with
  | mk transactions categories balance currency weeklyDigest =>
    simp only at hb hfresh
    simp only [deleteTransaction, addTransaction, _recalcBalance, List.filter_append,
      filter_id_ne_of_absent _ idClock hfresh, foldl_amount_eq, zero_add, hb]
    simp

/-- Witness for C28: one stored transaction of id 5, then an add at clock 6. -/
theorem add_delete_round_trip_witness :
    deleteTransaction
        (addTransaction
          (run (init _data none none none) [Op.add ⟨5, 5, -3, some 1, "a", none⟩])
          6 6 10 (some 8) "b" none).1
        (addTransaction
          (run (init _data none none none) [Op.add ⟨5, 5, -3, some 1, "a", none⟩])
          6 6 10 (some 8) "b" none).2.id =
      run (init _data none none none) [Op.add ⟨5, 5, -3, some 1, "a", none⟩] :=
  add_delete_round_trip _data none none none [Op.add ⟨5, 5, -3, some 1, "a", none⟩]
    6 6 10 (some 8) "b" none
    (by simp [run, step, addTransaction, init, _data, _recalcBalance])

end SmartFinance
